import Mathlib

/-!
# The `Cheerio` constructor of `lib/cheerio.js`

A shallow embedding of the selection constructor and of `_make`.

JavaScript objects live in a heap (a list, an object's reference being its
position); a constructor call is a function from the heap before to the
returned value and the heap after.  The collaborators the file imports from
other modules (`parse`, `isHtml`, `flattenOptions`, `defaultOptions`, and the
`find` method mixed in from `./api/traversing`) are the fields of `Env`.
Every call of a collaborator is appended to a log, so that "is never invoked"
and "is invoked once with this argument" are statements about the log.
-/

namespace CheerioRc

/-! ## Values and objects -/

/-- Property keys: array indices and names. -/
inductive Key where
  | idx (i : Nat)
  | name (s : String)
  deriving DecidableEq, Repr

/-- JavaScript values.  Numbers are modelled as integers; objects are
references into the heap. -/
inductive Val where
  | undefined
  | null
  | bool (b : Bool)
  | num (n : Int)
  | str (s : String)
  | ref (r : Nat)
  deriving DecidableEq, Repr

/-- Own properties of an object, read by first match. -/
abbrev Props := List (Key × Val)

/-- Heap objects: an ordinary object (a DOM node, an options object, any other
object), an array without holes, an object whose prototype is
`Cheerio.prototype`, or an array with holes (as `[ , n]` or `new Array(2)`),
each slot of which is an element or empty. -/
inductive Obj where
  | plain (props : Props)
  | array (elems : List Val)
  | cheerio (props : Props)
  | sparse (slots : List (Option Val))
  deriving DecidableEq, Repr

/-- Calls of collaborators, in the order they are made. -/
inductive Event where
  | flatten (options : Val)
  | isHtml (text : String)
  | parse (text : String) (options : Val)
  | merge (arr1 arr2 : Val)
  | find (this selector : Val)
  deriving DecidableEq, Repr

/-- The heap and the log of collaborator calls. -/
structure State where
  heap : List Obj
  log : List Event
  deriving DecidableEq, Repr

/-- Ways a call can end without a value. -/
inductive Err where
  | typeError
  | thrown (code : Nat)
  | fuel
  deriving DecidableEq, Repr

abbrev Res := Except Err (Val × State)

/-- The collaborators of `lib/cheerio.js`, defined in other modules.
`parse` and `flattenOptions` read the heap and allocate: they return their
result and the objects they created, which are appended to the heap.  `parse`
returns (a reference to) the root node.  `find` is a method of the collection
it is called on; it may throw, and returns (a reference to) a collection and
the heap it leaves. -/
structure Env where
  defaultOptions : Props
  flattenOptions : List Obj → Val → Val × List Obj
  isHtml : String → Bool
  parse : List Obj → String → Val → Bool → Nat × List Obj
  find : List Obj → Nat → Val → Except Err (Nat × List Obj)
  objToString : List Obj → Nat → String

/-! ## Reading and writing properties -/

/-- JavaScript truthiness, as tested by `!x`, `if (x)` and `x && y`. -/
def truthy : Val → Bool
  | .undefined => false
  | .null => false
  | .bool b => b
  | .num n => n != 0
  | .str s => s != ""
  | .ref _ => true

/-- The test `typeof v === 'string'`. -/
def isString : Val → Bool
  | .str _ => true
  | _ => false

/-- The test `typeof v === 'object'` for a value already known to be truthy. -/
def isObject : Val → Bool
  | .ref _ => true
  | _ => false

/-- An own property of the object at `r`. -/
def getOwn (h : List Obj) (r : Nat) (k : Key) : Option Val :=
  match h[r]? with
  | some (.plain ps) => ps.lookup k
  | some (.cheerio ps) => ps.lookup k
  | some (.array xs) =>
    match k with
    | .idx i => xs[i]?
    | .name s => if s = "length" then some (.num xs.length) else none
  | some (.sparse ys) =>
    match k with
    | .idx i => (ys[i]?).join
    | .name s => if s = "length" then some (.num ys.length) else none
  | none => none

/-- What `Cheerio.prototype` holds as data: line 107,
`Cheerio.prototype.cheerio = '[cheerio object]'`. -/
def protoProp (h : List Obj) (r : Nat) (k : Key) : Val :=
  match h[r]? with
  | some (.cheerio _) => if k = .name "cheerio" then .str "[cheerio object]" else .undefined
  | _ => .undefined

/-- The read `v.k` (or `v[k]`) of one of the properties the constructor reads
(`cheerio`, `name`, `type`, `children`, `length`, `options`, `_root`, an
index) on a value other than `undefined` and `null`: the own property, else
the prototype's.  Primitives have none of these properties. -/
def getProp (h : List Obj) (v : Val) (k : Key) : Val :=
  match v with
  | .ref r =>
    match getOwn h r k with
    | some x => x
    | none => protoProp h r k
  | _ => .undefined

/-- The read `v.k` where `v` may be `undefined` or `null`, which throws. -/
def member (h : List Obj) (v : Val) (k : Key) : Except Err Val :=
  match v with
  | .undefined => .error .typeError
  | .null => .error .typeError
  | _ => .ok (getProp h v k)

/-- Removes the bindings of `k` from a property list. -/
def dropKey (k : Key) : Props → Props
  | [] => []
  | p :: ps => if p.1 = k then dropKey k ps else p :: dropKey k ps

/-- Binding `k` to `v` in a property list. -/
def setKey (ps : Props) (k : Key) (v : Val) : Props :=
  (k, v) :: dropKey k ps

/-- The assignment `r[k] = v` on an ordinary or `Cheerio` object (assignments
to named properties of arrays are not modelled: the constructor assigns to
`this` only, and `_make` to what the constructor returned). -/
def setProp (h : List Obj) (r : Nat) (k : Key) (v : Val) : List Obj :=
  match h[r]? with
  | some (.plain ps) => h.set r (.plain (setKey ps k v))
  | some (.cheerio ps) => h.set r (.cheerio (setKey ps k v))
  | _ => h

/-- The assignment `v[k] = x` in a state. -/
def State.assign (s : State) (v : Val) (k : Key) (x : Val) : State :=
  match v with
  | .ref r => { s with heap := setProp s.heap r k x }
  | _ => s

/-- Appends an event to the log. -/
def State.record (s : State) (e : Event) : State :=
  { s with log := s.log ++ [e] }

/-- Appends newly created objects to the heap. -/
def State.extend (s : State) (objs : List Obj) : State :=
  { s with heap := s.heap ++ objs }

/-- The test `v instanceof Cheerio`. -/
def instanceOfCheerio (h : List Obj) : Val → Bool
  | .ref r =>
    match h[r]? with
    | some (.cheerio _) => true
    | _ => false
  | _ => false

/-- The test `Array.isArray(v)` on an array without holes, with the elements
when it holds. -/
def asArray (h : List Obj) : Val → Option (List Val)
  | .ref r =>
    match h[r]? with
    | some (.array xs) => some xs
    | _ => none
  | _ => none

/-- The test `Array.isArray(v)` on an array with holes, with the slots when it
holds. -/
def asSparse (h : List Obj) : Val → Option (List (Option Val))
  | .ref r =>
    match h[r]? with
    | some (.sparse ys) => some ys
    | _ => none
  | _ => none

/-- The own enumerable properties `Object.assign` copies from a source:
those of an object, the elements of an array (its `length` is not
enumerable, a hole is no property), the characters of a string, nothing for
any other value. -/
def ownEnumerable (h : List Obj) : Val → Props
  | .ref r =>
    match h[r]? with
    | some (.plain ps) => ps
    | some (.cheerio ps) => ps
    | some (.array xs) => xs.enum.map (fun p => (Key.idx p.1, p.2))
    | some (.sparse ys) => ys.enum.filterMap (fun p => p.2.map (fun v => (Key.idx p.1, v)))
    | none => []
  | .str t => t.toList.enum.map (fun p => (Key.idx p.1, Val.str (String.singleton p.2)))
  | _ => []

/-- One source of `Object.assign` copied onto a target.  Property lists are
read by first match, so the source is copied from its end: each key ends up
bound to what the source reads for it. -/
def assignProps (target src : Props) : Props :=
  src.foldr (fun p t => setKey t p.1 p.2) target

/-- String conversion, as done by `+` with a string operand. -/
def toStr (E : Env) (h : List Obj) : Val → String
  | .undefined => "undefined"
  | .null => "null"
  | .bool b => if b then "true" else "false"
  | .num n => toString n
  | .str t => t
  | .ref r => E.objToString h r

/-- Numeric reading of a `length`. -/
def toNat : Val → Nat
  | .num n => n.toNat
  | _ => 0

/-! ## The constructor -/

/-- The operator `new` applied to a constructor body `F`: a fresh object with
prototype `Cheerio.prototype` is `this`; what the body returns is the result
when it is an object, `this` otherwise. -/
def construct (F : Val → State → Res) (s : State) : Res :=
  match F (.ref s.heap.length) (s.extend [.cheerio []]) with
  | .ok (v, s') => .ok (if isObject v then v else .ref s.heap.length, s')
  | .error e => .error e

/-- Lines 43-49: `this.length = 0` and
`this.options = Object.assign({}, defaultOptions, this.options, flattenOptions(options))`.
The arguments are evaluated from the left: the target is created, then
`this.options` is read, then `flattenOptions` is called. -/
def resolveOptions (E : Env) (this options : Val) (s : State) : State :=
  let s := s.assign this (.name "length") (.num 0)
  let target := s.heap.length
  let s := s.extend [.plain []]
  let own := getProp s.heap this (.name "options")
  let flat := E.flattenOptions s.heap options
  let s := (s.record (.flatten options)).extend flat.2
  let merged := assignProps (assignProps (assignProps [] E.defaultOptions)
    (ownEnumerable s.heap own)) (ownEnumerable s.heap flat.1)
  let s := { s with heap := s.heap.set target (.plain merged) }
  s.assign this (.name "options") (.ref target)

/-- Line 55: `if (typeof root === 'string') root = parse(root, this.options, false)`. -/
def parseRoot (E : Env) (this root : Val) (s : State) : Val × State :=
  match root with
  | .str t =>
    let opts := getProp s.heap this (.name "options")
    let p := E.parse s.heap t opts false
    (.ref p.1, (s.record (.parse t opts)).extend p.2)
  | _ => (root, s)

/-- Lines 54-57: `if (root) { ...; this._root = new Cheerio(root); }`, where
`ctor root` is the constructor body applied to `(root)`. -/
def bindRoot (E : Env) (ctor : Val → Val → State → Res) (this root : Val) (s : State) :
    Except Err State :=
  if truthy root then
    match construct (ctor (parseRoot E this root s).1) (parseRoot E this root s).2 with
    | .ok (r, s') => .ok (s'.assign this (.name "_root") r)
    | .error e => .error e
  else .ok s

/-- Lines 60-62: `if (typeof selector === 'string' && isHtml(selector))
selector = parse(selector, this.options, false).children`. -/
def markupSelector (E : Env) (this selector : Val) (s : State) : Val × State :=
  match selector with
  | .str t =>
    if E.isHtml t then
      let s := s.record (.isHtml t)
      let opts := getProp s.heap this (.name "options")
      let p := E.parse s.heap t opts false
      let s := (s.record (.parse t opts)).extend p.2
      (getProp s.heap (.ref p.1) (.name "children"), s)
    else (selector, s.record (.isHtml t))
  | _ => (selector, s)

/-- Lines 148-155: `obj.name || obj.type === 'root' || obj.type === 'text' ||
obj.type === 'comment'`. -/
def isNode (h : List Obj) (obj : Val) : Val :=
  if truthy (getProp h obj (.name "name")) then getProp h obj (.name "name")
  else .bool (getProp h obj (.name "type") = .str "root"
    || getProp h obj (.name "type") = .str "text"
    || getProp h obj (.name "type") = .str "comment")

/-- Line 68: `if (isNode(selector)) selector = [selector]`. -/
def wrapNode (selector : Val) (s : State) : Val × State :=
  if truthy (isNode s.heap selector) then (.ref s.heap.length, s.extend [.array [selector]])
  else (selector, s)

/-- Lines 72-75: `selector.forEach(function (elem, idx) { this[idx] = elem; }, this);
this.length = selector.length`, on an array without holes. -/
def populate (this : Val) (xs : List Val) (s : State) : State :=
  (xs.enum.foldl (fun s p => s.assign this (.idx p.1) p.2) s).assign this
    (.name "length") (.num xs.length)

/-- One step of `forEach` on line 72 on a slot of the array: `this[idx] = elem`
on an element, nothing on a hole. -/
def assignSlot (this : Val) (s : State) (p : Nat × Option Val) : State :=
  match p.2 with
  | some x => s.assign this (.idx p.1) x
  | none => s

/-- Lines 72-75 on an array with holes: `forEach` does not call its function on
a hole, so no property is assigned at the index of a hole; `selector.length`
counts the holes. -/
def populateSlots (this : Val) (ys : List (Option Val)) (s : State) : State :=
  (ys.enum.foldl (assignSlot this) s).assign this (.name "length") (.num ys.length)

/-- Modelled from the spec: `Cheerio.merge`, a static helper defined outside this
file and called on line 81.  Section 4.3, case 6 has the bound root treated as
the context; `merge(arr1, arr2)` appends the slots of `arr2` to those of
`arr1`, updates the length of `arr1` and returns `arr1`.  What `merge` does
on an argument that is not array-like (no numeric `length`, or no slot at an
index below it) is not modelled: the statements that rest on `merge` take a
contiguous collection as the bound root. -/
def merge (arr1 arr2 : Val) (s : State) : Val × State :=
  let start := toNat (getProp s.heap arr1 (.name "length"))
  let len := toNat (getProp s.heap arr2 (.name "length"))
  let s := (List.range len).foldl
    (fun s i => s.assign arr1 (.idx (start + i)) (getProp s.heap arr2 (.idx i))) s
  (arr1, (s.assign arr1 (.name "length") (.num (start + len))).record (.merge arr1 arr2))

/-- Lines 80-95: the resolution of the context; returns the selector and the
context as they stand on line 97.  `call x` is `Cheerio.call(this, x)`. -/
def resolveContext (E : Env) (call : Val → State → Res) (this selector context : Val)
    (s : State) : Except Err (Val × Val × State) :=
  if !truthy context && truthy (getProp s.heap this (.name "_root"))
      && truthy (getProp s.heap (getProp s.heap this (.name "_root")) (.name "length")) then
    -- context = Cheerio.merge(this, this._root)
    .ok (selector, merge this (getProp s.heap this (.name "_root")) s)
  else
    match context with
    | .str c =>
      if E.isHtml c then
        -- context = parse(context, this.options, false); context = Cheerio.call(this, context)
        let s := s.record (.isHtml c)
        let opts := getProp s.heap this (.name "options")
        let p := E.parse s.heap c opts false
        match call (.ref p.1) ((s.record (.parse c opts)).extend p.2) with
        | .ok (ctx, s') => .ok (selector, ctx, s')
        | .error e => .error e
      else
        -- selector = context + ' ' + selector; context = this._root
        .ok (.str (c ++ " " ++ toStr E s.heap selector), getProp s.heap this (.name "_root"),
          s.record (.isHtml c))
    | _ =>
      if truthy context && isObject context then
        -- context = context.cheerio ? context : Cheerio.call(this, context)
        if truthy (getProp s.heap context (.name "cheerio")) then .ok (selector, context, s)
        else
          match call context s with
          | .ok (ctx, s') => .ok (selector, ctx, s')
          | .error e => .error e
      else .ok (selector, context, s)

/-- Line 101: `context.find(selector)`.  The method is the one mixed into
`Cheerio.prototype`; any other truthy context has no callable `find` taking a
selector, and the call throws a `TypeError`. -/
def callFind (E : Env) (context selector : Val) (s : State) : Res :=
  match context with
  | .ref r =>
    match s.heap[r]? with
    | some (.cheerio ps) =>
      match ps.lookup (.name "find") with
      | some _ => .error .typeError
      | none =>
        match E.find s.heap r selector with
        | .ok (v, h) => .ok (.ref v, { heap := h, log := s.log ++ [.find context selector] })
        | .error e => .error e
    | _ => .error .typeError
  | _ => .error .typeError

/-- Lines 38-102: the function `Cheerio`, called with `this` and its four
arguments.  The first argument bounds the depth of the calls the function
makes to itself (`new Cheerio(...)` on lines 40 and 56, `Cheerio.call` on
lines 86 and 94). -/
def Cheerio (E : Env) : Nat → Val → Val → Val → Val → Val → State → Res
  | 0, _, _, _, _, _, _ => .error .fuel
  | n + 1, this, selector, context, root, options, s =>
    -- if (!(this instanceof Cheerio)) return new Cheerio(selector, context, root, options)
    if instanceOfCheerio s.heap this = false then
      construct (fun t => Cheerio E n t selector context root options) s
    else
      let s := resolveOptions E this options s
      -- if (!selector) return this
      if truthy selector = false then .ok (this, s)
      else
        match bindRoot E
          (fun x t => Cheerio E n t x .undefined .undefined .undefined) this root s with
        | .error e => .error e
        | .ok s =>
          let sel := markupSelector E this selector s
          -- if (selector.cheerio) return selector
          match member sel.2.heap sel.1 (.name "cheerio") with
          | .error e => .error e
          | .ok mark =>
            if truthy mark then .ok (sel.1, sel.2)
            else
              let sel := wrapNode sel.1 sel.2
              -- if (Array.isArray(selector)) { ...; return this }
              match asArray sel.2.heap sel.1 with
              | some xs => .ok (this, populate this xs sel.2)
              | none =>
                match asSparse sel.2.heap sel.1 with
                | some ys => .ok (this, populateSlots this ys sel.2)
                | none =>
                  match resolveContext E
                    (fun x => Cheerio E n this x .undefined .undefined .undefined)
                    this sel.1 context sel.2 with
                  | .error e => .error e
                  | .ok (selector, context, s) =>
                    -- if (!context) return this
                    if truthy context = false then .ok (this, s)
                    -- return context.find(selector)
                    else callFind E context selector s

/-- Lines 122-126: `Cheerio.prototype._make`, with `this.constructor` the
function `Cheerio`. -/
def _make (E : Env) (n : Nat) (this dom context : Val) (s : State) : Res :=
  match construct (fun t => Cheerio E n t dom context
      (getProp s.heap this (.name "_root")) (getProp s.heap this (.name "options"))) s with
  | .ok (cheerio, s') => .ok (cheerio, s'.assign cheerio (.name "prevObject") this)
  | .error e => .error e

/-- Lines 43-57 of a top-level call: the state in which line 59 is reached,
`this` being the object the call created. -/
def prelude (E : Env) (n : Nat) (root options : Val) (s : State) : Except Err State :=
  bindRoot E (fun x t => Cheerio E n t x .undefined .undefined .undefined)
    (.ref s.heap.length) root
    (resolveOptions E (.ref s.heap.length) options (s.extend [.cheerio []]))

/-- The value `parse(text, options, false).children` and the heap after the
call of `parse` in heap `h`. -/
def parsedChildren (E : Env) (text : String) (options : Val) (h : List Obj) : Val × List Obj :=
  (getProp (h ++ (E.parse h text options false).2) (.ref (E.parse h text options false).1)
    (.name "children"), h ++ (E.parse h text options false).2)

/-- The properties of a new collection after lines 43-49. -/
def freshProps (L : Nat) : Props :=
  [(.name "options", .ref (L + 1)), (.name "length", .num 0)]

/-- The heap in which a top-level call on heap `h` calls `flattenOptions`: the
new collection, with `length` set, and the target of `Object.assign`. -/
def freshHeap (h : List Obj) : List Obj :=
  h ++ [.cheerio [(.name "length", .num 0)], .plain []]

/-- The properties of the options object a top-level call builds on lines
44-49: the defaults, overridden by what `flattenOptions(options)` holds. -/
def effectiveOptions (E : Env) (options : Val) (h : List Obj) : Props :=
  assignProps (assignProps [] E.defaultOptions)
    (ownEnumerable (freshHeap h ++ (E.flattenOptions (freshHeap h) options).2)
      (E.flattenOptions (freshHeap h) options).1)

/-! ## A concrete environment and heap -/

/-- Collaborators for the examples: the defaults of the library, a
`flattenOptions` that returns its argument, a classifier that accepts what
starts with `<`, a parser that returns a root node with one child `p`, a
`find` that returns a new empty collection recording what it was called with. -/
def sampleEnv : Env where
  defaultOptions := [(.name "xml", .bool false), (.name "decodeEntities", .bool true)]
  flattenOptions := fun _ v => (v, [])
  isHtml := fun t =>
    match t.data with
    | '<' :: _ => true
    | _ => false
  parse := fun h _ _ _ => (h.length,
    [.plain [(.name "type", .str "root"), (.name "children", .ref (h.length + 1))],
     .array [.ref (h.length + 2)],
     .plain [(.name "name", .str "p")]])
  find := fun h r sel => .ok (h.length,
    h ++ [.cheerio [(.name "length", .num 0), (.name "prevObject", .ref r),
      (.name "selector", sel)]])
  objToString := fun _ _ => "[object Object]"

/-- A heap for the examples: a document collection holding one node (0), the
node `ul` (1), an array of nodes (2), a collection derived from the document
(3), its options (4), an empty collection (5). -/
def sampleState : State where
  heap := [
    .cheerio [(.idx 0, .ref 1), (.name "length", .num 1)],
    .plain [(.name "name", .str "ul")],
    .array [.ref 1, .ref 1],
    .cheerio [(.name "_root", .ref 0), (.name "options", .ref 4), (.name "length", .num 0)],
    .plain [(.name "xml", .bool false), (.name "decodeEntities", .bool true)],
    .cheerio [(.name "length", .num 0)]]
  log := []

/-! ## Options, contiguity and the root -/

/-- The heap in which line 48 calls `flattenOptions`, in a call on `this`:
`length` is set and the target of `Object.assign` is created. -/
def flattenHeap (this : Val) (s : State) : List Obj :=
  (s.assign this (.name "length") (.num 0)).heap ++ [.plain []]

/-- The value `flattenOptions(options)` of line 48. -/
def flattened (E : Env) (this options : Val) (s : State) : Val :=
  (E.flattenOptions (flattenHeap this s) options).1

/-- The heap in which `Object.assign` of line 44 copies its sources. -/
def assignHeap (E : Env) (this options : Val) (s : State) : List Obj :=
  flattenHeap this s ++ (E.flattenOptions (flattenHeap this s) options).2

/-- A heap for the options examples: a collection with options (0), its
options (1), the options of a call (2). -/
def optionsState : State where
  heap := [
    .cheerio [(.name "options", .ref 1), (.name "length", .num 0)],
    .plain [(.name "xml", .bool true), (.name "a", .num 1), (.name "b", .num 1)],
    .plain [(.name "decodeEntities", .bool false), (.name "a", .num 2)]]
  log := []

/-- The invariant of a collection at `r`: `length` is a number `len` and the
indexed properties the object has are exactly those of the indices below
`len`. -/
def Contiguous (h : List Obj) (r : Nat) : Prop :=
  ∃ len : Nat, getProp h (.ref r) (.name "length") = .num len
    ∧ ∀ i, (getOwn h r (.idx i)).isSome = true ↔ i < len

/-- The collaborator calls of lines 54-57, `options` being `this.options`: a
string root is parsed, and `new Cheerio(root)` resolves its own options. -/
def rootEvents (root options : Val) : List Event :=
  if truthy root then
    match root with
    | .str r => [.parse r options, .flatten .undefined]
    | _ => [.flatten .undefined]
  else []

/-- Line 55 of a top-level call: the argument of `new Cheerio(root)` on line
56, a string root having been parsed, and the state in which it is called. -/
def rootArgument (E : Env) (root options : Val) (s : State) : Val × State :=
  parseRoot E (.ref s.heap.length) root
    (resolveOptions E (.ref s.heap.length) options (s.extend [.cheerio []]))

/-- What lines 68-77 populate a collection from: an array without holes, of
elements `xs`, or a node that carries no signature, `xs` being that node
alone. -/
def Wrappable (h : List Obj) (x : Val) (xs : List Val) : Prop :=
  asArray h x = some xs
    ∨ (truthy (isNode h x) = true ∧ truthy (getProp h x (.name "cheerio")) = false
        ∧ xs = [x])

/-- The sample heap with one more object, the array `[ , ul]`, whose slot 0 is
a hole (6). -/
def holeState : State where
  heap := sampleState.heap ++ [.sparse [none, some (.ref 1)]]
  log := []

/-- The value `parse(text, options, false)`, a reference to the root node the
parser returned, and the heap after the call of `parse` in heap `h`. -/
def parsedRoot (E : Env) (text : String) (options : Val) (h : List Obj) : Val × List Obj :=
  (.ref (E.parse h text options false).1, h ++ (E.parse h text options false).2)

/-- The heap of a top-level call on `s` when line 54 is reached: the new
collection is at `s.heap.length`, with `length` 0, and its `options`, the
object lines 44-49 built, at `s.heap.length + 1`. -/
def resolvedHeap (E : Env) (options : Val) (s : State) : List Obj :=
  (resolveOptions E (.ref s.heap.length) options (s.extend [.cheerio []])).heap

/-- The roots that lines 54-57 wrap in a new collection, with the nodes `ys`
that collection then holds: an array without holes (its elements), a node
that carries no signature (that node), or a non-empty string (line 55), for
which `parse(root, this.options, false)` is what is wrapped. -/
def RootWraps (E : Env) (root options : Val) (s : State) (ys : List Val) : Prop :=
  match root with
  | .str r =>
    r ≠ "" ∧ Wrappable (parsedRoot E r (.ref (s.heap.length + 1)) (resolvedHeap E options s)).2
      (parsedRoot E r (.ref (s.heap.length + 1)) (resolvedHeap E options s)).1 ys
  | _ => Wrappable s.heap root ys

/-! ## Lemmas -/

/-! ## Property lists and the heap -/

theorem lookup_dropKey_ne (ps : Props) {k k' : Key} (h : k' ≠ k) :
    (dropKey k ps).lookup k' = ps.lookup k' := by
  induction ps with
  | nil => rfl
  | cons p ps ih =>
    obtain ⟨a, b⟩ := p
    by_cases hak : a = k
    · have : (k' == a) = false := by simpa [hak] using h
      simp [dropKey, hak, List.lookup_cons, ih]
      simp [← hak, this]
    · simp only [dropKey, hak, if_false, List.lookup_cons, ih]

theorem lookup_dropKey_self (ps : Props) (k : Key) : (dropKey k ps).lookup k = none := by
  induction ps with
  | nil => rfl
  | cons p ps ih =>
    obtain ⟨a, b⟩ := p
    by_cases hak : a = k
    · simp [dropKey, hak, ih]
    · have : (k == a) = false := by simpa using fun h => hak h.symm
      simp [dropKey, hak, List.lookup_cons, this, ih]

theorem lookup_setKey_same (ps : Props) (k : Key) (v : Val) :
    (setKey ps k v).lookup k = some v := by
  simp [setKey]

theorem lookup_setKey_ne (ps : Props) {k k' : Key} (v : Val) (h : k' ≠ k) :
    (setKey ps k v).lookup k' = ps.lookup k' := by
  have : (k' == k) = false := by simpa using h
  simp [setKey, List.lookup_cons, this, lookup_dropKey_ne ps h]

theorem length_setProp (h : List Obj) (r : Nat) (k : Key) (v : Val) :
    (setProp h r k v).length = h.length := by
  unfold setProp
  split <;> simp

theorem getElem?_setProp_ne (h : List Obj) {r r' : Nat} (k : Key) (v : Val) (hne : r ≠ r') :
    (setProp h r k v)[r']? = h[r']? := by
  unfold setProp
  split <;> simp [List.getElem?_set_ne hne]

theorem getElem?_setProp_cheerio {h : List Obj} {r : Nat} {ps : Props} (k : Key) (v : Val)
    (hr : h[r]? = some (.cheerio ps)) :
    (setProp h r k v)[r]? = some (.cheerio (setKey ps k v)) := by
  have hlt : r < h.length := by
    rcases Nat.lt_or_ge r h.length with hlt | hge
    · exact hlt
    · rw [List.getElem?_eq_none hge] at hr; cases hr
  simp [setProp, hr, List.getElem?_set_self hlt]

theorem getElem?_setProp_plain {h : List Obj} {r : Nat} {ps : Props} (k : Key) (v : Val)
    (hr : h[r]? = some (.plain ps)) :
    (setProp h r k v)[r]? = some (.plain (setKey ps k v)) := by
  have hlt : r < h.length := by
    rcases Nat.lt_or_ge r h.length with hlt | hge
    · exact hlt
    · rw [List.getElem?_eq_none hge] at hr; cases hr
  simp [setProp, hr, List.getElem?_set_self hlt]

/-- Reading a property depends on the object read only. -/
theorem getProp_congr {h h' : List Obj} {r : Nat} (k : Key) (hr : h'[r]? = h[r]?) :
    getProp h' (.ref r) k = getProp h (.ref r) k := by
  simp [getProp, getOwn, protoProp, hr]

theorem asArray_congr {h h' : List Obj} {r : Nat} (hr : h'[r]? = h[r]?) :
    asArray h' (.ref r) = asArray h (.ref r) := by
  simp [asArray, hr]

theorem asSparse_congr {h h' : List Obj} {r : Nat} (hr : h'[r]? = h[r]?) :
    asSparse h' (.ref r) = asSparse h (.ref r) := by
  simp [asSparse, hr]

theorem getProp_prim (h h' : List Obj) (v : Val) (k : Key) (hv : isObject v = false) :
    getProp h' v k = getProp h v k := by
  cases v <;> simp_all [getProp, isObject]

@[simp]
theorem assign_log (s : State) (v : Val) (k : Key) (x : Val) :
    (s.assign v k x).log = s.log := by
  cases v <;> rfl

@[simp]
theorem assign_length (s : State) (v : Val) (k : Key) (x : Val) :
    (s.assign v k x).heap.length = s.heap.length := by
  cases v <;> simp [State.assign, length_setProp]

theorem assign_other (s : State) {t r : Nat} (k : Key) (x : Val) (hne : t ≠ r) :
    (s.assign (.ref t) k x).heap[r]? = s.heap[r]? := by
  simp [State.assign, getElem?_setProp_ne _ _ _ hne]

theorem assign_self {s : State} {t : Nat} {ps : Props} (k : Key) (x : Val)
    (ht : s.heap[t]? = some (.cheerio ps)) :
    (s.assign (.ref t) k x).heap[t]? = some (.cheerio (setKey ps k x)) := by
  simp [State.assign, getElem?_setProp_cheerio _ _ ht]

/-! ## The steps of the constructor -/

theorem getElem?_lt_length {h : List Obj} {r : Nat} {o : Obj} (hr : h[r]? = some o) :
    r < h.length := by
  rcases Nat.lt_or_ge r h.length with hlt | hge
  · exact hlt
  · rw [List.getElem?_eq_none hge] at hr; cases hr

/-- Lines 43-49 change `this` and create objects; every other object stays. -/
theorem resolveOptions_other (E : Env) (t : Nat) (options : Val) (s : State) {r : Nat}
    (hr : r < s.heap.length) (hne : r ≠ t) :
    (resolveOptions E (.ref t) options s).heap[r]? = s.heap[r]? := by
  have h1 : s.heap.length ≠ r := by omega
  have h2 : t ≠ r := fun h => hne h.symm
  simp only [resolveOptions, State.extend, State.record]
  rw [assign_other _ _ _ h2]
  simp only [assign_length, List.append_assoc]
  rw [List.getElem?_set_ne h1, List.getElem?_append_left (by simpa using hr), assign_other _ _ _ h2]

theorem resolveOptions_self (E : Env) {t : Nat} {ps : Props} (options : Val) {s : State}
    (ht : s.heap[t]? = some (.cheerio ps)) :
    (resolveOptions E (.ref t) options s).heap[t]? =
      some (.cheerio (setKey (setKey ps (.name "length") (.num 0)) (.name "options")
        (.ref s.heap.length))) := by
  have hlt := getElem?_lt_length ht
  have h1 : s.heap.length ≠ t := by omega
  simp only [resolveOptions, State.extend, State.record, assign_length]
  apply assign_self
  simp only [List.append_assoc]
  rw [List.getElem?_set_ne h1, List.getElem?_append_left (by simpa using hlt)]
  exact assign_self _ _ ht

theorem resolveOptions_log (E : Env) (this options : Val) (s : State) :
    (resolveOptions E this options s).log = s.log ++ [.flatten options] := by
  simp [resolveOptions, State.extend, State.record]

theorem resolveOptions_length (E : Env) (this options : Val) (s : State) :
    s.heap.length < (resolveOptions E this options s).heap.length := by
  simp [resolveOptions, State.extend, State.record]

theorem foldl_assign_other (t : Nat) {r : Nat} (hne : t ≠ r) (ps : List (Nat × Val)) :
    ∀ s : State, (ps.foldl (fun s p => s.assign (.ref t) (.idx p.1) p.2) s).heap[r]? = s.heap[r]? := by
  induction ps with
  | nil => intro s; rfl
  | cons p ps ih =>
    intro s
    rw [List.foldl_cons, ih, assign_other _ _ _ hne]

theorem foldl_assign_log (t : Nat) (ps : List (Nat × Val)) :
    ∀ s : State, (ps.foldl (fun s p => s.assign (.ref t) (.idx p.1) p.2) s).log = s.log := by
  induction ps with
  | nil => intro s; rfl
  | cons p ps ih => intro s; rw [List.foldl_cons, ih, assign_log]

theorem foldl_assign_length (t : Nat) (ps : List (Nat × Val)) :
    ∀ s : State,
      (ps.foldl (fun s p => s.assign (.ref t) (.idx p.1) p.2) s).heap.length = s.heap.length := by
  induction ps with
  | nil => intro s; rfl
  | cons p ps ih => intro s; rw [List.foldl_cons, ih, assign_length]

/-- The loop of line 72 writes the elements at their indices and nothing else. -/
theorem foldl_assign_self (t : Nat) (xs : List Val) :
    ∀ (n : Nat) (s : State) (ps : Props), s.heap[t]? = some (.cheerio ps) →
      ∃ ps', ((xs.enumFrom n).foldl (fun s p => s.assign (.ref t) (.idx p.1) p.2) s).heap[t]?
          = some (.cheerio ps')
        ∧ (∀ k, (∀ i, k = .idx i → i < n ∨ n + xs.length ≤ i) → ps'.lookup k = ps.lookup k)
        ∧ (∀ i, i < xs.length → ps'.lookup (.idx (n + i)) = xs[i]?) := by
  induction xs with
  | nil =>
    intro n s ps ht
    exact ⟨ps, by simpa using ht, fun _ _ => rfl, fun i hi => by simp at hi⟩
  | cons x xs ih =>
    intro n s ps ht
    obtain ⟨ps', h1, h2, h3⟩ := ih (n + 1) (s.assign (.ref t) (.idx n) x) _
      (assign_self (.idx n) x ht)
    refine ⟨ps', by simpa [List.enumFrom_cons] using h1, ?_, ?_⟩
    · intro k hk
      rw [h2 k]
      · apply lookup_setKey_ne
        intro hkn
        rcases hk n hkn with h | h
        · omega
        · simp at h
      · intro i hi
        rcases hk i hi with h | h
        · left; omega
        · right; simp at h; omega
    · intro i hi
      cases i with
      | zero =>
        rw [Nat.add_zero, h2 (.idx n)]
        · simp [lookup_setKey_same]
        · intro i hi
          left
          cases hi
          omega
      | succ j =>
        have := h3 j (by simpa using hi)
        simpa [Nat.add_assoc, Nat.add_comm 1 j] using this

theorem populate_other (t : Nat) (xs : List Val) (s : State) {r : Nat} (hne : t ≠ r) :
    (populate (.ref t) xs s).heap[r]? = s.heap[r]? := by
  rw [populate, assign_other _ _ _ hne, List.enum, foldl_assign_other t hne]

theorem populate_log (t : Nat) (xs : List Val) (s : State) :
    (populate (.ref t) xs s).log = s.log := by
  rw [populate, assign_log, foldl_assign_log]

theorem populate_length (t : Nat) (xs : List Val) (s : State) :
    (populate (.ref t) xs s).heap.length = s.heap.length := by
  rw [populate, assign_length, foldl_assign_length]

/-- Lines 72-75 on a `Cheerio` object: the slots below the length of the array
are its elements, `length` is its length, every other property stays. -/
theorem populate_self {t : Nat} {ps : Props} (xs : List Val) {s : State}
    (ht : s.heap[t]? = some (.cheerio ps)) :
    ∃ ps', (populate (.ref t) xs s).heap[t]? = some (.cheerio ps')
      ∧ ps'.lookup (.name "length") = some (.num xs.length)
      ∧ (∀ i, i < xs.length → ps'.lookup (.idx i) = xs[i]?)
      ∧ (∀ i, xs.length ≤ i → ps'.lookup (.idx i) = ps.lookup (.idx i))
      ∧ (∀ k, k ≠ "length" → ps'.lookup (.name k) = ps.lookup (.name k)) := by
  obtain ⟨ps1, h1, h2, h3⟩ := foldl_assign_self t xs 0 s ps ht
  refine ⟨_, assign_self (.name "length") (.num xs.length) h1, lookup_setKey_same _ _ _, ?_, ?_, ?_⟩
  · intro i hi
    rw [lookup_setKey_ne _ _ (by simp)]
    simpa using h3 i hi
  · intro i hi
    rw [lookup_setKey_ne _ _ (by simp), h2]
    intro j hj
    cases hj
    right; simpa using hi
  · intro k hk
    rw [lookup_setKey_ne _ _ (by simpa using hk), h2]
    intro j hj
    cases hj

theorem foldl_slots_other (t : Nat) {r : Nat} (hne : t ≠ r) (ps : List (Nat × Option Val)) :
    ∀ s : State, (ps.foldl (assignSlot (.ref t)) s).heap[r]? = s.heap[r]? := by
  induction ps with
  | nil => intro s; rfl
  | cons p ps ih =>
    intro s
    rw [List.foldl_cons, ih]
    obtain ⟨i, y⟩ := p
    cases y with
    | none => rfl
    | some x => exact assign_other _ _ _ hne

theorem foldl_slots_log (this : Val) (ps : List (Nat × Option Val)) :
    ∀ s : State, (ps.foldl (assignSlot this) s).log = s.log := by
  induction ps with
  | nil => intro s; rfl
  | cons p ps ih =>
    intro s
    rw [List.foldl_cons, ih]
    obtain ⟨i, y⟩ := p
    cases y with
    | none => rfl
    | some x => exact assign_log _ _ _ _

theorem foldl_slots_length (this : Val) (ps : List (Nat × Option Val)) :
    ∀ s : State, (ps.foldl (assignSlot this) s).heap.length = s.heap.length := by
  induction ps with
  | nil => intro s; rfl
  | cons p ps ih =>
    intro s
    rw [List.foldl_cons, ih]
    obtain ⟨i, y⟩ := p
    cases y with
    | none => rfl
    | some x => exact assign_length _ _ _ _

/-- The loop of line 72 on an array with holes writes the elements at their
indices and nothing else: nothing is written at the index of a hole. -/
theorem foldl_slots_self (t : Nat) (ys : List (Option Val)) :
    ∀ (n : Nat) (s : State) (ps : Props), s.heap[t]? = some (.cheerio ps) →
      ∃ ps', ((ys.enumFrom n).foldl (assignSlot (.ref t)) s).heap[t]? = some (.cheerio ps')
        ∧ (∀ k, (∀ i, k = .idx (n + i) → ∀ x, ys[i]? ≠ some (some x)) →
            ps'.lookup k = ps.lookup k)
        ∧ (∀ i x, ys[i]? = some (some x) → ps'.lookup (.idx (n + i)) = some x) := by
  induction ys with
  | nil =>
    intro n s ps ht
    exact ⟨ps, by simpa using ht, fun _ _ => rfl, fun i x hi => by simp at hi⟩
  | cons y ys ih =>
    intro n s ps ht
    cases y with
    | none =>
      obtain ⟨ps', h1, h2, h3⟩ := ih (n + 1) s ps ht
      refine ⟨ps', by simpa [List.enumFrom_cons] using h1, ?_, ?_⟩
      · intro k hk
        apply h2
        intro i hi x
        have := hk (i + 1) (by rw [hi]; congr 1; omega) x
        simpa using this
      · intro i x hi
        cases i with
        | zero => simp at hi
        | succ j =>
          have := h3 j x (by simpa using hi)
          simpa [Nat.add_assoc, Nat.add_comm 1 j] using this
    | some v =>
      obtain ⟨ps', h1, h2, h3⟩ := ih (n + 1) (s.assign (.ref t) (.idx n) v) _
        (assign_self (.idx n) v ht)
      refine ⟨ps', by simpa [List.enumFrom_cons] using h1, ?_, ?_⟩
      · intro k hk
        rw [h2 k]
        · apply lookup_setKey_ne
          intro hkn
          have := hk 0 (by rw [hkn]; rfl) v
          simp at this
        · intro i hi x
          have := hk (i + 1) (by rw [hi]; congr 1; omega) x
          simpa using this
      · intro i x hi
        cases i with
        | zero =>
          have hx : v = x := by simpa using hi
          subst hx
          rw [Nat.add_zero, h2 (.idx n)]
          · simp [lookup_setKey_same]
          · intro i hi
            injection hi with hi
            omega
        | succ j =>
          have := h3 j x (by simpa using hi)
          simpa [Nat.add_assoc, Nat.add_comm 1 j] using this

theorem populateSlots_other (t : Nat) (ys : List (Option Val)) (s : State) {r : Nat}
    (hne : t ≠ r) : (populateSlots (.ref t) ys s).heap[r]? = s.heap[r]? := by
  rw [populateSlots, assign_other _ _ _ hne, List.enum, foldl_slots_other t hne]

theorem populateSlots_log (this : Val) (ys : List (Option Val)) (s : State) :
    (populateSlots this ys s).log = s.log := by
  rw [populateSlots, assign_log, foldl_slots_log]

theorem populateSlots_length (this : Val) (ys : List (Option Val)) (s : State) :
    (populateSlots this ys s).heap.length = s.heap.length := by
  rw [populateSlots, assign_length, foldl_slots_length]

/-- Lines 72-75 on a `Cheerio` object and an array with holes: the slots at the
indices of the elements are the elements, `length` is the length of the array,
every other property stays; no slot is written at the index of a hole. -/
theorem populateSlots_self {t : Nat} {ps : Props} (ys : List (Option Val)) {s : State}
    (ht : s.heap[t]? = some (.cheerio ps)) :
    ∃ ps', (populateSlots (.ref t) ys s).heap[t]? = some (.cheerio ps')
      ∧ ps'.lookup (.name "length") = some (.num ys.length)
      ∧ (∀ i x, ys[i]? = some (some x) → ps'.lookup (.idx i) = some x)
      ∧ (∀ i, (∀ x, ys[i]? ≠ some (some x)) → ps'.lookup (.idx i) = ps.lookup (.idx i))
      ∧ (∀ k, k ≠ "length" → ps'.lookup (.name k) = ps.lookup (.name k)) := by
  obtain ⟨ps1, h1, h2, h3⟩ := foldl_slots_self t ys 0 s ps ht
  refine ⟨_, assign_self (.name "length") (.num ys.length) h1, lookup_setKey_same _ _ _,
    ?_, ?_, ?_⟩
  · intro i x hi
    rw [lookup_setKey_ne _ _ (by simp)]
    simpa using h3 i x hi
  · intro i hi
    rw [lookup_setKey_ne _ _ (by simp), h2]
    intro j hj x
    injection hj with hj
    have : i = j := by omega
    subst this
    exact hi x
  · intro k hk
    rw [lookup_setKey_ne _ _ (by simpa using hk), h2]
    intro j hj
    cases hj

theorem instanceOf_of_cheerio {h : List Obj} {t : Nat} {ps : Props}
    (ht : h[t]? = some (.cheerio ps)) : instanceOfCheerio h (.ref t) = true := by
  simp [instanceOfCheerio, ht]

theorem truthy_getProp_isObject {h : List Obj} {v : Val} {k : Key}
    (hv : truthy (getProp h v k) = true) : ∃ r, v = .ref r ∧ r < h.length := by
  cases v with
  | ref r =>
    refine ⟨r, rfl, ?_⟩
    rcases Nat.lt_or_ge r h.length with hlt | hge
    · exact hlt
    · simp [getProp, getOwn, protoProp, List.getElem?_eq_none hge, truthy] at hv
  | _ => simp [getProp, truthy] at hv

theorem bindRoot_falsy (E : Env) (ctor : Val → Val → State → Res) (this root : Val) (s : State)
    (hr : truthy root = false) : bindRoot E ctor this root s = .ok s := by
  simp [bindRoot, hr]

theorem markupSelector_nonstring (E : Env) (this x : Val) (s : State)
    (hx : isString x = false) : markupSelector E this x s = (x, s) := by
  cases x <;> simp_all [markupSelector, isString]

theorem member_truthy (h : List Obj) {x : Val} (k : Key) (hx : truthy x = true) :
    member h x k = .ok (getProp h x k) := by
  cases x <;> simp_all [member, truthy]

/-- Lines 80-95 when there is neither a context nor a bound root. -/
theorem resolveContext_none (E : Env) (call : Val → State → Res) (this sel : Val) (s : State)
    (hr : truthy (getProp s.heap this (.name "_root")) = false) :
    resolveContext E call this sel .undefined s = .ok (sel, .undefined, s) := by
  have hu : truthy .undefined = false := rfl
  simp [resolveContext, hr, hu]

theorem getProp_of_cheerio {h : List Obj} {t : Nat} {ps : Props} {k : String}
    (ht : h[t]? = some (.cheerio ps)) (hk : k ≠ "cheerio") (hp : ps.lookup (.name k) = none) :
    getProp h (.ref t) (.name k) = .undefined := by
  simp [getProp, getOwn, protoProp, ht, hp, hk]

theorem getProp_of_lookup {h : List Obj} {t : Nat} {ps : Props} {k : Key} {v : Val}
    (ht : h[t]? = some (.cheerio ps)) (hp : ps.lookup k = some v) :
    getProp h (.ref t) k = v := by
  simp [getProp, getOwn, ht, hp]

theorem wrapNode_other (x : Val) (s : State) {r : Nat} (hr : r < s.heap.length) :
    (wrapNode x s).2.heap[r]? = s.heap[r]? := by
  unfold wrapNode
  split
  · simp [State.extend, List.getElem?_append_left hr]
  · rfl

theorem wrapNode_length (x : Val) (s : State) : s.heap.length ≤ (wrapNode x s).2.heap.length := by
  unfold wrapNode
  split <;> simp [State.extend]

theorem wrapNode_log (x : Val) (s : State) : (wrapNode x s).2.log = s.log := by
  unfold wrapNode
  split <;> simp [State.extend]

theorem Cheerio_inner (E : Env) (n t : Nat) (ps : Props) (x : Val) (s : State)
    (ht : s.heap[t]? = some (.cheerio ps)) (hroot : ps.lookup (.name "_root") = none)
    (hx : isString x = false) :
    ∃ v s', Cheerio E (n + 1) (.ref t) x .undefined .undefined .undefined s = .ok (v, s')
      ∧ (v = .ref t ∨ v = x) ∧ isObject v = true
      ∧ (truthy (getProp s.heap x (.name "cheerio")) = true → v = x)
      ∧ (∀ r, r < s.heap.length → r ≠ t → s'.heap[r]? = s.heap[r]?)
      ∧ s.heap.length ≤ s'.heap.length
      ∧ s'.log = s.log ++ [.flatten .undefined] := by
  have hinst := instanceOf_of_cheerio ht
  have htl := getElem?_lt_length ht
  have hself := resolveOptions_self E .undefined ht
  have hlen := resolveOptions_length E (.ref t) .undefined s
  have hlog := resolveOptions_log E (.ref t) .undefined s
  have hoth := fun r (h1 : r < s.heap.length) (h2 : r ≠ t) =>
    resolveOptions_other E t .undefined s h1 h2
  rw [Cheerio]
  simp only [hinst, Bool.true_eq_false, if_false]
  generalize resolveOptions E (.ref t) .undefined s = s1 at *
  have hmarked : truthy (getProp s.heap x (.name "cheerio")) = true →
      truthy (getProp s1.heap x (.name "cheerio")) = true ∨ x = .ref t := by
    intro hm
    obtain ⟨r, rfl, hr⟩ := truthy_getProp_isObject hm
    by_cases hrt : r = t
    · right; rw [hrt]
    · left; rw [getProp_congr _ (hoth r hr hrt)]; exact hm
  by_cases hxt : truthy x = false
  · refine ⟨.ref t, s1, by simp [hxt], Or.inl rfl, rfl, ?_, hoth, by omega, hlog⟩
    intro hm
    obtain ⟨r, rfl, _⟩ := truthy_getProp_isObject hm
    simp [truthy] at hxt
  · have hxt' : truthy x = true := by simpa using hxt
    simp only [hxt, if_false, bindRoot_falsy E _ _ .undefined s1 rfl,
      markupSelector_nonstring E _ x s1 hx, member_truthy s1.heap _ hxt']
    by_cases hm : truthy (getProp s1.heap x (.name "cheerio")) = true
    · obtain ⟨r, rfl, _⟩ := truthy_getProp_isObject hm
      exact ⟨.ref r, s1, by simp [hm], Or.inr rfl, rfl, fun _ => rfl, hoth, by omega, hlog⟩
    · simp only [hm, if_false]
      have hv : truthy (getProp s.heap x (.name "cheerio")) = true → Val.ref t = x := by
        intro h
        rcases hmarked h with h | h
        · exact absurd h hm
        · exact h.symm
      have hoth2 : ∀ r, r < s.heap.length → r ≠ t → (wrapNode x s1).2.heap[r]? = s.heap[r]? := by
        intro r h1 h2
        rw [wrapNode_other x s1 (by omega), hoth r h1 h2]
      have hself2 := hself
      rw [← wrapNode_other x s1 (by omega : t < s1.heap.length)] at hself2
      have hlen2 := wrapNode_length x s1
      cases harr : asArray (wrapNode x s1).2.heap (wrapNode x s1).1 with
      | some xs =>
        refine ⟨.ref t, _, rfl, Or.inl rfl, rfl, hv, ?_, ?_, ?_⟩
        · intro r h1 h2
          rw [populate_other _ _ _ (fun h => h2 h.symm), hoth2 r h1 h2]
        · rw [populate_length]; omega
        · rw [populate_log, wrapNode_log, hlog]
      | none =>
        cases hsp : asSparse (wrapNode x s1).2.heap (wrapNode x s1).1 with
        | some ys =>
          refine ⟨.ref t, _, rfl, Or.inl rfl, rfl, hv, ?_, ?_, ?_⟩
          · intro r h1 h2
            rw [populateSlots_other _ _ _ (fun h => h2 h.symm), hoth2 r h1 h2]
          · rw [populateSlots_length]; omega
          · rw [populateSlots_log, wrapNode_log, hlog]
        | none =>
          have hrt : truthy (getProp (wrapNode x s1).2.heap (.ref t) (.name "_root"))
              = false := by
            rw [getProp_of_cheerio hself2 (by decide)]
            · rfl
            · rw [lookup_setKey_ne _ _ (by decide), lookup_setKey_ne _ _ (by decide), hroot]
          simp only [resolveContext_none E _ _ _ _ hrt]
          refine ⟨.ref t, _, by simp [truthy], Or.inl rfl, rfl, hv, hoth2, by omega, ?_⟩
          rw [wrapNode_log, hlog]

/-- `new Cheerio(x)` for an `x` that is not a string (line 56, after line 55):
it returns an object, `x` itself when `x` carries the signature; it creates
objects and changes none; it calls `flattenOptions` and nothing else. -/
theorem construct_root (E : Env) (n : Nat) (x : Val) (s : State) (hx : isString x = false) :
    ∃ v s', construct (fun t => Cheerio E (n + 1) t x .undefined .undefined .undefined) s
        = .ok (v, s')
      ∧ isObject v = true
      ∧ (truthy (getProp s.heap x (.name "cheerio")) = true → v = x)
      ∧ (∀ r, r < s.heap.length → s'.heap[r]? = s.heap[r]?)
      ∧ s.heap.length ≤ s'.heap.length
      ∧ s'.log = s.log ++ [.flatten .undefined] := by
  have ht : (s.extend [.cheerio []]).heap[s.heap.length]? = some (.cheerio []) := by
    simp [State.extend]
  obtain ⟨v, s', h1, _, h3, h4, h5, h6, h7⟩ :=
    Cheerio_inner E n s.heap.length [] x (s.extend [.cheerio []]) ht rfl hx
  have hlen : (s.extend [.cheerio []]).heap.length = s.heap.length + 1 := by simp [State.extend]
  refine ⟨v, s', ?_, h3, ?_, ?_, by omega, by simpa [State.extend] using h7⟩
  · simp [construct, h1, h3]
  · intro hm
    apply h4
    obtain ⟨r, rfl, hr⟩ := truthy_getProp_isObject hm
    rw [getProp_congr]
    · exact hm
    · simp [State.extend, List.getElem?_append_left hr]
  · intro r hr
    rw [h5 r (by omega) (by omega)]
    simp [State.extend, List.getElem?_append_left hr]

theorem parseRoot_not_string (E : Env) (this root : Val) (s : State) :
    isString (parseRoot E this root s).1 = false := by
  cases root <;> simp [parseRoot, isString]

theorem parseRoot_other (E : Env) (this root : Val) (s : State) {r : Nat}
    (hr : r < s.heap.length) : (parseRoot E this root s).2.heap[r]? = s.heap[r]? := by
  cases root <;> simp [parseRoot, State.extend, State.record, List.getElem?_append_left hr]

theorem parseRoot_length (E : Env) (this root : Val) (s : State) :
    s.heap.length ≤ (parseRoot E this root s).2.heap.length := by
  cases root <;> simp [parseRoot, State.extend, State.record]

theorem parseRoot_log (E : Env) (this root : Val) (s : State) :
    ∃ evs, (parseRoot E this root s).2.log = s.log ++ evs ∧ ∀ a b, Event.find a b ∉ evs := by
  cases root with
  | str t =>
    exact ⟨[.parse t (getProp s.heap this (.name "options"))],
      by simp only [parseRoot, State.extend, State.record], by simp⟩
  | _ => exact ⟨[], by simp [parseRoot], by simp⟩

theorem parseRoot_nonstring (E : Env) (this root : Val) (s : State) (hr : isString root = false) :
    parseRoot E this root s = (root, s) := by
  cases root <;> simp_all [parseRoot, isString]

/-- Lines 54-57 never fail and never call `find`; they set `this._root` and
leave every other property and every other object as they were. -/
theorem bindRoot_ok (E : Env) (n t : Nat) (ps : Props) (root : Val) (s : State)
    (ht : s.heap[t]? = some (.cheerio ps)) :
    ∃ s1, bindRoot E (fun x t => Cheerio E (n + 1) t x .undefined .undefined .undefined)
        (.ref t) root s = .ok s1
      ∧ (∀ r, r < s.heap.length → r ≠ t → s1.heap[r]? = s.heap[r]?)
      ∧ (∃ ps1, s1.heap[t]? = some (.cheerio ps1)
          ∧ (∀ k, k ≠ .name "_root" → ps1.lookup k = ps.lookup k)
          ∧ (truthy root = false → ps1 = ps)
          ∧ (truthy (getProp s.heap root (.name "cheerio")) = true →
              ps1 = setKey ps (.name "_root") root))
      ∧ s.heap.length ≤ s1.heap.length
      ∧ (∃ evs, s1.log = s.log ++ evs ∧ ∀ a b, Event.find a b ∉ evs) := by
  have htl := getElem?_lt_length ht
  by_cases hr : truthy root = false
  · refine ⟨s, bindRoot_falsy E _ _ _ _ hr, fun _ _ _ => rfl,
      ⟨ps, ht, fun _ _ => rfl, fun _ => rfl, ?_⟩, Nat.le_refl _, [], by simp, by simp⟩
    intro hm
    obtain ⟨r, rfl, _⟩ := truthy_getProp_isObject hm
    simp [truthy] at hr
  · obtain ⟨v, s', h1, h2, h3, h4, h5, h6⟩ := construct_root E n (parseRoot E (.ref t) root s).1
      (parseRoot E (.ref t) root s).2 (parseRoot_not_string E _ root s)
    have hpl := parseRoot_length E (.ref t) root s
    obtain ⟨evs, hevs, hnf⟩ := parseRoot_log E (.ref t) root s
    have ht' : s'.heap[t]? = some (.cheerio ps) := by
      rw [h4 t (by omega), parseRoot_other E _ root s htl, ht]
    refine ⟨s'.assign (.ref t) (.name "_root") v, ?_, ?_, ?_, ?_, ?_⟩
    · simp [bindRoot, hr, h1]
    · intro r hr1 hr2
      rw [assign_other _ _ _ (fun h => hr2 h.symm), h4 r (by omega), parseRoot_other E _ root s hr1]
    · refine ⟨_, assign_self _ _ ht', fun k hk => lookup_setKey_ne _ _ hk,
        fun h => absurd h hr, ?_⟩
      intro hm
      obtain ⟨r, rfl, hrl⟩ := truthy_getProp_isObject hm
      rw [parseRoot_nonstring E _ (.ref r) s rfl] at h3
      rw [h3 hm]
    · rw [assign_length]; omega
    · refine ⟨evs ++ [.flatten .undefined], ?_, ?_⟩
      · rw [assign_log, h6, hevs, List.append_assoc]
      · intro a b hab
        rcases List.mem_append.mp hab with h | h
        · exact hnf a b h
        · simp at h

/-- A call without `new` (line 40): `this` is not a `Cheerio` object. -/
theorem Cheerio_undefined (E : Env) (n : Nat) (selector context root options : Val) (s : State) :
    Cheerio E (n + 1) .undefined selector context root options s
      = construct (fun t => Cheerio E n t selector context root options) s := by
  rw [Cheerio]
  simp [instanceOfCheerio]

/-- The body of the function when `this` is a `Cheerio` object. -/
theorem Cheerio_instance (E : Env) (n : Nat) (this selector context root options : Val)
    (s : State) (h : instanceOfCheerio s.heap this = true) :
    Cheerio E (n + 2) this selector context root options s =
      if truthy selector = false then .ok (this, resolveOptions E this options s)
      else
        match bindRoot E
          (fun x t => Cheerio E (n + 1) t x .undefined .undefined .undefined) this root
          (resolveOptions E this options s) with
        | .error e => .error e
        | .ok s =>
          match member (markupSelector E this selector s).2.heap
            (markupSelector E this selector s).1 (.name "cheerio") with
          | .error e => .error e
          | .ok mark =>
            if truthy mark then
              .ok ((markupSelector E this selector s).1, (markupSelector E this selector s).2)
            else
              match asArray
                (wrapNode (markupSelector E this selector s).1
                  (markupSelector E this selector s).2).2.heap
                (wrapNode (markupSelector E this selector s).1
                  (markupSelector E this selector s).2).1 with
              | some xs =>
                .ok (this, populate this xs
                  (wrapNode (markupSelector E this selector s).1
                    (markupSelector E this selector s).2).2)
              | none =>
                match asSparse
                  (wrapNode (markupSelector E this selector s).1
                    (markupSelector E this selector s).2).2.heap
                  (wrapNode (markupSelector E this selector s).1
                    (markupSelector E this selector s).2).1 with
                | some ys =>
                  .ok (this, populateSlots this ys
                    (wrapNode (markupSelector E this selector s).1
                      (markupSelector E this selector s).2).2)
                | none =>
                  match resolveContext E
                    (fun x => Cheerio E (n + 1) this x .undefined .undefined .undefined) this
                    (wrapNode (markupSelector E this selector s).1
                      (markupSelector E this selector s).2).1 context
                    (wrapNode (markupSelector E this selector s).1
                      (markupSelector E this selector s).2).2 with
                  | .error e => .error e
                  | .ok (selector, context, s) =>
                    if truthy context = false then .ok (this, s)
                    else callFind E context selector s := by
  show Cheerio E (n + 1 + 1) this selector context root options s = _
  rw [Cheerio]
  simp only [h, Bool.true_eq_false, if_false]

/-- A top-level call creates the collection it works on. -/
theorem Cheerio_top (E : Env) (n : Nat) (selector context root options : Val) (s : State) :
    Cheerio E (n + 3) .undefined selector context root options s =
      match Cheerio E (n + 2) (.ref s.heap.length) selector context root options
          (s.extend [.cheerio []]) with
      | .ok (v, s') => .ok (if isObject v then v else .ref s.heap.length, s')
      | .error e => .error e := by
  rw [Cheerio_undefined, construct]

theorem fresh_instance (s : State) :
    instanceOfCheerio (s.extend [.cheerio []]).heap (.ref s.heap.length) = true := by
  simp [instanceOfCheerio, State.extend]

theorem freshProps_length (L : Nat) :
    (freshProps L).lookup (.name "length") = some (.num 0) := rfl

theorem freshProps_options (L : Nat) :
    (freshProps L).lookup (.name "options") = some (.ref (L + 1)) := rfl

theorem freshProps_idx (L i : Nat) : (freshProps L).lookup (.idx i) = none := rfl

theorem freshProps_name (L : Nat) {k : String} (h1 : k ≠ "options") (h2 : k ≠ "length") :
    (freshProps L).lookup (.name k) = none := by
  have e1 : (Key.name k == Key.name "options") = false := by simpa using h1
  have e2 : (Key.name k == Key.name "length") = false := by simpa using h2
  simp [freshProps, List.lookup, e1, e2]

@[simp]
theorem truthy_ref (r : Nat) : truthy (.ref r) = true := rfl

@[simp]
theorem isObject_ref (r : Nat) : isObject (.ref r) = true := rfl

@[simp]
theorem isString_ref (r : Nat) : isString (.ref r) = false := rfl

/-- Lines 43-57 on the object a top-level call creates. -/
theorem fresh_prelude (E : Env) (n : Nat) (root options : Val) (s : State) :
    ∃ s1, bindRoot E (fun x t => Cheerio E (n + 1) t x .undefined .undefined .undefined)
        (.ref s.heap.length) root
        (resolveOptions E (.ref s.heap.length) options (s.extend [.cheerio []])) = .ok s1
      ∧ (∀ r, r < s.heap.length → s1.heap[r]? = s.heap[r]?)
      ∧ (∃ ps1, s1.heap[s.heap.length]? = some (.cheerio ps1)
          ∧ (∀ k, k ≠ .name "_root" → ps1.lookup k = (freshProps s.heap.length).lookup k)
          ∧ (truthy root = false → ps1 = freshProps s.heap.length)
          ∧ (truthy (getProp s.heap root (.name "cheerio")) = true →
              ps1 = setKey (freshProps s.heap.length) (.name "_root") root))
      ∧ s.heap.length < s1.heap.length
      ∧ (∃ evs, s1.log = s.log ++ .flatten options :: evs ∧ ∀ a b, Event.find a b ∉ evs) := by
  have ht : (s.extend [.cheerio []]).heap[s.heap.length]? = some (.cheerio []) := by
    simp [State.extend]
  have hlen : (s.extend [.cheerio []]).heap.length = s.heap.length + 1 := by simp [State.extend]
  have hself := resolveOptions_self E options ht
  have hfresh : setKey (setKey [] (.name "length") (.num 0)) (.name "options")
      (.ref (s.extend [.cheerio []]).heap.length) = freshProps s.heap.length := by
    rw [hlen]; simp [setKey, dropKey, freshProps]
  rw [hfresh] at hself
  have hl0 := resolveOptions_length E (.ref s.heap.length) options (s.extend [.cheerio []])
  obtain ⟨s1, h1, h2, ⟨ps1, h3, h4, h5, h6⟩, h7, evs, h8, h9⟩ :=
    bindRoot_ok E n s.heap.length _ root _ hself
  refine ⟨s1, h1, ?_, ⟨ps1, h3, h4, h5, ?_⟩, by omega, evs, ?_, h9⟩
  · intro r hr
    rw [h2 r (by omega) (by omega), resolveOptions_other E _ _ _ (by omega) (by omega)]
    simp [State.extend, List.getElem?_append_left hr]
  · intro hm
    apply h6
    obtain ⟨r, rfl, hr⟩ := truthy_getProp_isObject hm
    rw [getProp_congr]
    · exact hm
    · rw [resolveOptions_other E _ _ _ (by omega) (by omega)]
      simp [State.extend, List.getElem?_append_left hr]
  · rw [h8, resolveOptions_log]
    simp [State.extend]

/-- Lines 54-57 leave the objects that lines 43-49 created, `this` apart. -/
theorem prelude_frame (E : Env) (n : Nat) (root options : Val) (s s1 : State)
    (hp : bindRoot E (fun x t => Cheerio E (n + 1) t x .undefined .undefined .undefined)
        (.ref s.heap.length) root
        (resolveOptions E (.ref s.heap.length) options (s.extend [.cheerio []])) = .ok s1)
    (r : Nat)
    (hr : r < (resolveOptions E (.ref s.heap.length) options
      (s.extend [.cheerio []])).heap.length) (hne : r ≠ s.heap.length) :
    s1.heap[r]? = (resolveOptions E (.ref s.heap.length) options
      (s.extend [.cheerio []])).heap[r]? := by
  have ht : (s.extend [.cheerio []]).heap[s.heap.length]? = some (.cheerio []) := by
    simp [State.extend]
  obtain ⟨s1', h1, h2, _⟩ := bindRoot_ok E n s.heap.length _ root _
    (resolveOptions_self E options ht)
  rw [hp] at h1
  injection h1 with h1
  rw [h1]
  exact h2 r hr hne

/-- The loop of `Cheerio.merge`, after `m` rounds. -/
theorem merge_loop {t R : Nat} {ps : Props} {s : State} (start : Nat)
    (ht : s.heap[t]? = some (.cheerio ps)) (hne : t ≠ R) (m : Nat) :
    ∃ ps', ((List.range m).foldl (fun s i => s.assign (.ref t) (.idx (start + i))
          (getProp s.heap (.ref R) (.idx i))) s).heap[t]? = some (.cheerio ps')
      ∧ (∀ i, i < m → ps'.lookup (.idx (start + i)) = some (getProp s.heap (.ref R) (.idx i)))
      ∧ (∀ k, (∀ i, k = .idx i → i < start ∨ start + m ≤ i) → ps'.lookup k = ps.lookup k)
      ∧ (∀ r, r ≠ t → ((List.range m).foldl (fun s i => s.assign (.ref t) (.idx (start + i))
          (getProp s.heap (.ref R) (.idx i))) s).heap[r]? = s.heap[r]?)
      ∧ ((List.range m).foldl (fun s i => s.assign (.ref t) (.idx (start + i))
          (getProp s.heap (.ref R) (.idx i))) s).log = s.log := by
  induction m with
  | zero => exact ⟨ps, by simpa using ht, fun i hi => by omega, fun _ _ => rfl, fun _ _ => rfl, rfl⟩
  | succ m ih =>
    obtain ⟨ps', h1, h2, h3, h4, h5⟩ := ih
    rw [List.range_succ, List.foldl_append]
    simp only [List.foldl_cons, List.foldl_nil]
    refine ⟨_, assign_self _ _ h1, ?_, ?_, ?_, ?_⟩
    · intro i hi
      by_cases him : i = m
      · subst him
        rw [lookup_setKey_same, getProp_congr _ (h4 R (fun h => hne h.symm))]
      · rw [lookup_setKey_ne _ _ (by simp; omega), h2 i (by omega)]
    · intro k hk
      rw [lookup_setKey_ne, h3 k]
      · intro i hi
        rcases hk i hi with h | h
        · left; exact h
        · right; omega
      · intro hkm
        rcases hk _ hkm with h | h <;> omega
    · intro r hr
      rw [assign_other _ _ _ (fun h => hr h.symm), h4 r hr]
    · rw [assign_log, h5]

theorem merge_fst (arr1 arr2 : Val) (s : State) : (merge arr1 arr2 s).1 = arr1 := rfl

theorem merge_log (t R : Nat) {ps : Props} (s : State)
    (ht : s.heap[t]? = some (.cheerio ps)) (hne : t ≠ R) :
    (merge (.ref t) (.ref R) s).2.log = s.log ++ [.merge (.ref t) (.ref R)] := by
  obtain ⟨_, _, _, _, _, h5⟩ := merge_loop (toNat (getProp s.heap (.ref t) (.name "length")))
    ht hne (toNat (getProp s.heap (.ref R) (.name "length")))
  simp only [merge, State.record, assign_log, h5]

theorem merge_other (t R : Nat) {ps : Props} (s : State)
    (ht : s.heap[t]? = some (.cheerio ps)) (hne : t ≠ R) {r : Nat} (hr : r ≠ t) :
    (merge (.ref t) (.ref R) s).2.heap[r]? = s.heap[r]? := by
  obtain ⟨_, _, _, _, h4, _⟩ := merge_loop (toNat (getProp s.heap (.ref t) (.name "length")))
    ht hne (toNat (getProp s.heap (.ref R) (.name "length")))
  simp only [merge, State.record]
  rw [assign_other _ _ _ (fun h => hr h.symm), h4 r hr]

/-- `Cheerio.merge(this, root)` on a collection of length 0: the slots of the
root become the slots of `this`, in the same order. -/
theorem merge_self {t R : Nat} {ps : Props} {s : State}
    (ht : s.heap[t]? = some (.cheerio ps)) (hne : t ≠ R)
    (hlen : ps.lookup (.name "length") = some (.num 0)) :
    ∃ ps', (merge (.ref t) (.ref R) s).2.heap[t]? = some (.cheerio ps')
      ∧ ps'.lookup (.name "length")
          = some (.num (toNat (getProp s.heap (.ref R) (.name "length"))))
      ∧ (∀ i, i < toNat (getProp s.heap (.ref R) (.name "length")) →
          ps'.lookup (.idx i) = some (getProp s.heap (.ref R) (.idx i)))
      ∧ (∀ i, toNat (getProp s.heap (.ref R) (.name "length")) ≤ i →
          ps'.lookup (.idx i) = ps.lookup (.idx i))
      ∧ (∀ k, k ≠ "length" → ps'.lookup (.name k) = ps.lookup (.name k)) := by
  have hstart : toNat (getProp s.heap (.ref t) (.name "length")) = 0 := by
    rw [getProp_of_lookup ht hlen]; rfl
  obtain ⟨ps', h1, h2, h3, _, _⟩ := merge_loop 0 ht hne
    (toNat (getProp s.heap (.ref R) (.name "length")))
  simp only [merge, State.record, hstart]
  refine ⟨_, assign_self _ _ h1, ?_, ?_, ?_, ?_⟩
  · rw [lookup_setKey_same]; simp
  · intro i hi
    rw [lookup_setKey_ne _ _ (by simp)]
    simpa using h2 i hi
  · intro i hi
    rw [lookup_setKey_ne _ _ (by simp), h3]
    intro j hj
    cases hj
    right; omega
  · intro k hk
    rw [lookup_setKey_ne _ _ (by simpa using hk), h3]
    intro j hj
    cases hj

/-- `Object.assign` key by key: the source wins, the target shows through. -/
theorem lookup_assignProps (target src : Props) (k : Key) :
    (assignProps target src).lookup k =
      match src.lookup k with
      | some v => some v
      | none => target.lookup k := by
  induction src with
  | nil => rfl
  | cons p src ih =>
    obtain ⟨a, b⟩ := p
    by_cases hk : k = a
    · subst hk
      simp [assignProps, lookup_setKey_same]
    · have e : (k == a) = false := by simpa using hk
      have : assignProps target ((a, b) :: src) = setKey (assignProps target src) a b := rfl
      rw [this, lookup_setKey_ne _ _ hk, ih, List.lookup_cons, e]

/-- The options object lines 44-49 build. -/
theorem resolveOptions_target (E : Env) (t : Nat) (options : Val) (s : State)
    (ht : t ≠ s.heap.length) :
    (resolveOptions E (.ref t) options s).heap[s.heap.length]? =
      some (.plain (assignProps (assignProps (assignProps [] E.defaultOptions)
        (ownEnumerable
          ((s.assign (.ref t) (.name "length") (.num 0)).heap ++ [.plain []]
            ++ (E.flattenOptions
              ((s.assign (.ref t) (.name "length") (.num 0)).heap ++ [.plain []]) options).2)
          (getProp ((s.assign (.ref t) (.name "length") (.num 0)).heap ++ [.plain []])
            (.ref t) (.name "options"))))
        (ownEnumerable
          ((s.assign (.ref t) (.name "length") (.num 0)).heap ++ [.plain []]
            ++ (E.flattenOptions
              ((s.assign (.ref t) (.name "length") (.num 0)).heap ++ [.plain []]) options).2)
          (E.flattenOptions
            ((s.assign (.ref t) (.name "length") (.num 0)).heap ++ [.plain []])
              options).1))) := by
  simp only [resolveOptions, State.extend, State.record, assign_length]
  rw [assign_other _ _ _ ht, List.getElem?_set_self]
  simp

theorem assign_fresh (s : State) (k : Key) (v : Val) :
    ((s.extend [.cheerio []]).assign (.ref s.heap.length) k v).heap
      = s.heap ++ [.cheerio [(k, v)]] := by
  simp [State.assign, State.extend, setProp, setKey, dropKey]

/-- The options object of a top-level call. -/
theorem resolveOptions_fresh (E : Env) (options : Val) (s : State) :
    (resolveOptions E (.ref s.heap.length) options (s.extend [.cheerio []])).heap[
        s.heap.length + 1]? = some (.plain (effectiveOptions E options s.heap)) := by
  have hlen : (s.extend [.cheerio []]).heap.length = s.heap.length + 1 := by
    simp [State.extend]
  have h := resolveOptions_target E s.heap.length options (s.extend [.cheerio []])
    (by rw [hlen]; omega)
  rw [hlen, assign_fresh] at h
  rw [h]
  have hown : getProp (s.heap ++ [.cheerio [(.name "length", .num 0)]] ++ [.plain []])
      (.ref s.heap.length) (.name "options") = .undefined := by
    have ht : (s.heap ++ [.cheerio [(.name "length", .num 0)]] ++ [.plain []])[s.heap.length]?
        = some (.cheerio [(.name "length", .num 0)]) := by
      rw [List.append_assoc, List.getElem?_append_right (Nat.le_refl _), Nat.sub_self]
      rfl
    exact getProp_of_cheerio ht (by decide) rfl
  rw [hown]
  simp [effectiveOptions, freshHeap, ownEnumerable, assignProps]

/-! ## The claims -/

/-- Claim C1: for every object `c` that carries the signature `cheerio`, and for
every root and options, `Cheerio(c, context, root, options)` returns `c` itself
whatever the context is (the value and the final state are the same for every
context); every object that existed before the call, `c` among them, is
unchanged, so every property of `c` reads as before; `find` is not called. -/
theorem rewrap_returns_selector (E : Env) (n : Nat) (c root options : Val) (s : State)
    (hc : truthy (getProp s.heap c (.name "cheerio")) = true) :
    ∃ s', (∀ context, Cheerio E (n + 3) .undefined c context root options s = .ok (c, s'))
      ∧ (∀ r, r < s.heap.length → s'.heap[r]? = s.heap[r]?)
      ∧ (∀ k, getProp s'.heap c k = getProp s.heap c k)
      ∧ (∃ evs, s'.log = s.log ++ evs ∧ ∀ a b, Event.find a b ∉ evs) := by
  obtain ⟨r, rfl, hr⟩ := truthy_getProp_isObject hc
  obtain ⟨s1, h1, h2, _, h4, evs, h5, h6⟩ := fresh_prelude E n root options s
  have hc1 : truthy (getProp s1.heap (.ref r) (.name "cheerio")) = true := by
    rw [getProp_congr _ (h2 r hr)]; exact hc
  refine ⟨s1, ?_, h2, fun k => getProp_congr k (h2 r hr), .flatten options :: evs, h5, ?_⟩
  · intro context
    rw [Cheerio_top, Cheerio_instance _ _ _ _ _ _ _ _ (fresh_instance s)]
    simp only [h1, truthy_ref, Bool.true_eq_false, if_false]
    rw [markupSelector_nonstring E _ (.ref r) _ rfl]
    simp only [member_truthy _ _ (truthy_ref r), hc1, if_true, isObject_ref]
  · intro a b hab
    rcases List.mem_cons.mp hab with h | h
    · cases h
    · exact h6 a b h

/-- Claim C1 on the document collection of the sample heap, with a markup
root. -/
theorem rewrap_returns_selector_witness :
    ∃ s', (∀ context, Cheerio sampleEnv 3 .undefined (.ref 0) context (.str "<a>") .undefined
        sampleState = .ok (.ref 0, s'))
      ∧ (∀ r, r < 6 → s'.heap[r]? = sampleState.heap[r]?)
      ∧ (∀ k, getProp s'.heap (.ref 0) k = getProp sampleState.heap (.ref 0) k)
      ∧ (∃ evs, s'.log = sampleState.log ++ evs ∧ ∀ a b, Event.find a b ∉ evs) :=
  rewrap_returns_selector sampleEnv 0 (.ref 0) (.str "<a>") .undefined sampleState rfl

/-- Claim C2: for every falsy selector and every context, root and options,
the call returns the collection it created, with `length` 0 and no indexed
property, and the only collaborator it called is `flattenOptions`: neither the
parser, nor the classifier, nor `find`. -/
theorem falsy_selector_empty (E : Env) (n : Nat) (selector context root options : Val)
    (s : State) (hsel : truthy selector = false) :
    ∃ s', Cheerio E (n + 3) .undefined selector context root options s
        = .ok (.ref s.heap.length, s')
      ∧ instanceOfCheerio s'.heap (.ref s.heap.length) = true
      ∧ getProp s'.heap (.ref s.heap.length) (.name "length") = .num 0
      ∧ (∀ i, getOwn s'.heap s.heap.length (.idx i) = none)
      ∧ s'.log = s.log ++ [.flatten options] := by
  have ht : (s.extend [.cheerio []]).heap[s.heap.length]? = some (.cheerio []) := by
    simp [State.extend]
  have hself := resolveOptions_self E options ht
  refine ⟨resolveOptions E (.ref s.heap.length) options (s.extend [.cheerio []]), ?_,
    instanceOf_of_cheerio hself, ?_, ?_, ?_⟩
  · rw [Cheerio_top, Cheerio_instance _ _ _ _ _ _ _ _ (fresh_instance s)]
    simp [hsel, isObject]
  · exact getProp_of_lookup hself rfl
  · intro i
    simp only [getOwn, hself]
    rfl
  · rw [resolveOptions_log]; rfl

/-- Claim C2 on the selector `null`, with a context and a root supplied. -/
theorem falsy_selector_empty_witness :
    truthy .null = false
      ∧ ∃ s', Cheerio sampleEnv 3 .undefined .null (.str "ul") (.ref 0) .undefined sampleState
          = .ok (.ref 6, s')
        ∧ instanceOfCheerio s'.heap (.ref 6) = true
        ∧ getProp s'.heap (.ref 6) (.name "length") = .num 0
        ∧ (∀ i, getOwn s'.heap 6 (.idx i) = none)
        ∧ s'.log = sampleState.log ++ [.flatten .undefined] :=
  ⟨rfl, falsy_selector_empty sampleEnv 0 .null (.str "ul") (.ref 0) .undefined sampleState rfl⟩

/-- Lines 65-77 on an array `xs` without holes: the call returns the same new
collection in the same final state whatever the context is; its `length` is
the length of `xs`, its slot `i` is `xs[i]` for every `i` below that length,
it has no slot beyond, and `find` is not called. -/
theorem array_selector_dense (E : Env) (n a : Nat) (xs : List Val)
    (root options : Val) (s : State) (ha : s.heap[a]? = some (.array xs)) :
    ∃ s', (∀ context, Cheerio E (n + 3) .undefined (.ref a) context root options s
        = .ok (.ref s.heap.length, s'))
      ∧ getProp s'.heap (.ref s.heap.length) (.name "length") = .num xs.length
      ∧ (∀ i, i < xs.length → getOwn s'.heap s.heap.length (.idx i) = xs[i]?)
      ∧ (∀ i, xs.length ≤ i → getOwn s'.heap s.heap.length (.idx i) = none)
      ∧ (∃ evs, s'.log = s.log ++ evs ∧ ∀ t x, Event.find t x ∉ evs) := by
  have hal := getElem?_lt_length ha
  obtain ⟨s1, h1, h2, ⟨ps1, h3, h3a, _, _⟩, h4, evs, h5, h6⟩ := fresh_prelude E n root options s
  have ha1 : s1.heap[a]? = some (.array xs) := by rw [h2 a hal, ha]
  obtain ⟨ps', p1, p2, p3, p4, _⟩ := populate_self xs h3
  have hnode : truthy (isNode s1.heap (.ref a)) = false := by
    simp [isNode, getProp, getOwn, protoProp, ha1, truthy]
  refine ⟨populate (.ref s.heap.length) xs s1, ?_, getProp_of_lookup p1 p2, ?_, ?_,
    .flatten options :: evs, ?_, ?_⟩
  · intro context
    rw [Cheerio_top, Cheerio_instance _ _ _ _ _ _ _ _ (fresh_instance s)]
    simp only [h1, truthy_ref, Bool.true_eq_false, if_false]
    rw [markupSelector_nonstring E _ (.ref a) _ rfl]
    have hmark : truthy (getProp s1.heap (.ref a) (.name "cheerio")) = false := by
      simp [getProp, getOwn, protoProp, ha1, truthy]
    have harr : asArray s1.heap (.ref a) = some xs := by simp [asArray, ha1]
    simp only [member_truthy _ _ (truthy_ref a), hmark, wrapNode, hnode, Bool.false_eq_true,
      if_false, harr, isObject_ref, if_true]
  · intro i hi
    simp [getOwn, p1, p3 i hi]
  · intro i hi
    simp only [getOwn, p1]
    rw [p4 i hi, h3a _ (by simp), freshProps_idx]
  · rw [populate_log, h5]
  · intro t x hab
    rcases List.mem_cons.mp hab with h | h
    · cases h
    · exact h6 t x h

theorem isNode_congr {h h' : List Obj} {r : Nat} (hr : h'[r]? = h[r]?) :
    isNode h' (.ref r) = isNode h (.ref r) := by
  simp only [isNode, getProp_congr _ hr]

theorem truthy_isNode_isObject {h : List Obj} {v : Val} (hv : truthy (isNode h v) = true) :
    ∃ r, v = .ref r ∧ r < h.length := by
  cases v with
  | ref r =>
    refine ⟨r, rfl, ?_⟩
    rcases Nat.lt_or_ge r h.length with hlt | hge
    · exact hlt
    · simp [isNode, getProp, getOwn, protoProp, List.getElem?_eq_none hge, truthy] at hv
  | _ => simp [isNode, getProp, truthy] at hv

/-- An array carries no signature and is not a node. -/
theorem asArray_facts {h : List Obj} {v : Val} {xs : List Val} (hv : asArray h v = some xs) :
    truthy v = true ∧ truthy (getProp h v (.name "cheerio")) = false
      ∧ truthy (isNode h v) = false := by
  cases v with
  | ref r =>
    have hr : h[r]? = some (.array xs) := by
      simp only [asArray] at hv
      split at hv <;> simp_all
    simp [isNode, getProp, getOwn, protoProp, hr, truthy]
  | _ => simp [asArray] at hv

/-- Lines 65-77 on an array: the elements become the slots. -/
theorem populate_fresh {L : Nat} {ps1 : Props} (xs : List Val) (s2 : State)
    (h3 : s2.heap[L]? = some (.cheerio ps1))
    (h3a : ∀ k, k ≠ .name "_root" → ps1.lookup k = (freshProps L).lookup k) :
    getProp (populate (.ref L) xs s2).heap (.ref L) (.name "length") = .num xs.length
      ∧ (∀ i, i < xs.length → getOwn (populate (.ref L) xs s2).heap L (.idx i) = xs[i]?)
      ∧ (∀ i, xs.length ≤ i → getOwn (populate (.ref L) xs s2).heap L (.idx i) = none) := by
  obtain ⟨ps', p1, p2, p3, p4, _⟩ := populate_self xs h3
  refine ⟨getProp_of_lookup p1 p2, ?_, ?_⟩
  · intro i hi
    simp [getOwn, p1, p3 i hi]
  · intro i hi
    simp only [getOwn, p1]
    rw [p4 i hi, h3a _ (by simp), freshProps_idx]

theorem prelude_facts (E : Env) (n : Nat) (root options : Val) (s s1 : State)
    (hp : prelude E (n + 1) root options s = .ok s1) :
    (∀ r, r < s.heap.length → s1.heap[r]? = s.heap[r]?)
      ∧ (∃ ps1, s1.heap[s.heap.length]? = some (.cheerio ps1)
          ∧ (∀ k, k ≠ .name "_root" → ps1.lookup k = (freshProps s.heap.length).lookup k)
          ∧ (truthy root = false → ps1 = freshProps s.heap.length)
          ∧ (truthy (getProp s.heap root (.name "cheerio")) = true →
              ps1 = setKey (freshProps s.heap.length) (.name "_root") root))
      ∧ s.heap.length < s1.heap.length
      ∧ (∃ evs, s1.log = s.log ++ .flatten options :: evs ∧ ∀ a b, Event.find a b ∉ evs) := by
  obtain ⟨s1', h1, h2⟩ := fresh_prelude E n root options s
  have : s1' = s1 := by
    rw [prelude, h1] at hp
    injection hp
  rw [← this]
  exact h2

/-- Claim C4: for every string `t` the classifier accepts (the classifier
rejecting the empty string), with no context, when
`parse(t, this.options, false).children` is an array `cs`, the call returns the
new collection with `length` the length of `cs` and slot `i` equal to `cs[i]`,
no slot beyond; the root node `parse` returned is a slot only if it is among
its own children; `parse` was called with the options of the new collection. -/
theorem markup_selector_children (E : Env) (n : Nat) (t : String) (root options : Val)
    (s s1 : State) (cs : List Val) (hempty : E.isHtml "" = false) (hh : E.isHtml t = true)
    (hp : prelude E (n + 1) root options s = .ok s1)
    (hcs : asArray (parsedChildren E t (.ref (s.heap.length + 1)) s1.heap).2
      (parsedChildren E t (.ref (s.heap.length + 1)) s1.heap).1 = some cs) :
    ∃ s', Cheerio E (n + 3) .undefined (.str t) .undefined root options s
        = .ok (.ref s.heap.length, s')
      ∧ getProp s'.heap (.ref s.heap.length) (.name "length") = .num cs.length
      ∧ (∀ i, i < cs.length → getOwn s'.heap s.heap.length (.idx i) = cs[i]?)
      ∧ (∀ i, cs.length ≤ i → getOwn s'.heap s.heap.length (.idx i) = none)
      ∧ (Val.ref (E.parse s1.heap t (.ref (s.heap.length + 1)) false).1 ∉ cs →
          ∀ i, getOwn s'.heap s.heap.length (.idx i)
            ≠ some (.ref (E.parse s1.heap t (.ref (s.heap.length + 1)) false).1))
      ∧ s'.log = s1.log ++ [.isHtml t, .parse t (.ref (s.heap.length + 1))] := by
  obtain ⟨h2, ⟨ps1, h3, h3a, _, _⟩, h4, _⟩ := prelude_facts E n root options s s1 hp
  have hopts : getProp s1.heap (.ref s.heap.length) (.name "options")
      = .ref (s.heap.length + 1) :=
    getProp_of_lookup h3 (by rw [h3a _ (by decide), freshProps_options])
  have hne : t ≠ "" := by
    intro h
    rw [h, hempty] at hh
    cases hh
  have htr : truthy (.str t) = true := by simpa [truthy] using hne
  obtain ⟨c1, c2, c3⟩ := asArray_facts hcs
  have hsel : markupSelector E (.ref s.heap.length) (.str t) s1
      = ((parsedChildren E t (.ref (s.heap.length + 1)) s1.heap).1,
        { heap := (parsedChildren E t (.ref (s.heap.length + 1)) s1.heap).2,
          log := s1.log ++ [.isHtml t, .parse t (.ref (s.heap.length + 1))] }) := by
    simp [markupSelector, hh, State.record, State.extend, hopts, parsedChildren]
  have h3' : (parsedChildren E t (.ref (s.heap.length + 1)) s1.heap).2[s.heap.length]?
      = some (.cheerio ps1) := by
    rw [parsedChildren, List.getElem?_append_left h4, h3]
  obtain ⟨q1, q2, q3⟩ := populate_fresh cs
    { heap := (parsedChildren E t (.ref (s.heap.length + 1)) s1.heap).2,
      log := s1.log ++ [.isHtml t, .parse t (.ref (s.heap.length + 1))] } h3' h3a
  refine ⟨_, ?_, q1, q2, q3, ?_, ?_⟩
  · rw [Cheerio_top, Cheerio_instance _ _ _ _ _ _ _ _ (fresh_instance s)]
    rw [prelude] at hp
    simp only [hp, htr, Bool.true_eq_false, if_false, hsel, member_truthy _ _ c1, c2, wrapNode,
      c3, Bool.false_eq_true, hcs, isObject_ref, if_true]
  · intro hnot i hi
    rcases Nat.lt_or_ge i cs.length with hlt | hge
    · rw [q2 i hlt] at hi
      exact hnot (List.getElem?_mem hi)
    · rw [q3 i hge] at hi
      cases hi
  · rw [populate_log]

/-- Claim C4 on the markup `<p>`: the one slot is the child, reference 10, not
the root node, reference 8. -/
theorem markup_selector_children_witness :
    sampleEnv.isHtml "" = false ∧ sampleEnv.isHtml "<p>" = true
      ∧ ∃ s', Cheerio sampleEnv 3 .undefined (.str "<p>") .undefined .undefined .undefined
          sampleState = .ok (.ref 6, s')
        ∧ getProp s'.heap (.ref 6) (.name "length") = .num 1
        ∧ (∀ i, i < 1 → getOwn s'.heap 6 (.idx i) = [Val.ref 10][i]?)
        ∧ (∀ i, 1 ≤ i → getOwn s'.heap 6 (.idx i) = none)
        ∧ (Val.ref 8 ∉ [Val.ref 10] → ∀ i, getOwn s'.heap 6 (.idx i) ≠ some (.ref 8))
        ∧ s'.log = [.flatten .undefined, .isHtml "<p>", .parse "<p>" (.ref 7)] :=
  ⟨rfl, rfl, markup_selector_children sampleEnv 0 "<p>" .undefined .undefined sampleState
    (resolveOptions sampleEnv (.ref 6) .undefined (sampleState.extend [.cheerio []]))
    [.ref 10] rfl rfl rfl rfl⟩

/-- Claim C5: for every value `node` that `isNode` recognises and that carries
no signature, and for every context, root and options, the call returns the
new collection with `length` 1 whose slot 0 is `node` itself, with no other
slot; the node object is unchanged. -/
theorem node_selector_wrapped (E : Env) (n : Nat) (node root options : Val) (s : State)
    (hnode : truthy (isNode s.heap node) = true)
    (hmark : truthy (getProp s.heap node (.name "cheerio")) = false) :
    ∃ s', (∀ context, Cheerio E (n + 3) .undefined node context root options s
        = .ok (.ref s.heap.length, s'))
      ∧ getProp s'.heap (.ref s.heap.length) (.name "length") = .num 1
      ∧ getProp s'.heap (.ref s.heap.length) (.idx 0) = node
      ∧ (∀ i, 1 ≤ i → getOwn s'.heap s.heap.length (.idx i) = none)
      ∧ (∀ k, getProp s'.heap node k = getProp s.heap node k) := by
  obtain ⟨r, rfl, hr⟩ := truthy_isNode_isObject hnode
  obtain ⟨s1, h1, h2, ⟨ps1, h3, h3a, _, _⟩, h4, _⟩ := fresh_prelude E n root options s
  have hnode1 : truthy (isNode s1.heap (.ref r)) = true := by
    rw [isNode_congr (h2 r hr)]; exact hnode
  have hmark1 : truthy (getProp s1.heap (.ref r) (.name "cheerio")) = false := by
    rw [getProp_congr _ (h2 r hr)]; exact hmark
  have h3' : (s1.extend [.array [.ref r]]).heap[s.heap.length]? = some (.cheerio ps1) := by
    rw [State.extend, List.getElem?_append_left h4, h3]
  obtain ⟨q1, q2, q3⟩ := populate_fresh [.ref r] _ h3' h3a
  refine ⟨populate (.ref s.heap.length) [.ref r] (s1.extend [.array [.ref r]]), ?_, q1, ?_, ?_, ?_⟩
  · intro context
    rw [Cheerio_top, Cheerio_instance _ _ _ _ _ _ _ _ (fresh_instance s)]
    simp only [h1, truthy_ref, Bool.true_eq_false, if_false]
    rw [markupSelector_nonstring E _ (.ref r) _ rfl]
    have harr : asArray (s1.extend [.array [.ref r]]).heap (.ref s1.heap.length)
        = some [.ref r] := by
      simp [asArray, State.extend]
    simp only [member_truthy _ _ (truthy_ref r), hmark1, wrapNode, hnode1, Bool.false_eq_true,
      if_false, if_true, harr, isObject_ref]
  · have := q2 0 (by simp)
    simp only [getProp, this]
    rfl
  · intro i hi
    exact q3 i (by simpa using hi)
  · intro k
    apply getProp_congr
    rw [populate_other _ _ _ (by omega), State.extend, List.getElem?_append_left (by omega), h2 r hr]

/-- Claim C5 on the node `ul` of the sample heap. -/
theorem node_selector_wrapped_witness :
    truthy (isNode sampleState.heap (.ref 1)) = true
      ∧ ∃ s', (∀ context, Cheerio sampleEnv 3 .undefined (.ref 1) context .undefined .undefined
          sampleState = .ok (.ref 6, s'))
        ∧ getProp s'.heap (.ref 6) (.name "length") = .num 1
        ∧ getProp s'.heap (.ref 6) (.idx 0) = .ref 1
        ∧ (∀ i, 1 ≤ i → getOwn s'.heap 6 (.idx i) = none)
        ∧ (∀ k, getProp s'.heap (.ref 1) k = getProp sampleState.heap (.ref 1) k) :=
  ⟨rfl, node_selector_wrapped sampleEnv 0 (.ref 1) .undefined .undefined sampleState rfl rfl⟩

theorem truthy_str {t : String} (h : t ≠ "") : truthy (.str t) = true := by
  simpa [truthy] using h

theorem markupSelector_plain (E : Env) (this : Val) (t : String) (s : State)
    (hh : E.isHtml t = false) :
    markupSelector E this (.str t) s = (.str t, s.record (.isHtml t)) := by
  simp [markupSelector, hh]

/-- A string carries no signature, is not a node and is not an array. -/
theorem str_facts (h : List Obj) (t : String) :
    truthy (getProp h (.str t) (.name "cheerio")) = false
      ∧ truthy (isNode h (.str t)) = false ∧ asArray h (.str t) = none := by
  simp [getProp, isNode, asArray, truthy]

theorem callFind_instance (E : Env) {c : Nat} {ps : Props} (x : Val) {s : State}
    (hc : s.heap[c]? = some (.cheerio ps)) (hf : ps.lookup (.name "find") = none) :
    callFind E (.ref c) x s =
      match E.find s.heap c x with
      | .ok (v, h) => .ok (.ref v, { heap := h, log := s.log ++ [.find (.ref c) x] })
      | .error e => .error e := by
  simp [callFind, hc, hf]

/-- What `new` returns when the body ends in `context.find(selector)`: the
collection `find` returned. -/
theorem new_of_found (res : Except Err (Nat × List Obj)) (log : List Event) (L : Nat) :
    (match (match res with
        | .ok (v, h) => (.ok (.ref v, { heap := h, log := log }) : Res)
        | .error e => .error e) with
      | .ok (v, s') => (.ok (if isObject v then v else .ref L, s') : Res)
      | .error e => .error e)
    = (match res with
        | .ok (v, h) => .ok (.ref v, { heap := h, log := log })
        | .error e => .error e) := by
  rcases res with e | ⟨v, h⟩ <;> rfl

theorem no_find_cons {e : Event} {evs : List Event} (he : ∀ a b, e ≠ .find a b)
    (h : ∀ a b, Event.find a b ∉ evs) : ∀ a b, Event.find a b ∉ e :: evs := by
  intro a b hab
  rcases List.mem_cons.mp hab with h1 | h1
  · exact he a b h1.symm
  · exact h a b h1

theorem no_find_append {evs evs' : List Event} (h : ∀ a b, Event.find a b ∉ evs)
    (h' : ∀ a b, Event.find a b ∉ evs') : ∀ a b, Event.find a b ∉ evs ++ evs' := by
  intro a b hab
  rcases List.mem_append.mp hab with h1 | h1
  · exact h a b h1
  · exact h' a b h1

/-- Claim C6, amended: for every non-empty string `t` the classifier rejects,
every context `c` that is a `Cheerio` object (carrying the signature, its
`find` being the method of the prototype) and every root and options, the
call returns exactly what `c.find(t)` returns (or throws what it throws):
`find` is called on `c` itself with the text `t`, in a state where every
object that existed before the call is unchanged and `find` has not been
called before. -/
theorem selector_in_wrapped_context (E : Env) (n c : Nat) (pc : Props) (t : String)
    (root options : Val) (s : State) (hne : t ≠ "") (hh : E.isHtml t = false)
    (hc : s.heap[c]? = some (.cheerio pc))
    (hmark : truthy (getProp s.heap (.ref c) (.name "cheerio")) = true)
    (hfind : pc.lookup (.name "find") = none) :
    ∃ s2 : State, Cheerio E (n + 3) .undefined (.str t) (.ref c) root options s =
        (match E.find s2.heap c (.str t) with
          | .ok (v, h) => .ok (.ref v, { heap := h, log := s2.log ++ [.find (.ref c) (.str t)] })
          | .error e => .error e)
      ∧ (∀ r, r < s.heap.length → s2.heap[r]? = s.heap[r]?)
      ∧ (∃ evs, s2.log = s.log ++ evs ∧ ∀ a b, Event.find a b ∉ evs) := by
  have hcl := getElem?_lt_length hc
  obtain ⟨s1, h1, h2, _, h4, evs, h5, h6⟩ := fresh_prelude E n root options s
  obtain ⟨f1, f2, f3⟩ := str_facts s1.heap t
  have hmark1 : truthy (getProp (s1.record (.isHtml t)).heap (.ref c) (.name "cheerio"))
      = true := by
    show truthy (getProp s1.heap (.ref c) (.name "cheerio")) = true
    rw [getProp_congr _ (h2 c hcl)]; exact hmark
  have hc1 : (s1.record (.isHtml t)).heap[c]? = some (.cheerio pc) := by
    rw [← hc]; exact h2 c hcl
  refine ⟨s1.record (.isHtml t), ?_, h2, .flatten options :: (evs ++ [.isHtml t]), ?_, ?_⟩
  · rw [Cheerio_top, Cheerio_instance _ _ _ _ _ _ _ _ (fresh_instance s)]
    simp only [h1, truthy_str hne, Bool.true_eq_false, if_false, markupSelector_plain E _ t s1 hh]
    have hrc : resolveContext E
        (fun x => Cheerio E (n + 1) (.ref s.heap.length) x .undefined .undefined .undefined)
        (.ref s.heap.length) (.str t) (.ref c) (s1.record (.isHtml t))
        = .ok (.str t, .ref c, s1.record (.isHtml t)) := by
      simp [resolveContext, hmark1]
    have f1' : truthy (getProp (s1.record (.isHtml t)).heap (.str t) (.name "cheerio"))
        = false := f1
    have f2' : truthy (isNode (s1.record (.isHtml t)).heap (.str t)) = false := f2
    have f3' : asArray (s1.record (.isHtml t)).heap (.str t) = none := f3
    simp only [member_truthy _ _ (truthy_str hne), f1', wrapNode, f2', f3', Bool.false_eq_true,
      if_false, hrc, truthy_ref, Bool.true_eq_false, callFind_instance E _ hc1 hfind]
    exact new_of_found _ _ _
  · simp [State.record, h5]
  · exact no_find_cons (by simp) (no_find_append h6 (by simp))

/-- Claim C6, amended, on `li` in the document collection. -/
theorem selector_in_wrapped_context_witness :
    sampleEnv.isHtml "li" = false
      ∧ ∃ s2 : State, Cheerio sampleEnv 3 .undefined (.str "li") (.ref 0) .undefined .undefined
          sampleState =
          (match sampleEnv.find s2.heap 0 (.str "li") with
            | .ok (v, h) =>
              .ok (.ref v, { heap := h, log := s2.log ++ [.find (.ref 0) (.str "li")] })
            | .error e => .error e)
        ∧ (∀ r, r < 6 → s2.heap[r]? = sampleState.heap[r]?)
        ∧ (∃ evs, s2.log = sampleState.log ++ evs ∧ ∀ a b, Event.find a b ∉ evs) :=
  ⟨rfl, selector_in_wrapped_context sampleEnv 0 0 [(.idx 0, .ref 1), (.name "length", .num 1)]
    "li" .undefined .undefined sampleState (by decide) rfl rfl rfl rfl⟩

/-- Claim C6 as stated fails on the empty string, which the classifier
rejects: with a wrapped context, line 52 returns the new empty collection and
`find` is not called (the log holds the call of `flattenOptions` only). -/
theorem empty_selector_skips_find :
    sampleEnv.isHtml "" = false
      ∧ Cheerio sampleEnv 3 .undefined (.str "") (.ref 0) .undefined .undefined sampleState
        = .ok (.ref 6,
          { heap := sampleState.heap ++
              [.cheerio [(.name "options", .ref 7), (.name "length", .num 0)],
               .plain [(.name "xml", .bool false), (.name "decodeEntities", .bool true)]],
            log := [.flatten .undefined] }) :=
  ⟨rfl, rfl⟩

/-- After lines 54-57 with a root that carries the signature, `this._root` is
that root. -/
theorem prelude_root {L : Nat} {ps1 : Props} {h : List Obj} {root : Val}
    (h3 : h[L]? = some (.cheerio ps1))
    (hps : ps1 = setKey (freshProps L) (.name "_root") root) :
    getProp h (.ref L) (.name "_root") = root :=
  getProp_of_lookup h3 (by rw [hps, lookup_setKey_same])

/-- Claim C7, amended: for every non-empty string `t` the classifier rejects,
every non-empty string context `c` the classifier rejects and every root `R`
that is a `Cheerio` object, the call returns exactly what
`R.find(c + ' ' + t)` returns: the context text first, one space, the
selector text; `find` is called once. -/
theorem string_context_folds (E : Env) (n R : Nat) (pR : Props) (t c : String)
    (options : Val) (s : State) (hne : t ≠ "") (hh : E.isHtml t = false)
    (hc : c ≠ "") (hhc : E.isHtml c = false)
    (hR : s.heap[R]? = some (.cheerio pR))
    (hmark : truthy (getProp s.heap (.ref R) (.name "cheerio")) = true)
    (hfind : pR.lookup (.name "find") = none) :
    ∃ s2 : State, Cheerio E (n + 3) .undefined (.str t) (.str c) (.ref R) options s =
        (match E.find s2.heap R (.str (c ++ " " ++ t)) with
          | .ok (v, h) =>
            .ok (.ref v, { heap := h, log := s2.log ++ [.find (.ref R) (.str (c ++ " " ++ t))] })
          | .error e => .error e)
      ∧ (∀ r, r < s.heap.length → s2.heap[r]? = s.heap[r]?)
      ∧ (∃ evs, s2.log = s.log ++ evs ∧ ∀ a b, Event.find a b ∉ evs) := by
  have hRl := getElem?_lt_length hR
  obtain ⟨s1, h1, h2, ⟨ps1, h3, _, _, h3c⟩, h4, evs, h5, h6⟩ :=
    fresh_prelude E n (.ref R) options s
  obtain ⟨f1, f2, f3⟩ := str_facts s1.heap t
  have hroot : getProp s1.heap (.ref s.heap.length) (.name "_root") = .ref R :=
    prelude_root h3 (h3c hmark)
  have hR1 : s1.heap[R]? = some (.cheerio pR) := by rw [← hR]; exact h2 R hRl
  refine ⟨(s1.record (.isHtml t)).record (.isHtml c), ?_, h2,
    .flatten options :: (evs ++ [.isHtml t, .isHtml c]), ?_, ?_⟩
  · rw [Cheerio_top, Cheerio_instance _ _ _ _ _ _ _ _ (fresh_instance s)]
    simp only [h1, truthy_str hne, Bool.true_eq_false, if_false, markupSelector_plain E _ t s1 hh]
    have hrc : resolveContext E
        (fun x => Cheerio E (n + 1) (.ref s.heap.length) x .undefined .undefined .undefined)
        (.ref s.heap.length) (.str t) (.str c) (s1.record (.isHtml t))
        = .ok (.str (c ++ " " ++ t), .ref R, (s1.record (.isHtml t)).record (.isHtml c)) := by
      have : getProp (s1.record (.isHtml t)).heap (.ref s.heap.length) (.name "_root")
          = .ref R := hroot
      simp [resolveContext, truthy_str hc, hhc, this, toStr]
    have f1' : truthy (getProp (s1.record (.isHtml t)).heap (.str t) (.name "cheerio"))
        = false := f1
    have f2' : truthy (isNode (s1.record (.isHtml t)).heap (.str t)) = false := f2
    have f3' : asArray (s1.record (.isHtml t)).heap (.str t) = none := f3
    have hR2 : ((s1.record (.isHtml t)).record (.isHtml c)).heap[R]? = some (.cheerio pR) := hR1
    simp only [member_truthy _ _ (truthy_str hne), f1', wrapNode, f2', f3', Bool.false_eq_true,
      if_false, hrc, truthy_ref, Bool.true_eq_false, callFind_instance E _ hR2 hfind]
    exact new_of_found _ _ _
  · simp [State.record, h5]
  · exact no_find_cons (by simp) (no_find_append h6 (by simp))

/-- Claim C7, amended, on `li` in `ul` with the document as root: `find`
receives `ul li`. -/
theorem string_context_folds_witness :
    sampleEnv.isHtml "li" = false ∧ sampleEnv.isHtml "ul" = false
      ∧ ∃ s2 : State, Cheerio sampleEnv 3 .undefined (.str "li") (.str "ul") (.ref 0) .undefined
          sampleState =
          (match sampleEnv.find s2.heap 0 (.str "ul li") with
            | .ok (v, h) =>
              .ok (.ref v, { heap := h, log := s2.log ++ [.find (.ref 0) (.str "ul li")] })
            | .error e => .error e)
        ∧ (∀ r, r < 6 → s2.heap[r]? = sampleState.heap[r]?)
        ∧ (∃ evs, s2.log = sampleState.log ++ evs ∧ ∀ a b, Event.find a b ∉ evs) :=
  ⟨rfl, rfl, string_context_folds sampleEnv 0 0 [(.idx 0, .ref 1), (.name "length", .num 1)]
    "li" "ul" .undefined sampleState (by decide) rfl (by decide) rfl rfl rfl rfl⟩

/-- Claim C7 as stated fails on the empty selector: with the context `ul` and
a bound root, the call returns the new empty collection and `find` is not
called. -/
theorem empty_selector_ignores_string_context :
    sampleEnv.isHtml "" = false ∧ sampleEnv.isHtml "ul" = false
      ∧ Cheerio sampleEnv 3 .undefined (.str "") (.str "ul") (.ref 0) .undefined sampleState
        = .ok (.ref 6,
          { heap := sampleState.heap ++
              [.cheerio [(.name "options", .ref 7), (.name "length", .num 0)],
               .plain [(.name "xml", .bool false), (.name "decodeEntities", .bool true)]],
            log := [.flatten .undefined] }) :=
  ⟨rfl, rfl, rfl⟩

/-- Claim C8 as stated fails on the empty selector: with no context and a non-
empty root, the call returns the new empty collection, without `_root`, and
`find` is not called. -/
theorem empty_selector_ignores_root :
    sampleEnv.isHtml "" = false
      ∧ truthy (getProp sampleState.heap (.ref 0) (.name "length")) = true
      ∧ Cheerio sampleEnv 3 .undefined (.str "") .undefined (.ref 0) .undefined sampleState
        = .ok (.ref 6,
          { heap := sampleState.heap ++
              [.cheerio [(.name "options", .ref 7), (.name "length", .num 0)],
               .plain [(.name "xml", .bool false), (.name "decodeEntities", .bool true)]],
            log := [.flatten .undefined] }) :=
  ⟨rfl, rfl, rfl⟩

theorem getProp_frame {h h' : List Obj} {v : Val} (k : Key)
    (hv : ∀ r, v = .ref r → h'[r]? = h[r]?) : getProp h' v k = getProp h v k := by
  cases v with
  | ref r => exact getProp_congr k (hv r rfl)
  | _ => rfl

theorem isNode_frame {h h' : List Obj} {v : Val}
    (hv : ∀ r, v = .ref r → h'[r]? = h[r]?) : isNode h' v = isNode h v := by
  simp only [isNode, getProp_frame _ hv]

theorem asArray_frame {h h' : List Obj} {v : Val}
    (hv : ∀ r, v = .ref r → h'[r]? = h[r]?) : asArray h' v = asArray h v := by
  cases v with
  | ref r => exact asArray_congr (hv r rfl)
  | _ => rfl

theorem asSparse_frame {h h' : List Obj} {v : Val}
    (hv : ∀ r, v = .ref r → h'[r]? = h[r]?) : asSparse h' v = asSparse h v := by
  cases v with
  | ref r => exact asSparse_congr (hv r rfl)
  | _ => rfl

/-- Lines 60-62 on a selector that is not a markup string: the selector stays,
the heap stays, and at most the classifier is called. -/
theorem markupSelector_keep (E : Env) (this sel : Val) (s : State)
    (hnm : ∀ t, sel = .str t → E.isHtml t = false) :
    (markupSelector E this sel s).1 = sel ∧ (markupSelector E this sel s).2.heap = s.heap
      ∧ ∃ evs, (markupSelector E this sel s).2.log = s.log ++ evs
          ∧ ∀ a b, Event.find a b ∉ evs := by
  cases sel with
  | str t =>
    rw [markupSelector_plain E this t s (hnm t rfl)]
    exact ⟨rfl, rfl, [.isHtml t], rfl, by simp⟩
  | _ => exact ⟨rfl, rfl, [], by simp [markupSelector], by simp⟩

/-- Lines 80-95 when the context is falsy and not a string and no non-empty
root is bound: nothing is resolved. -/
theorem resolveContext_skip (E : Env) (call : Val → State → Res) (this sel context : Val)
    (s : State) (hctx : truthy context = false) (hcs : isString context = false)
    (hr : (truthy (getProp s.heap this (.name "_root"))
      && truthy (getProp s.heap (getProp s.heap this (.name "_root")) (.name "length")))
        = false) :
    resolveContext E call this sel context s = .ok (sel, context, s) := by
  have hr' : (!truthy context && truthy (getProp s.heap this (.name "_root"))
      && truthy (getProp s.heap (getProp s.heap this (.name "_root")) (.name "length")))
        = false := by
    rw [Bool.and_assoc, hr, Bool.and_false]
  unfold resolveContext
  rw [if_neg (by rw [hr']; simp)]
  cases context <;> simp_all [isString]

/-- Claim C9: for every truthy selector that is not a markup string, carries no
signature, is not a node and is not an array (without or with holes), when
the context is falsy and not a string, and the root is falsy or is an object
carrying the signature with a falsy `length`, the call does not fail and
returns the new collection, with `length` 0, no slot, and as `options` the
object lines 43-49 built; `find` is not called. -/
theorem unresolved_context_returns_empty (E : Env) (n : Nat)
    (selector context root options : Val) (s : State)
    (htr : truthy selector = true)
    (hvalid : ∀ r, selector = .ref r → r < s.heap.length)
    (hnm : ∀ t, selector = .str t → E.isHtml t = false)
    (hmark : truthy (getProp s.heap selector (.name "cheerio")) = false)
    (hnode : truthy (isNode s.heap selector) = false)
    (harr : asArray s.heap selector = none) (hholes : asSparse s.heap selector = none)
    (hctx : truthy context = false) (hcs : isString context = false)
    (hroot : truthy root = false ∨
      (truthy (getProp s.heap root (.name "cheerio")) = true
        ∧ truthy (getProp s.heap root (.name "length")) = false)) :
    ∃ s', Cheerio E (n + 3) .undefined selector context root options s
        = .ok (.ref s.heap.length, s')
      ∧ getProp s'.heap (.ref s.heap.length) (.name "length") = .num 0
      ∧ (∀ i, getOwn s'.heap s.heap.length (.idx i) = none)
      ∧ getProp s'.heap (.ref s.heap.length) (.name "options") = .ref (s.heap.length + 1)
      ∧ s'.heap[s.heap.length + 1]?
          = (resolveOptions E (.ref s.heap.length) options
              (s.extend [.cheerio []])).heap[s.heap.length + 1]?
      ∧ (∃ evs, s'.log = s.log ++ evs ∧ ∀ a b, Event.find a b ∉ evs) := by
  obtain ⟨s1, h1, h2, ⟨ps1, h3, h3a, h3b, h3c⟩, h4, evs, h5, h6⟩ :=
    fresh_prelude E n root options s
  obtain ⟨k1, k2, evs', k3, k4⟩ := markupSelector_keep E (.ref s.heap.length) selector s1 hnm
  have hfr : ∀ r, selector = .ref r → s1.heap[r]? = s.heap[r]? :=
    fun r hr => h2 r (hvalid r hr)
  have hrootless : (truthy (getProp s1.heap (.ref s.heap.length) (.name "_root"))
      && truthy (getProp s1.heap (getProp s1.heap (.ref s.heap.length) (.name "_root"))
          (.name "length"))) = false := by
    rcases hroot with hr | ⟨hm, hl⟩
    · have : getProp s1.heap (.ref s.heap.length) (.name "_root") = .undefined :=
        getProp_of_cheerio h3 (by decide)
          (by rw [h3b hr]; exact freshProps_name _ (by decide) (by decide))
      rw [this]; rfl
    · obtain ⟨R, rfl, hRl⟩ := truthy_getProp_isObject hm
      rw [prelude_root h3 (h3c hm), getProp_congr _ (h2 R hRl), hl, Bool.and_false]
  refine ⟨(markupSelector E (.ref s.heap.length) selector s1).2, ?_, ?_, ?_, ?_, ?_,
    .flatten options :: (evs ++ evs'), ?_, ?_⟩
  · rw [Cheerio_top, Cheerio_instance _ _ _ _ _ _ _ _ (fresh_instance s)]
    have htr' : (truthy selector = false) = False := by simp [htr]
    simp only [h1, htr', if_false, k1, k2, member_truthy _ _ htr, wrapNode,
      getProp_frame _ hfr, isNode_frame hfr, asArray_frame hfr, asSparse_frame hfr, hmark,
      hnode, harr, hholes, Bool.false_eq_true]
    rw [resolveContext_skip E _ _ _ _ _ hctx hcs (by rw [k2]; exact hrootless)]
    simp [hctx, isObject]
  · rw [k2]
    exact getProp_of_lookup h3 (by rw [h3a _ (by decide), freshProps_length])
  · intro i
    rw [k2]
    simp only [getOwn, h3]
    rw [h3a _ (by simp), freshProps_idx]
  · rw [k2]
    exact getProp_of_lookup h3 (by rw [h3a _ (by decide), freshProps_options])
  · rw [k2]
    exact prelude_frame E n root options s s1 h1 (s.heap.length + 1)
      (by have := resolveOptions_length E (.ref s.heap.length) options (s.extend [.cheerio []])
          simp [State.extend] at this ⊢; omega) (by omega)
  · rw [k3, h5]; simp
  · exact no_find_cons (by simp) (no_find_append h6 k4)

/-- Claim C9 on the selector `li` with no context and the empty collection of
the sample heap as root. -/
theorem unresolved_context_returns_empty_witness :
    ∃ s', Cheerio sampleEnv 3 .undefined (.str "li") .undefined (.ref 5) .undefined sampleState
        = .ok (.ref 6, s')
      ∧ getProp s'.heap (.ref 6) (.name "length") = .num 0
      ∧ (∀ i, getOwn s'.heap 6 (.idx i) = none)
      ∧ getProp s'.heap (.ref 6) (.name "options") = .ref 7
      ∧ s'.heap[7]? = (resolveOptions sampleEnv (.ref 6) .undefined
          (sampleState.extend [.cheerio []])).heap[7]?
      ∧ (∃ evs, s'.log = sampleState.log ++ evs ∧ ∀ a b, Event.find a b ∉ evs) :=
  unresolved_context_returns_empty sampleEnv 0 (.str "li") .undefined (.ref 5) .undefined
    sampleState rfl (fun _ h => by cases h) (fun t h => by cases h; rfl) rfl rfl rfl rfl rfl
    rfl (Or.inr ⟨rfl, rfl⟩)

/-- Lines 65-77 of a top-level call on an array or on a bare node: the call
returns the object it created, populated from the elements. -/
theorem populated_call (E : Env) (n : Nat) (dom context root options : Val) (s : State)
    (xs : List Val)
    (hdom : asArray s.heap dom = some xs
      ∨ (truthy (isNode s.heap dom) = true
          ∧ truthy (getProp s.heap dom (.name "cheerio")) = false ∧ xs = [dom])) :
    ∃ s1 s2 : State,
      bindRoot E (fun x t => Cheerio E (n + 1) t x .undefined .undefined .undefined)
        (.ref s.heap.length) root
        (resolveOptions E (.ref s.heap.length) options (s.extend [.cheerio []])) = .ok s1
      ∧ Cheerio E (n + 3) .undefined dom context root options s
          = .ok (.ref s.heap.length, populate (.ref s.heap.length) xs s2)
      ∧ (∀ r, r < s1.heap.length → s2.heap[r]? = s1.heap[r]?)
      ∧ s2.log = s1.log := by
  obtain ⟨s1, h1, h2, _, h4, _⟩ := fresh_prelude E n root options s
  rcases hdom with harr | ⟨hnode, hmark, rfl⟩
  · obtain ⟨c1, c2, c3⟩ := asArray_facts harr
    have hfr : ∀ r, dom = .ref r → s1.heap[r]? = s.heap[r]? := by
      intro r hr
      subst hr
      apply h2
      simp only [asArray] at harr
      split at harr
      · exact getElem?_lt_length (by assumption)
      · cases harr
    refine ⟨s1, s1, h1, ?_, fun _ _ => rfl, rfl⟩
    rw [Cheerio_top, Cheerio_instance _ _ _ _ _ _ _ _ (fresh_instance s)]
    have htr' : (truthy dom = false) = False := by simp [c1]
    have hns : isString dom = false := by
      cases dom <;> simp_all [asArray, isString]
    simp only [h1, htr', if_false, markupSelector_nonstring E _ dom _ hns,
      member_truthy _ _ c1, wrapNode, getProp_frame _ hfr, isNode_frame hfr,
      asArray_frame hfr, c2, c3, harr, Bool.false_eq_true, isObject_ref, if_true]
  · obtain ⟨r, rfl, hr⟩ := truthy_isNode_isObject hnode
    have hnode1 : truthy (isNode s1.heap (.ref r)) = true := by
      rw [isNode_congr (h2 r hr)]; exact hnode
    have hmark1 : truthy (getProp s1.heap (.ref r) (.name "cheerio")) = false := by
      rw [getProp_congr _ (h2 r hr)]; exact hmark
    refine ⟨s1, s1.extend [.array [.ref r]], h1, ?_, ?_, rfl⟩
    · rw [Cheerio_top, Cheerio_instance _ _ _ _ _ _ _ _ (fresh_instance s)]
      simp only [h1, truthy_ref, Bool.true_eq_false, if_false]
      rw [markupSelector_nonstring E _ (.ref r) _ rfl]
      have harr : asArray (s1.extend [.array [.ref r]]).heap (.ref s1.heap.length)
          = some [.ref r] := by
        simp [asArray, State.extend]
      simp only [member_truthy _ _ (truthy_ref r), hmark1, wrapNode, hnode1,
        Bool.false_eq_true, if_false, if_true, harr, isObject_ref]
    · intro q hq
      simp [State.extend, List.getElem?_append_left hq]

/-- Claim C10, amended: for every collection `c` and every `dom` that is an
array without holes or a bare node without signature, and every context, `c._make(dom,
context)` returns a new collection `r` with `r.prevObject` equal to `c` and
the elements of `dom` as slots; `r._root` is `c._root` when `c._root` is
absent or carries the signature; `r.options` reads like `c.options` key for
key when `flattenOptions` returns `c.options` as it is and `c.options` defines
every key of the defaults; `c` is unchanged. -/
theorem make_derives (E : Env) (n c o : Nat) (po : Props) (dom context : Val) (s : State)
    (xs : List Val)
    (hdom : asArray s.heap dom = some xs
      ∨ (truthy (isNode s.heap dom) = true
          ∧ truthy (getProp s.heap dom (.name "cheerio")) = false ∧ xs = [dom]))
    (hroot : getProp s.heap (.ref c) (.name "_root") = .undefined
      ∨ truthy (getProp s.heap (getProp s.heap (.ref c) (.name "_root")) (.name "cheerio"))
          = true)
    (hopt : getProp s.heap (.ref c) (.name "options") = .ref o)
    (ho : s.heap[o]? = some (.plain po))
    (hflat : ∀ h, E.flattenOptions h (.ref o) = (.ref o, []))
    (hdef : ∀ k, po.lookup k = none → E.defaultOptions.lookup k = none) :
    ∃ s', _make E (n + 2) (.ref c) dom context s = .ok (.ref s.heap.length, s')
      ∧ getProp s'.heap (.ref s.heap.length) (.name "prevObject") = .ref c
      ∧ getProp s'.heap (.ref s.heap.length) (.name "_root")
          = getProp s'.heap (.ref c) (.name "_root")
      ∧ (∀ k, getProp s'.heap (getProp s'.heap (.ref s.heap.length) (.name "options")) k
          = getProp s'.heap (getProp s'.heap (.ref c) (.name "options")) k)
      ∧ getProp s'.heap (.ref s.heap.length) (.name "length") = .num xs.length
      ∧ (∀ i, i < xs.length → getOwn s'.heap s.heap.length (.idx i) = xs[i]?)
      ∧ (∀ k, getProp s'.heap (.ref c) k = getProp s.heap (.ref c) k) := by
  have hcl : c < s.heap.length := by
    obtain ⟨r, hr, hrl⟩ := truthy_getProp_isObject (h := s.heap) (v := .ref c)
      (k := .name "options") (by rw [hopt]; rfl)
    cases hr
    exact hrl
  have hol := getElem?_lt_length ho
  obtain ⟨s1, s2, h1, hcall, hfr, _⟩ := populated_call E n dom context
    (getProp s.heap (.ref c) (.name "_root")) (.ref o) s xs hdom
  obtain ⟨h2, ⟨ps1, h3, h3a, h3b, h3c⟩, h4, _⟩ := prelude_facts E n _ _ s s1 h1
  have hopts0 := resolveOptions_fresh E (.ref o) s
  have hopts1 : s1.heap[s.heap.length + 1]? = some (.plain (effectiveOptions E (.ref o) s.heap)) := by
    rw [← hopts0]
    apply prelude_frame E n _ _ s s1 h1
    · exact getElem?_lt_length hopts0
    · omega
  have hl1 := getElem?_lt_length hopts1
  have h3' : s2.heap[s.heap.length]? = some (.cheerio ps1) := by rw [hfr _ h4, h3]
  obtain ⟨ps', p1, p2, p3, _, p5⟩ := populate_self xs h3'
  have hthis := assign_self (.name "prevObject") (.ref c) p1
  have hother : ∀ r, r < s.heap.length →
      ((populate (.ref s.heap.length) xs s2).assign (.ref s.heap.length) (.name "prevObject")
        (.ref c)).heap[r]? = s.heap[r]? := by
    intro r hr
    rw [assign_other _ _ _ (by omega), populate_other _ _ _ (by omega), hfr r (by omega), h2 r hr]
  have hoptobj : ((populate (.ref s.heap.length) xs s2).assign (.ref s.heap.length)
      (.name "prevObject") (.ref c)).heap[s.heap.length + 1]?
        = some (.plain (effectiveOptions E (.ref o) s.heap)) := by
    rw [assign_other _ _ _ (by omega), populate_other _ _ _ (by omega), hfr _ hl1, hopts1]
  have hcframe : ∀ k, getProp ((populate (.ref s.heap.length) xs s2).assign
      (.ref s.heap.length) (.name "prevObject") (.ref c)).heap (.ref c) k
        = getProp s.heap (.ref c) k := fun k => getProp_congr k (hother c hcl)
  refine ⟨_, ?_, ?_, ?_, ?_, ?_, ?_, hcframe⟩
  · have e : construct (fun t => Cheerio E (n + 2) t dom context
        (getProp s.heap (.ref c) (.name "_root")) (getProp s.heap (.ref c) (.name "options"))) s
        = .ok (.ref s.heap.length, populate (.ref s.heap.length) xs s2) := by
      rw [hopt]
      exact (Cheerio_undefined E (n + 2) dom context _ _ s).symm.trans hcall
    rw [_make, e]
  · exact getProp_of_lookup hthis (lookup_setKey_same _ _ _)
  · rw [hcframe]
    have hl : (setKey ps' (.name "prevObject") (.ref c)).lookup (.name "_root")
        = ps1.lookup (.name "_root") := by
      rw [lookup_setKey_ne _ _ (by decide), p5 _ (by decide)]
    rcases hroot with hr | hr
    · rw [hr]
      apply getProp_of_cheerio hthis (by decide)
      rw [hl, h3b (by rw [hr]; rfl)]
      exact freshProps_name _ (by decide) (by decide)
    · apply getProp_of_lookup hthis
      rw [hl, h3c hr, lookup_setKey_same]
  · intro k
    have e1 : getProp ((populate (.ref s.heap.length) xs s2).assign (.ref s.heap.length)
        (.name "prevObject") (.ref c)).heap (.ref s.heap.length) (.name "options")
          = .ref (s.heap.length + 1) := by
      apply getProp_of_lookup hthis
      rw [lookup_setKey_ne _ _ (by decide), p5 _ (by decide), h3a _ (by decide),
        freshProps_options]
    rw [e1, hcframe, hopt]
    have e2 : (effectiveOptions E (.ref o) s.heap).lookup k = po.lookup k := by
      have hfo : (freshHeap s.heap)[o]? = some (.plain po) := by
        rw [freshHeap, List.getElem?_append_left hol, ho]
      simp only [effectiveOptions, hflat, List.append_nil, ownEnumerable, hfo]
      rw [lookup_assignProps, lookup_assignProps]
      cases hk : po.lookup k with
      | some v => rfl
      | none => simp [hdef k hk]
    simp only [getProp, getOwn, protoProp, hoptobj, hother o hol, ho, e2]
  · exact getProp_of_lookup hthis (by rw [lookup_setKey_ne _ _ (by decide), p2])
  · intro i hi
    simp only [getOwn, hthis]
    rw [lookup_setKey_ne _ _ (by simp), p3 i hi]

/-- Claim C10, amended, on the derived collection of the sample heap and its
array. -/
theorem make_derives_witness :
    ∃ s', _make sampleEnv 2 (.ref 3) (.ref 2) .undefined sampleState = .ok (.ref 6, s')
      ∧ getProp s'.heap (.ref 6) (.name "prevObject") = .ref 3
      ∧ getProp s'.heap (.ref 6) (.name "_root") = getProp s'.heap (.ref 3) (.name "_root")
      ∧ (∀ k, getProp s'.heap (getProp s'.heap (.ref 6) (.name "options")) k
          = getProp s'.heap (getProp s'.heap (.ref 3) (.name "options")) k)
      ∧ getProp s'.heap (.ref 6) (.name "length") = .num 2
      ∧ (∀ i, i < 2 → getOwn s'.heap 6 (.idx i) = [Val.ref 1, Val.ref 1][i]?)
      ∧ (∀ k, getProp s'.heap (.ref 3) k = getProp sampleState.heap (.ref 3) k) :=
  make_derives sampleEnv 0 3 4 [(.name "xml", .bool false), (.name "decodeEntities", .bool true)]
    (.ref 2) .undefined sampleState [.ref 1, .ref 1] (Or.inl rfl) (Or.inr rfl) rfl rfl
    (fun _ => rfl) (fun _ h => h)

/-- Claim C10 as stated fails on a falsy `dom`: the collection at 3 has
`_root`, the collection `_make` returns (at 6) has `prevObject` and `options`
and no `_root`, because line 52 returns before line 54. -/
theorem make_falsy_drops_root :
    getProp sampleState.heap (.ref 3) (.name "_root") = .ref 0
      ∧ _make sampleEnv 2 (.ref 3) .undefined .undefined sampleState
        = .ok (.ref 6,
          { heap := [
              .cheerio [(.idx 0, .ref 1), (.name "length", .num 1)],
              .plain [(.name "name", .str "ul")],
              .array [.ref 1, .ref 1],
              .cheerio [(.name "_root", .ref 0), (.name "options", .ref 4),
                (.name "length", .num 0)],
              .plain [(.name "xml", .bool false), (.name "decodeEntities", .bool true)],
              .cheerio [(.name "length", .num 0)],
              .cheerio [(.name "prevObject", .ref 3), (.name "options", .ref 7),
                (.name "length", .num 0)],
              .plain [(.name "xml", .bool false), (.name "decodeEntities", .bool true)]],
            log := [.flatten (.ref 4)] }) :=
  ⟨rfl, rfl⟩

/-! ## Options and string contexts -/

theorem ownEnumerable_falsy (h : List Obj) {v : Val} (hv : truthy v = false) :
    ownEnumerable h v = [] := by
  cases v with
  | str t =>
    have : t = "" := by simpa [truthy] using hv
    subst this
    rfl
  | ref r => simp [truthy] at hv
  | _ => rfl

/-- The options object lines 44-49 build, key by key. -/
theorem resolveOptions_keys (E : Env) {t : Nat} {ps : Props} (options : Val) {s : State}
    (ht : s.heap[t]? = some (.cheerio ps)) (k : Key) :
    getOwn (resolveOptions E (.ref t) options s).heap s.heap.length k =
      match (ownEnumerable (assignHeap E (.ref t) options s)
          (flattened E (.ref t) options s)).lookup k with
      | some v => some v
      | none =>
        match (ownEnumerable (assignHeap E (.ref t) options s)
            (getProp s.heap (.ref t) (.name "options"))).lookup k with
        | some v => some v
        | none => E.defaultOptions.lookup k := by
  have htl := getElem?_lt_length ht
  have hprior : getProp ((s.assign (.ref t) (.name "length") (.num 0)).heap ++ [.plain []])
      (.ref t) (.name "options") = getProp s.heap (.ref t) (.name "options") := by
    have h1 : ((s.assign (.ref t) (.name "length") (.num 0)).heap ++ [.plain []])[t]?
        = some (.cheerio (setKey ps (.name "length") (.num 0))) := by
      rw [List.getElem?_append_left (by simpa using htl)]
      exact assign_self _ _ ht
    simp only [getProp, getOwn, protoProp, h1, ht, lookup_setKey_ne ps (.num 0)
      (show Key.name "options" ≠ Key.name "length" by decide)]
  simp only [getOwn, resolveOptions_target E t options s (by omega), hprior,
    lookup_assignProps, assignHeap, flattened, flattenHeap]
  generalize List.lookup k E.defaultOptions = d
  cases d <;> rfl

/-- Claim C11: in every call on a `Cheerio` object `this`, lines 43-49 never
fail and leave `this.options` a new object that holds, for every key `k`, the
value of `k` in `flattenOptions(options)` when it is an own enumerable property
there, otherwise its value in the options `this` had before the call when
present there, otherwise its value in the defaults (absent when the defaults
have none); a falsy result of `flattenOptions` (as for absent call options)
contributes nothing; on a falsy selector the call returns `this` in that
state. -/
theorem options_merge_keywise (E : Env) (n t : Nat) (ps : Props)
    (selector context root options : Val) (s : State)
    (ht : s.heap[t]? = some (.cheerio ps)) :
    getProp (resolveOptions E (.ref t) options s).heap (.ref t) (.name "options")
        = .ref s.heap.length
      ∧ (∀ k, getOwn (resolveOptions E (.ref t) options s).heap s.heap.length k =
          match (ownEnumerable (assignHeap E (.ref t) options s)
              (flattened E (.ref t) options s)).lookup k with
          | some v => some v
          | none =>
            match (ownEnumerable (assignHeap E (.ref t) options s)
                (getProp s.heap (.ref t) (.name "options"))).lookup k with
            | some v => some v
            | none => E.defaultOptions.lookup k)
      ∧ (truthy (flattened E (.ref t) options s) = false →
          ∀ k, getOwn (resolveOptions E (.ref t) options s).heap s.heap.length k =
            match (ownEnumerable (assignHeap E (.ref t) options s)
                (getProp s.heap (.ref t) (.name "options"))).lookup k with
            | some v => some v
            | none => E.defaultOptions.lookup k)
      ∧ (truthy selector = false →
          Cheerio E (n + 1) (.ref t) selector context root options s
            = .ok (.ref t, resolveOptions E (.ref t) options s)) := by
  refine ⟨?_, fun k => resolveOptions_keys E options ht k, ?_, ?_⟩
  · exact getProp_of_lookup (resolveOptions_self E options ht) (lookup_setKey_same _ _ _)
  · intro hf k
    rw [resolveOptions_keys E options ht k, ownEnumerable_falsy _ hf]
    rfl
  · intro hsel
    rw [Cheerio]
    simp [instanceOf_of_cheerio ht, hsel]

/-- Claim C11 on a collection that has options, called again with options:
`a` is in both and comes from the call, `b` from the collection, `xml` from
the collection over the defaults. -/
theorem options_merge_keywise_witness :
    getOwn (resolveOptions sampleEnv (.ref 0) (.ref 2) optionsState).heap 3 (.name "a")
        = some (.num 2)
      ∧ getOwn (resolveOptions sampleEnv (.ref 0) (.ref 2) optionsState).heap 3 (.name "b")
        = some (.num 1)
      ∧ getOwn (resolveOptions sampleEnv (.ref 0) (.ref 2) optionsState).heap 3 (.name "xml")
        = some (.bool true)
      ∧ getOwn (resolveOptions sampleEnv (.ref 0) (.ref 2) optionsState).heap 3
          (.name "decodeEntities") = some (.bool false)
      ∧ Cheerio sampleEnv 1 (.ref 0) .undefined .undefined .undefined (.ref 2) optionsState
        = .ok (.ref 0, resolveOptions sampleEnv (.ref 0) (.ref 2) optionsState) :=
  have h := options_merge_keywise sampleEnv 0 0
    [(.name "options", .ref 1), (.name "length", .num 0)] .undefined .undefined .undefined
    (.ref 2) optionsState rfl
  ⟨h.2.1 (.name "a"), h.2.1 (.name "b"), h.2.1 (.name "xml"), h.2.1 (.name "decodeEntities"),
    h.2.2.2 rfl⟩

/-- Lines 82-91 on a string context the classifier rejects, when line 80 does
not apply: the context text, a space and the selector become the selector,
and `this._root` the context. -/
theorem resolveContext_fold (E : Env) (call : Val → State → Res) (this sel : Val) (c : String)
    (s : State) (hhc : E.isHtml c = false)
    (h80 : c ≠ "" ∨ (truthy (getProp s.heap this (.name "_root"))
      && truthy (getProp s.heap (getProp s.heap this (.name "_root")) (.name "length")))
        = false) :
    resolveContext E call this sel (.str c) s
      = .ok (.str (c ++ " " ++ toStr E s.heap sel), getProp s.heap this (.name "_root"),
          s.record (.isHtml c)) := by
  have h : (!truthy (.str c) && truthy (getProp s.heap this (.name "_root"))
      && truthy (getProp s.heap (getProp s.heap this (.name "_root")) (.name "length")))
        = false := by
    rcases h80 with h | h
    · rw [truthy_str h]; rfl
    · rw [Bool.and_assoc, h, Bool.and_false]
  unfold resolveContext
  rw [if_neg (by rw [h]; simp)]
  simp [hhc]

/-- Claim C13, amended: for every falsy selector and every root, the call
returns the new collection with the resolved options and without `_root`: the
root is neither parsed nor bound, and `flattenOptions` is the only collaborator
called; in a call on an existing collection, `_root` stays what it was. -/
theorem falsy_selector_leaves_root (E : Env) (n : Nat) (selector context root options : Val)
    (s : State) (hsel : truthy selector = false) :
    (∃ s', Cheerio E (n + 3) .undefined selector context root options s
        = .ok (.ref s.heap.length, s')
      ∧ getProp s'.heap (.ref s.heap.length) (.name "_root") = .undefined
      ∧ getProp s'.heap (.ref s.heap.length) (.name "options") = .ref (s.heap.length + 1)
      ∧ s'.heap[s.heap.length + 1]? = some (.plain (effectiveOptions E options s.heap))
      ∧ s'.log = s.log ++ [.flatten options])
    ∧ (∀ t ps, s.heap[t]? = some (.cheerio ps) →
        ∃ s', Cheerio E (n + 1) (.ref t) selector context root options s = .ok (.ref t, s')
          ∧ getProp s'.heap (.ref t) (.name "_root") = getProp s.heap (.ref t) (.name "_root")
          ∧ s'.log = s.log ++ [.flatten options]) := by
  constructor
  · have ht : (s.extend [.cheerio []]).heap[s.heap.length]? = some (.cheerio []) := by
      simp [State.extend]
    have hself := resolveOptions_self E options ht
    refine ⟨resolveOptions E (.ref s.heap.length) options (s.extend [.cheerio []]), ?_, ?_, ?_,
      resolveOptions_fresh E options s, ?_⟩
    · rw [Cheerio_top, Cheerio_instance _ _ _ _ _ _ _ _ (fresh_instance s)]
      simp [hsel, isObject]
    · exact getProp_of_cheerio hself (by decide) rfl
    · have hlen : (s.extend [.cheerio []]).heap.length = s.heap.length + 1 := by
        simp [State.extend]
      rw [hlen] at hself
      exact getProp_of_lookup hself rfl
    · rw [resolveOptions_log]; rfl
  · intro t ps ht
    have hself := resolveOptions_self E options ht
    refine ⟨resolveOptions E (.ref t) options s, ?_, ?_, resolveOptions_log E _ _ s⟩
    · rw [Cheerio]
      simp [instanceOf_of_cheerio ht, hsel]
    · simp only [getProp, getOwn, protoProp, hself, ht,
        lookup_setKey_ne _ _ (show Key.name "_root" ≠ Key.name "options" by decide),
        lookup_setKey_ne _ _ (show Key.name "_root" ≠ Key.name "length" by decide)]

/-- Claim C13, amended, on the selector `null` with the document as root. -/
theorem falsy_selector_leaves_root_witness :
    (∃ s', Cheerio sampleEnv 3 .undefined .null .undefined (.ref 0) .undefined sampleState
        = .ok (.ref 6, s')
      ∧ getProp s'.heap (.ref 6) (.name "_root") = .undefined
      ∧ getProp s'.heap (.ref 6) (.name "options") = .ref 7
      ∧ s'.heap[7]? = some (.plain (effectiveOptions sampleEnv .undefined sampleState.heap))
      ∧ s'.log = sampleState.log ++ [.flatten .undefined])
    ∧ (∀ t ps, sampleState.heap[t]? = some (.cheerio ps) →
        ∃ s', Cheerio sampleEnv 1 (.ref t) .null .undefined (.ref 0) .undefined sampleState
            = .ok (.ref t, s')
          ∧ getProp s'.heap (.ref t) (.name "_root")
              = getProp sampleState.heap (.ref t) (.name "_root")
          ∧ s'.log = sampleState.log ++ [.flatten .undefined]) :=
  falsy_selector_leaves_root sampleEnv 0 .null .undefined (.ref 0) .undefined sampleState rfl

/-- Claim C13 as stated fails: with the selector `false` and a markup root, the
call returns the new collection (at 6) with options and no `_root`, and the
parser is not called. -/
theorem falsy_selector_binds_no_root :
    Cheerio sampleEnv 3 .undefined (.bool false) .undefined (.str "<a>") .undefined sampleState
      = .ok (.ref 6,
        { heap := sampleState.heap ++
            [.cheerio [(.name "options", .ref 7), (.name "length", .num 0)],
             .plain [(.name "xml", .bool false), (.name "decodeEntities", .bool true)]],
          log := [.flatten .undefined] }) :=
  rfl

/-- Claim C14 as stated fails: `Cheerio('li', 'ul', document)` calls `find` on
the document with `ul li`, which is not `li` followed by a space and `ul`. -/
theorem string_context_is_not_appended :
    (Cheerio sampleEnv 3 .undefined (.str "li") (.str "ul") (.ref 0) .undefined
        sampleState).map (fun r => r.2.log)
      = .ok [.flatten .undefined, .flatten .undefined, .isHtml "li", .isHtml "ul",
          .find (.ref 0) (.str "ul li")]
    ∧ "ul li" ≠ "li" ++ " " ++ "ul" :=
  ⟨rfl, by decide⟩

/-- Claim C15: for every string selector `t` and every string context `c` the
classifier rejects, with a falsy root, the call returns the new collection,
with `length` 0 and no slot, and `find` is not called, whatever `t` and `c`
are. -/
theorem string_context_without_root (E : Env) (n : Nat) (t c : String) (root options : Val)
    (s : State) (hh : E.isHtml t = false) (hhc : E.isHtml c = false)
    (hroot : truthy root = false) :
    ∃ s', Cheerio E (n + 3) .undefined (.str t) (.str c) root options s
        = .ok (.ref s.heap.length, s')
      ∧ getProp s'.heap (.ref s.heap.length) (.name "length") = .num 0
      ∧ (∀ i, getOwn s'.heap s.heap.length (.idx i) = none)
      ∧ (∃ evs, s'.log = s.log ++ evs ∧ ∀ a b, Event.find a b ∉ evs) := by
  obtain ⟨s1, h1, _, ⟨ps1, h3, h3a, h3b, _⟩, _, evs, h5, h6⟩ := fresh_prelude E n root options s
  have hps := h3b hroot
  subst hps
  by_cases hte : t = ""
  · subst hte
    have hs1 : s1 = resolveOptions E (.ref s.heap.length) options (s.extend [.cheerio []]) := by
      rw [bindRoot_falsy _ _ _ _ _ hroot] at h1
      injection h1 with h1
      exact h1.symm
    refine ⟨s1, ?_, getProp_of_lookup h3 (freshProps_length _), ?_, _, h5, ?_⟩
    · rw [Cheerio_top, Cheerio_instance _ _ _ _ _ _ _ _ (fresh_instance s), hs1]
      simp [truthy, isObject]
    · intro i
      simp only [getOwn, h3, freshProps_idx]
    · exact no_find_cons (by simp) h6
  · obtain ⟨f1, f2, f3⟩ := str_facts s1.heap t
    have hrootless : getProp s1.heap (.ref s.heap.length) (.name "_root") = .undefined :=
      getProp_of_cheerio h3 (by decide) (freshProps_name _ (by decide) (by decide))
    refine ⟨(s1.record (.isHtml t)).record (.isHtml c), ?_,
      getProp_of_lookup h3 (freshProps_length _), ?_,
      .flatten options :: (evs ++ [.isHtml t, .isHtml c]), ?_, ?_⟩
    · rw [Cheerio_top, Cheerio_instance _ _ _ _ _ _ _ _ (fresh_instance s)]
      simp only [h1, truthy_str hte, Bool.true_eq_false, if_false,
        markupSelector_plain E _ t s1 hh]
      have f1' : truthy (getProp (s1.record (.isHtml t)).heap (.str t) (.name "cheerio"))
          = false := f1
      have f2' : truthy (isNode (s1.record (.isHtml t)).heap (.str t)) = false := f2
      have f3' : asArray (s1.record (.isHtml t)).heap (.str t) = none := f3
      have hr' : getProp (s1.record (.isHtml t)).heap (.ref s.heap.length) (.name "_root")
          = .undefined := hrootless
      have hrc := resolveContext_fold E
        (fun x => Cheerio E (n + 1) (.ref s.heap.length) x .undefined .undefined .undefined)
        (.ref s.heap.length) (.str t) c (s1.record (.isHtml t)) hhc
        (Or.inr (by rw [hr']; rfl))
      rw [hr'] at hrc
      simp only [member_truthy _ _ (truthy_str hte), f1', wrapNode, f2', f3', asSparse,
        Bool.false_eq_true, if_false, hrc]
      simp [truthy, isObject]
    · intro i
      show getOwn s1.heap s.heap.length (.idx i) = none
      simp only [getOwn, h3, freshProps_idx]
    · simp [State.record, h5]
    · exact no_find_cons (by simp) (no_find_append h6 (by simp))

/-- Claim C15 on `li` in `ul` without a root. -/
theorem string_context_without_root_witness :
    sampleEnv.isHtml "li" = false ∧ sampleEnv.isHtml "ul" = false
      ∧ ∃ s', Cheerio sampleEnv 3 .undefined (.str "li") (.str "ul") .undefined .undefined
          sampleState = .ok (.ref 6, s')
        ∧ getProp s'.heap (.ref 6) (.name "length") = .num 0
        ∧ (∀ i, getOwn s'.heap 6 (.idx i) = none)
        ∧ (∃ evs, s'.log = sampleState.log ++ evs ∧ ∀ a b, Event.find a b ∉ evs) :=
  ⟨rfl, rfl, string_context_without_root sampleEnv 0 "li" "ul" .undefined .undefined
    sampleState rfl rfl rfl⟩

/-! ## The log, wrapped contexts and contiguity -/

theorem merge_log_prefix (arr1 arr2 : Val) (s : State) :
    (merge arr1 arr2 s).2.log = s.log ++ [.merge arr1 arr2] := by
  have h : ∀ (l : List Nat) (f : Nat → Key) (g : State → Nat → Val) (s : State),
      (l.foldl (fun s i => s.assign arr1 (f i) (g s i)) s).log = s.log := by
    intro l f g
    induction l with
    | nil => intro s; rfl
    | cons i l ih =>
      intro s
      rw [List.foldl_cons, ih, assign_log]
  simp only [merge, State.record, assign_log]
  rw [h (List.range _) (fun i => .idx (toNat (getProp s.heap arr1 (.name "length")) + i))
    (fun s i => getProp s.heap arr2 (.idx i))]

theorem populate_log_any (this : Val) (xs : List Val) (s : State) :
    (populate this xs s).log = s.log := by
  have h : ∀ (l : List (Nat × Val)) (s : State),
      (l.foldl (fun s p => s.assign this (.idx p.1) p.2) s).log = s.log := by
    intro l
    induction l with
    | nil => intro s; rfl
    | cons i l ih =>
      intro s
      rw [List.foldl_cons, ih, assign_log]
  rw [populate, assign_log, h]

theorem markupSelector_log (E : Env) (this sel : Val) (s : State) :
    s.log <+: (markupSelector E this sel s).2.log := by
  unfold markupSelector
  split
  · split
    · simp only [State.record, State.extend, List.append_assoc]
      exact List.prefix_append _ _
    · exact List.prefix_append _ _
  · exact List.prefix_refl _

theorem construct_log {F : Val → State → Res} {s : State} {v : Val} {s' : State}
    (hF : ∀ t u v s', F t u = .ok (v, s') → u.log <+: s'.log)
    (h : construct F s = .ok (v, s')) : s.log <+: s'.log := by
  unfold construct at h
  cases hr : F (.ref s.heap.length) (s.extend [.cheerio []]) with
  | error e => rw [hr] at h; cases h
  | ok res =>
    obtain ⟨w, s2⟩ := res
    rw [hr] at h
    simp only at h
    injection h with h
    injection h with _ h2
    rw [← h2]
    have h3 := hF _ _ _ _ hr
    exact h3

theorem bindRoot_log {E : Env} {ctor : Val → Val → State → Res} {this root : Val}
    {s s' : State} (hc : ∀ x t u v s', ctor x t u = .ok (v, s') → u.log <+: s'.log)
    (h : bindRoot E ctor this root s = .ok s') : s.log <+: s'.log := by
  unfold bindRoot at h
  split at h
  · cases hr : construct (ctor (parseRoot E this root s).1) (parseRoot E this root s).2 with
    | error e => rw [hr] at h; cases h
    | ok res =>
      obtain ⟨w, s2⟩ := res
      rw [hr] at h
      simp only at h
      injection h with h
      rw [← h, assign_log]
      obtain ⟨evs, he, _⟩ := parseRoot_log E this root s
      exact List.IsPrefix.trans ⟨evs, he.symm⟩ (construct_log (hc _) hr)
  · injection h with h
    rw [h]

theorem resolveContext_log {E : Env} {call : Val → State → Res} {this sel context : Val}
    {s : State} {sel2 c2 : Val} {s' : State}
    (hc : ∀ x u v s', call x u = .ok (v, s') → u.log <+: s'.log)
    (h : resolveContext E call this sel context s = .ok (sel2, c2, s')) :
    s.log <+: s'.log := by
  unfold resolveContext at h
  split at h
  · injection h with h
    injection h with _ h
    have h2 := merge_log_prefix this (getProp s.heap this (.name "_root")) s
    rw [h] at h2
    rw [h2]
    exact List.prefix_append _ _
  · split at h
    · split at h
      · simp only at h
        split at h
        · rename_i ctx s2 hr
          injection h with h
          injection h with _ h
          injection h with _ h
          rw [← h]
          have := hc _ _ _ _ hr
          simp only [State.record, State.extend, List.append_assoc] at this
          exact List.IsPrefix.trans (List.prefix_append _ _) this
        · cases h
      · injection h with h
        injection h with _ h
        injection h with _ h
        rw [← h]
        exact List.prefix_append _ _
    · split at h
      · split at h
        · injection h with h
          injection h with _ h
          injection h with _ h
          rw [h]
        · split at h
          · rename_i ctx s2 hr
            injection h with h
            injection h with _ h
            injection h with _ h
            rw [← h]
            exact hc _ _ _ _ hr
          · cases h
      · injection h with h
        injection h with _ h
        injection h with _ h
        rw [h]

theorem callFind_log {E : Env} {c x v : Val} {s s' : State}
    (h : callFind E c x s = .ok (v, s')) : s'.log = s.log ++ [.find c x] := by
  unfold callFind at h
  split at h
  · split at h
    · split at h
      · cases h
      · split at h
        · injection h with h
          injection h with _ h
          rw [← h]
        · cases h
    · cases h
  · cases h

/-- A call only adds to the log. -/
theorem Cheerio_log (E : Env) : ∀ (n : Nat) (this selector context root options : Val)
    (s : State) (v : Val) (s' : State),
    Cheerio E n this selector context root options s = .ok (v, s') → s.log <+: s'.log := by
  intro n
  induction n with
  | zero =>
    intro this selector context root options s v s' h
    rw [Cheerio] at h
    cases h
  | succ n ih =>
    intro this selector context root options s v s' h
    rw [Cheerio] at h
    split at h
    · exact construct_log (fun t u v s' hh => ih t selector context root options u v s' hh) h
    · have h0 : s.log <+: (resolveOptions E this options s).log := by
        rw [resolveOptions_log]
        exact List.prefix_append _ _
      simp only at h
      split at h
      · injection h with h
        injection h with _ h
        rw [← h]
        exact h0
      · split at h
        · cases h
        · rename_i s1 hb
          have h1 := bindRoot_log (fun x t u v s' hh => ih t x _ _ _ u v s' hh) hb
          have h2 := markupSelector_log E this selector s1
          split at h
          · cases h
          · split at h
            · injection h with h
              injection h with _ h
              rw [← h]
              exact h0.trans (h1.trans h2)
            · have h3 := wrapNode_log (markupSelector E this selector s1).1
                (markupSelector E this selector s1).2
              split at h
              · injection h with h
                injection h with _ h
                rw [← h]
                rw [populate_log_any, h3]
                exact h0.trans (h1.trans h2)
              · split at h
                · injection h with h
                  injection h with _ h
                  rw [← h]
                  rw [populateSlots_log, h3]
                  exact h0.trans (h1.trans h2)
                · split at h
                  · cases h
                  · rename_i sel2 c2 s3 hrc
                    have h4 := resolveContext_log
                      (fun x u v s' hh => ih this x _ _ _ u v s' hh) hrc
                    rw [h3] at h4
                    split at h
                    · injection h with h
                      injection h with _ h
                      rw [← h]
                      exact h0.trans (h1.trans (h2.trans h4))
                    · rw [callFind_log h]
                      exact (h0.trans (h1.trans (h2.trans h4))).trans
                        (List.prefix_append _ _)

/-- When `context.find(selector)` returns, the call is in the log and the
value is an object. -/
theorem callFind_ok {E : Env} {c x v : Val} {s s' : State}
    (h : callFind E c x s = .ok (v, s')) :
    truthy v = true ∧ Event.find c x ∈ s'.log := by
  unfold callFind at h
  split at h
  · split at h
    · split at h
      · cases h
      · split at h
        · injection h with h
          injection h with h1 h2
          subst h1 h2
          exact ⟨rfl, by simp⟩
        · cases h
    · cases h
  · cases h

/-- Lines 80-95 without a context: the bound root is merged into `this`, or
nothing is resolved. -/
theorem resolveContext_undefined (E : Env) (call : Val → State → Res) (this sel : Val)
    (s : State) :
    resolveContext E call this sel .undefined s
        = .ok (sel, merge this (getProp s.heap this (.name "_root")) s)
      ∨ resolveContext E call this sel .undefined s = .ok (sel, .undefined, s) := by
  unfold resolveContext
  split
  · left; rfl
  · right
    have hu : truthy .undefined = false := rfl
    simp [hu]

/-- `Cheerio.call(this, x)` on a truthy `x` that is not a string returns a
truthy value when it returns. -/
theorem Cheerio_call_truthy (E : Env) (n t : Nat) (ps : Props) (x : Val) (s : State)
    (v : Val) (s' : State) (ht : s.heap[t]? = some (.cheerio ps))
    (hx : truthy x = true) (hxs : isString x = false)
    (h : Cheerio E (n + 1) (.ref t) x .undefined .undefined .undefined s = .ok (v, s')) :
    truthy v = true := by
  have hinst := instanceOf_of_cheerio ht
  have hu : truthy .undefined = false := rfl
  rw [Cheerio] at h
  have hx' : (truthy x = false) = False := by simp [hx]
  simp only [hinst, Bool.true_eq_false, if_false, hx',
    bindRoot_falsy E _ _ .undefined _ hu, markupSelector_nonstring E _ x _ hxs,
    member_truthy _ _ hx] at h
  split at h
  · injection h with h
    injection h with h1 h2
    rw [← h1]; exact hx
  · split at h
    · injection h with h
      injection h with h1 h2
      rw [← h1]; rfl
    · split at h
      · injection h with h
        injection h with h1 h2
        rw [← h1]; rfl
      · rcases resolveContext_undefined E
          (fun x => Cheerio E n (.ref t) x .undefined .undefined .undefined) (.ref t)
          (wrapNode x (resolveOptions E (.ref t) .undefined s)).1
          (wrapNode x (resolveOptions E (.ref t) .undefined s)).2 with e | e
        · rw [e] at h
          simp only [merge_fst, truthy_ref, Bool.true_eq_false, if_false] at h
          exact (callFind_ok h).1
        · rw [e] at h
          simp only [hu, if_true] at h
          injection h with h
          injection h with h1 h2
          rw [← h1]; rfl

/-- Lines 80-95 of a call on a collection: when they resolve no context, they
have left the heap as it was. -/
theorem resolveContext_outcome (E : Env) (n L : Nat) (ps : Props) (sel context : Val)
    (s : State) (hL : s.heap[L]? = some (.cheerio ps)) (sel2 c2 : Val) (s3 : State)
    (h : resolveContext E
      (fun x => Cheerio E (n + 1) (.ref L) x .undefined .undefined .undefined) (.ref L)
      sel context s = .ok (sel2, c2, s3)) :
    truthy c2 = true ∨ s3.heap = s.heap := by
  have hLl := getElem?_lt_length hL
  unfold resolveContext at h
  split at h
  · injection h with h
    injection h with h1 h2
    left
    have : c2 = .ref L := by
      have e := congrArg Prod.fst h2
      rw [merge_fst] at e
      exact e.symm
    rw [this]; rfl
  · split at h
    · split at h
      · simp only at h
        split at h
        · rename_i ctx s4 hcall
          injection h with h
          injection h with h1 h2
          injection h2 with h2 h3
          left
          rw [← h2]
          refine Cheerio_call_truthy E n L ps _ _ ctx s4 ?_ (truthy_ref _) (isString_ref _) hcall
          simp only [State.extend, State.record]
          rw [List.getElem?_append_left hLl, hL]
        · cases h
      · injection h with h
        injection h with h1 h2
        injection h2 with h2 h3
        right
        rw [← h3]; rfl
    · split at h
      · rename_i hobj
        have hobj' : truthy context = true ∧ isObject context = true := by
          simpa using hobj
        split at h
        · injection h with h
          injection h with h1 h2
          injection h2 with h2 h3
          left
          rw [← h2]; exact hobj'.1
        · split at h
          · rename_i ctx s4 hcall
            injection h with h
            injection h with h1 h2
            injection h2 with h2 h3
            left
            rw [← h2]
            refine Cheerio_call_truthy E n L ps _ _ ctx s4 hL hobj'.1 ?_ hcall
            cases context <;> simp_all [isObject, isString]
          · cases h
      · injection h with h
        injection h with h1 h2
        injection h2 with h2 h3
        right
        rw [← h3]

theorem markupSelector_other (E : Env) (this sel : Val) (s : State) {r : Nat}
    (hr : r < s.heap.length) : (markupSelector E this sel s).2.heap[r]? = s.heap[r]? := by
  unfold markupSelector
  split
  · split
    · simp [State.extend, State.record, List.getElem?_append_left hr]
    · rfl
  · rfl

theorem markupSelector_length (E : Env) (this sel : Val) (s : State) :
    s.heap.length ≤ (markupSelector E this sel s).2.heap.length := by
  unfold markupSelector
  split
  · split
    · simp [State.extend, State.record]
    · simp [State.record]
  · simp

/-- A collection as lines 43-57 leave it is contiguous, with length 0. -/
theorem contiguous_fresh {h : List Obj} {L : Nat} {ps1 : Props}
    (h3 : h[L]? = some (.cheerio ps1))
    (h3a : ∀ k, k ≠ .name "_root" → ps1.lookup k = (freshProps L).lookup k) :
    Contiguous h L := by
  refine ⟨0, getProp_of_lookup h3 (by rw [h3a _ (by decide), freshProps_length]; rfl), ?_⟩
  intro i
  simp only [getOwn, h3]
  rw [h3a _ (by simp), freshProps_idx]
  simp

/-- A collection populated by lines 72-75 is contiguous. -/
theorem contiguous_populate {L : Nat} {ps1 : Props} (xs : List Val) (s2 : State)
    (h3 : s2.heap[L]? = some (.cheerio ps1))
    (h3a : ∀ k, k ≠ .name "_root" → ps1.lookup k = (freshProps L).lookup k) :
    Contiguous (populate (.ref L) xs s2).heap L := by
  obtain ⟨q1, q2, q3⟩ := populate_fresh xs s2 h3 h3a
  refine ⟨xs.length, q1, ?_⟩
  intro i
  rcases Nat.lt_or_ge i xs.length with hlt | hge
  · rw [q2 i hlt, List.getElem?_eq_getElem hlt]
    simp [hlt]
  · rw [q3 i hge]
    simp
    omega

/-- What `new` returned, in terms of what the body returned. -/
theorem new_result {r : Res} {L : Nat} {w : Val} {s' : State}
    (h : (match r with
      | .ok (v, s') => (.ok (if isObject v then v else .ref L, s') : Res)
      | .error e => .error e) = .ok (w, s')) :
    ∃ v, r = .ok (v, s') := by
  rcases r with e | ⟨v, s2⟩
  · cases h
  · simp only at h
    injection h with h
    injection h with h1 h2
    exact ⟨v, by rw [h2]⟩

theorem asSparse_wrapNode {x : Val} {s : State} (h : asSparse s.heap x = none) :
    asSparse (wrapNode x s).2.heap (wrapNode x s).1 = none := by
  unfold wrapNode
  split
  · simp [asSparse, State.extend]
  · exact h

/-- The body of a top-level call on a selector that is neither a markup string
nor an array with holes, when it returns without a call of `find`, leaves the
collection it created contiguous. -/
theorem body_contiguous (E : Env) (n : Nat) (selector context root options : Val)
    (s : State) (v : Val) (s' : State)
    (hvalid : ∀ r, selector = .ref r → r < s.heap.length)
    (hnm : ∀ t, selector = .str t → E.isHtml t = false)
    (hholes : asSparse s.heap selector = none)
    (h : Cheerio E (n + 2) (.ref s.heap.length) selector context root options
      (s.extend [.cheerio []]) = .ok (v, s'))
    (hnf : ∀ evs, s'.log = s.log ++ evs → ∀ a b, Event.find a b ∉ evs) :
    Contiguous s'.heap s.heap.length := by
  obtain ⟨s1, h1, h2, ⟨ps1, h3, h3a, _, _⟩, h4, evs1, h5, _⟩ :=
    fresh_prelude E n root options s
  rw [Cheerio_instance _ _ _ _ _ _ _ _ (fresh_instance s)] at h
  by_cases hsel : truthy selector = false
  · simp only [hsel, if_true] at h
    injection h with h
    injection h with _ h2
    rw [← h2]
    have ht : (s.extend [.cheerio []]).heap[s.heap.length]? = some (.cheerio []) := by
      simp [State.extend]
    have hself := resolveOptions_self E options ht
    refine contiguous_fresh hself ?_
    intro k _
    have hlen : (s.extend [.cheerio []]).heap.length = s.heap.length + 1 := by
      simp [State.extend]
    rw [hlen]
    rfl
  · simp only [hsel, if_false, h1] at h
    have hM : (markupSelector E (.ref s.heap.length) selector s1).2.heap[s.heap.length]?
        = some (.cheerio ps1) := by
      rw [markupSelector_other _ _ _ _ h4, h3]
    have hMl := markupSelector_length E (.ref s.heap.length) selector s1
    have hMg : s.log <+: (markupSelector E (.ref s.heap.length) selector s1).2.log :=
      List.IsPrefix.trans ⟨_, h5.symm⟩ (markupSelector_log E _ selector s1)
    have hMs : asSparse (markupSelector E (.ref s.heap.length) selector s1).2.heap
        (markupSelector E (.ref s.heap.length) selector s1).1 = none := by
      obtain ⟨k1, k2, _⟩ := markupSelector_keep E (.ref s.heap.length) selector s1 hnm
      rw [k1, k2, asSparse_frame (fun r hr => h2 r (hvalid r hr))]
      exact hholes
    generalize (markupSelector E (.ref s.heap.length) selector s1).1 = selM at h hMs
    generalize (markupSelector E (.ref s.heap.length) selector s1).2 = sM at h hM hMl hMg hMs
    cases hmem : member sM.heap selM (.name "cheerio") with
    | error e => rw [hmem] at h; cases h
    | ok mark =>
      rw [hmem] at h
      simp only at h
      by_cases hmk : truthy mark = true
      · simp only [hmk, if_true] at h
        injection h with h
        injection h with _ h2
        rw [← h2]
        exact contiguous_fresh hM h3a
      · simp only [hmk, Bool.false_eq_true, if_false] at h
        have hW : (wrapNode selM sM).2.heap[s.heap.length]? = some (.cheerio ps1) := by
          rw [wrapNode_other _ _ (by omega), hM]
        have hWg : s.log <+: (wrapNode selM sM).2.log := by
          rw [wrapNode_log]
          exact hMg
        have hWs := asSparse_wrapNode hMs
        generalize (wrapNode selM sM).1 = selW at h hWs
        generalize (wrapNode selM sM).2 = sW at h hW hWg hWs
        cases harr : asArray sW.heap selW with
        | some xs =>
          rw [harr] at h
          simp only at h
          injection h with h
          injection h with _ h2
          rw [← h2]
          exact contiguous_populate xs sW hW h3a
        | none =>
          rw [harr] at h
          simp only at h
          rw [hWs] at h
          simp only at h
          cases hrc : resolveContext E
              (fun x => Cheerio E (n + 1) (.ref s.heap.length) x .undefined .undefined
                .undefined) (.ref s.heap.length) selW context sW with
          | error e => rw [hrc] at h; cases h
          | ok res =>
            obtain ⟨sel2, c2, s3⟩ := res
            rw [hrc] at h
            simp only at h
            by_cases hc2 : truthy c2 = false
            · simp only [hc2, if_true] at h
              injection h with h
              injection h with _ h2
              rw [← h2]
              rcases resolveContext_outcome E n s.heap.length ps1 selW context sW hW
                sel2 c2 s3 hrc with ht | hh
              · rw [ht] at hc2; cases hc2
              · have h3s : s3.heap[s.heap.length]? = some (.cheerio ps1) := by
                  rw [hh, hW]
                exact contiguous_fresh h3s h3a
            · simp only [hc2, if_false] at h
              obtain ⟨evs, he⟩ := hWg.trans (resolveContext_log
                (fun x u v s' hh => Cheerio_log E _ _ x _ _ _ u v s' hh) hrc)
              have hl := callFind_log h
              rw [← he, List.append_assoc] at hl
              exact absurd (List.mem_append_right evs (List.mem_singleton.mpr rfl))
                (hnf _ hl c2 sel2)

/-- `Cheerio.call(this, x)` (lines 86 and 94) on an array or on a bare node:
`this` gets new options and is populated from the elements; every other
object stays. -/
theorem Cheerio_wraps (E : Env) (n t : Nat) (ps : Props) (x : Val) (xs : List Val) (s : State)
    (ht : s.heap[t]? = some (.cheerio ps))
    (hx : asArray s.heap x = some xs
      ∨ (truthy (isNode s.heap x) = true
          ∧ truthy (getProp s.heap x (.name "cheerio")) = false ∧ xs = [x]))
    (hxt : x ≠ .ref t) :
    ∃ s2 : State, Cheerio E (n + 1) (.ref t) x .undefined .undefined .undefined s
        = .ok (.ref t, populate (.ref t) xs s2)
      ∧ s2.heap[t]? = some (.cheerio (setKey (setKey ps (.name "length") (.num 0))
          (.name "options") (.ref s.heap.length)))
      ∧ (∀ r, r < s.heap.length → r ≠ t → s2.heap[r]? = s.heap[r]?)
      ∧ s2.log = s.log ++ [.flatten .undefined] := by
  have hinst := instanceOf_of_cheerio ht
  have htl := getElem?_lt_length ht
  have hself := resolveOptions_self E .undefined ht
  have hlen := resolveOptions_length E (.ref t) .undefined s
  have hlog := resolveOptions_log E (.ref t) .undefined s
  have hoth := fun r (h1 : r < s.heap.length) (h2 : r ≠ t) =>
    resolveOptions_other E t .undefined s h1 h2
  rw [Cheerio]
  simp only [hinst, Bool.true_eq_false, if_false]
  generalize resolveOptions E (.ref t) .undefined s = s1 at *
  have hu : truthy .undefined = false := rfl
  rcases hx with harr | ⟨hnode, hmark, rfl⟩
  · obtain ⟨c1, c2, c3⟩ := asArray_facts harr
    have hvalid : ∀ r, x = .ref r → r < s.heap.length := by
      intro r hr
      subst hr
      simp only [asArray] at harr
      split at harr
      · exact getElem?_lt_length (by assumption)
      · cases harr
    have hfr : ∀ r, x = .ref r → s1.heap[r]? = s.heap[r]? := by
      intro r hr
      exact hoth r (hvalid r hr) (fun h => hxt (by rw [hr, h]))
    have htr' : (truthy x = false) = False := by simp [c1]
    have hns : isString x = false := by
      cases x <;> simp_all [asArray, isString]
    refine ⟨s1, ?_, hself, hoth, hlog⟩
    simp only [htr', if_false, bindRoot_falsy E _ _ .undefined s1 hu,
      markupSelector_nonstring E _ x s1 hns, member_truthy _ _ c1, wrapNode,
      getProp_frame _ hfr, isNode_frame hfr, asArray_frame hfr, c2, c3, harr,
      Bool.false_eq_true]
  · obtain ⟨r, rfl, hr⟩ := truthy_isNode_isObject hnode
    have hrt : r ≠ t := fun h => hxt (by rw [h])
    have hnode1 : truthy (isNode s1.heap (.ref r)) = true := by
      rw [isNode_congr (hoth r hr hrt)]; exact hnode
    have hmark1 : truthy (getProp s1.heap (.ref r) (.name "cheerio")) = false := by
      rw [getProp_congr _ (hoth r hr hrt)]; exact hmark
    refine ⟨s1.extend [.array [.ref r]], ?_, ?_, ?_, hlog⟩
    · simp only [truthy_ref, Bool.true_eq_false, if_false,
        bindRoot_falsy E _ _ .undefined s1 hu]
      rw [markupSelector_nonstring E _ (.ref r) _ rfl]
      have harr : asArray (s1.extend [.array [.ref r]]).heap (.ref s1.heap.length)
          = some [.ref r] := by
        simp [asArray, State.extend]
      simp only [member_truthy _ _ (truthy_ref r), hmark1, wrapNode, hnode1,
        Bool.false_eq_true, if_false, if_true, harr]
    · rw [State.extend, List.getElem?_append_left (by omega), hself]
    · intro q hq hqt
      rw [State.extend, List.getElem?_append_left (by omega), hoth q hq hqt]

/-- The collection lines 86 and 94 populate, seen from `find`: its length and
slots are the elements, and `find` is still the method of the prototype. -/
theorem wrapped_this {L : Nat} {ps1 : Props} (o : Val) (xs : List Val) {s2 : State}
    (h : s2.heap[L]? = some (.cheerio (setKey (setKey ps1 (.name "length") (.num 0))
      (.name "options") o)))
    (h3a : ∀ k, k ≠ .name "_root" → ps1.lookup k = (freshProps L).lookup k) :
    ∃ ps', (populate (.ref L) xs s2).heap[L]? = some (.cheerio ps')
      ∧ ps'.lookup (.name "find") = none
      ∧ getProp (populate (.ref L) xs s2).heap (.ref L) (.name "length") = .num xs.length
      ∧ (∀ i, i < xs.length → getOwn (populate (.ref L) xs s2).heap L (.idx i) = xs[i]?)
      ∧ (∀ i, xs.length ≤ i → getOwn (populate (.ref L) xs s2).heap L (.idx i) = none) := by
  obtain ⟨ps', p1, p2, p3, p4, p5⟩ := populate_self xs h
  refine ⟨ps', p1, ?_, getProp_of_lookup p1 p2, ?_, ?_⟩
  · rw [p5 _ (by decide), lookup_setKey_ne _ _ (by decide), lookup_setKey_ne _ _ (by decide),
      h3a _ (by decide), freshProps_name _ (by decide) (by decide)]
  · intro i hi
    simp [getOwn, p1, p3 i hi]
  · intro i hi
    simp only [getOwn, p1]
    rw [p4 i hi, lookup_setKey_ne _ _ (by simp), lookup_setKey_ne _ _ (by simp),
      h3a _ (by simp), freshProps_idx]

/-- Claim C16, amended: for every non-empty string `t` the classifier rejects
and every string context `m` the classifier accepts (the classifier rejecting
the empty string), whatever the root, when the root node `parse(m,
this.options, false)` returns is a node without signature, the call returns
exactly what `find(t)` returns when called on the new collection, which then
has `length` 1 and slot 0 the root node `parse` returned (not its children);
`find` gets the text `t` as it is and is called once. -/
theorem markup_context_wrapped (E : Env) (n : Nat) (t m : String) (root options : Val)
    (s s1 : State) (hne : t ≠ "") (hh : E.isHtml t = false)
    (hempty : E.isHtml "" = false) (hm : E.isHtml m = true)
    (hp : prelude E (n + 1) root options s = .ok s1)
    (hnode : truthy (isNode (s1.heap ++ (E.parse s1.heap m (.ref (s.heap.length + 1)) false).2)
      (.ref (E.parse s1.heap m (.ref (s.heap.length + 1)) false).1)) = true)
    (hmark : truthy (getProp
      (s1.heap ++ (E.parse s1.heap m (.ref (s.heap.length + 1)) false).2)
      (.ref (E.parse s1.heap m (.ref (s.heap.length + 1)) false).1) (.name "cheerio"))
        = false) :
    ∃ s2 : State, Cheerio E (n + 3) .undefined (.str t) (.str m) root options s =
        (match E.find s2.heap s.heap.length (.str t) with
          | .ok (v, h) =>
            .ok (.ref v, { heap := h, log := s2.log ++ [.find (.ref s.heap.length) (.str t)] })
          | .error e => .error e)
      ∧ getProp s2.heap (.ref s.heap.length) (.name "length") = .num 1
      ∧ getProp s2.heap (.ref s.heap.length) (.idx 0)
          = .ref (E.parse s1.heap m (.ref (s.heap.length + 1)) false).1
      ∧ (∀ i, 1 ≤ i → getOwn s2.heap s.heap.length (.idx i) = none)
      ∧ s2.log = s1.log ++ [.isHtml t, .isHtml m, .parse m (.ref (s.heap.length + 1)),
          .flatten .undefined]
      ∧ (∃ evs, s1.log = s.log ++ evs ∧ ∀ a b, Event.find a b ∉ evs) := by
  obtain ⟨_, ⟨ps1, h3, h3a, _, _⟩, h4, evs, h5, h6⟩ := prelude_facts E n root options s s1 hp
  have hopts : getProp s1.heap (.ref s.heap.length) (.name "options")
      = .ref (s.heap.length + 1) :=
    getProp_of_lookup h3 (by rw [h3a _ (by decide), freshProps_options])
  have hmne : m ≠ "" := by
    intro h
    rw [h, hempty] at hm
    cases hm
  obtain ⟨f1, f2, f3⟩ := str_facts s1.heap t
  generalize hpe : E.parse s1.heap m (.ref (s.heap.length + 1)) false = p at *
  have h3p : (s1.heap ++ p.2)[s.heap.length]? = some (.cheerio ps1) := by
    rw [List.getElem?_append_left h4, h3]
  have hpL : Val.ref p.1 ≠ .ref s.heap.length := by
    intro h
    injection h with h
    rw [h] at hmark
    have : getProp (s1.heap ++ p.2) (.ref s.heap.length) (.name "cheerio")
        = .str "[cheerio object]" := by
      simp only [getProp, getOwn, protoProp, h3p]
      rw [h3a _ (by decide), freshProps_name _ (by decide) (by decide)]
      rfl
    rw [this] at hmark
    cases hmark
  obtain ⟨s2, w1, w2, _, w4⟩ := Cheerio_wraps E n s.heap.length ps1 (.ref p.1) [.ref p.1]
    ((((s1.record (.isHtml t)).record (.isHtml m)).record
      (.parse m (.ref (s.heap.length + 1)))).extend p.2) h3p
    (Or.inr ⟨hnode, hmark, rfl⟩) hpL
  obtain ⟨ps', q1, q2, q3, q4, q5⟩ := wrapped_this _ [.ref p.1] w2 h3a
  refine ⟨populate (.ref s.heap.length) [.ref p.1] s2, ?_, q3, ?_, ?_, ?_,
    .flatten options :: evs, h5, ?_⟩
  · rw [Cheerio_top, Cheerio_instance _ _ _ _ _ _ _ _ (fresh_instance s)]
    rw [prelude] at hp
    simp only [hp, truthy_str hne, Bool.true_eq_false, if_false,
      markupSelector_plain E _ t s1 hh]
    have f1' : truthy (getProp (s1.record (.isHtml t)).heap (.str t) (.name "cheerio"))
        = false := f1
    have f2' : truthy (isNode (s1.record (.isHtml t)).heap (.str t)) = false := f2
    have f3' : asArray (s1.record (.isHtml t)).heap (.str t) = none := f3
    have hrc : resolveContext E
        (fun x => Cheerio E (n + 1) (.ref s.heap.length) x .undefined .undefined .undefined)
        (.ref s.heap.length) (.str t) (.str m) (s1.record (.isHtml t))
        = .ok (.str t, .ref s.heap.length, populate (.ref s.heap.length) [.ref p.1] s2) := by
      have e1 : getProp (s1.record (.isHtml t)).heap (.ref s.heap.length) (.name "options")
          = .ref (s.heap.length + 1) := hopts
      have e2 : ((s1.record (.isHtml t)).record (.isHtml m)).heap = s1.heap := rfl
      have e3 : (s1.record (.isHtml t)).heap = s1.heap := rfl
      unfold resolveContext
      rw [if_neg (by simp [truthy_str hmne])]
      simp only [hm, if_true, e2, e1, hpe]
      rw [e3] at e1
      simp only [State.record] at w1 ⊢
      simp only [e1, hpe, w1]
    simp only [member_truthy _ _ (truthy_str hne), f1', wrapNode, f2', f3',
      Bool.false_eq_true, if_false, hrc, truthy_ref, Bool.true_eq_false,
      callFind_instance E _ q1 q2]
    exact new_of_found _ _ _
  · have := q4 0 (by simp)
    simp only [getProp, this]
    rfl
  · intro i hi
    exact q5 i (by simpa using hi)
  · rw [populate_log, w4]
    simp [State.record, State.extend]
  · exact no_find_cons (by simp) h6

/-- Claim C16, amended, on `li` in the markup `<ul>`: `find` is called on the
new collection (at 6), of length 1, whose slot 0 is the root node the parser
returned (at 8). -/
theorem markup_context_wrapped_witness :
    sampleEnv.isHtml "li" = false ∧ sampleEnv.isHtml "" = false
      ∧ sampleEnv.isHtml "<ul>" = true
      ∧ ∃ s2 : State, Cheerio sampleEnv 3 .undefined (.str "li") (.str "<ul>") .undefined
          .undefined sampleState =
          (match sampleEnv.find s2.heap 6 (.str "li") with
            | .ok (v, h) =>
              .ok (.ref v, { heap := h, log := s2.log ++ [.find (.ref 6) (.str "li")] })
            | .error e => .error e)
        ∧ getProp s2.heap (.ref 6) (.name "length") = .num 1
        ∧ getProp s2.heap (.ref 6) (.idx 0) = .ref 8
        ∧ (∀ i, 1 ≤ i → getOwn s2.heap 6 (.idx i) = none)
        ∧ s2.log = [.flatten .undefined, .isHtml "li", .isHtml "<ul>",
            .parse "<ul>" (.ref 7), .flatten .undefined]
        ∧ (∃ evs, [Event.flatten .undefined] = sampleState.log ++ evs
            ∧ ∀ a b, Event.find a b ∉ evs) :=
  ⟨rfl, rfl, rfl, markup_context_wrapped sampleEnv 0 "li" "<ul>" .undefined .undefined
    sampleState (resolveOptions sampleEnv (.ref 6) .undefined (sampleState.extend [.cheerio []]))
    (by decide) rfl rfl rfl rfl rfl rfl⟩

/-- Claim C16 as stated fails: the empty string is a string the classifier
rejects, and with it as selector and the markup `<ul>` as context the call
returns the new empty collection (at 6); the context is not parsed and `find`
is not called. -/
theorem empty_selector_ignores_markup_context :
    sampleEnv.isHtml "" = false ∧ sampleEnv.isHtml "<ul>" = true
      ∧ Cheerio sampleEnv 3 .undefined (.str "") (.str "<ul>") .undefined .undefined sampleState
        = .ok (.ref 6,
          { heap := sampleState.heap ++
              [.cheerio [(.name "options", .ref 7), (.name "length", .num 0)],
               .plain [(.name "xml", .bool false), (.name "decodeEntities", .bool true)]],
            log := [.flatten .undefined] }) :=
  ⟨rfl, rfl, rfl⟩

/-- An array or a bare node is an object of the heap. -/
theorem wrappable_valid {h : List Obj} {x : Val} {xs : List Val}
    (hx : asArray h x = some xs
      ∨ (truthy (isNode h x) = true ∧ truthy (getProp h x (.name "cheerio")) = false
          ∧ xs = [x])) :
    ∃ r, x = .ref r ∧ r < h.length ∧ truthy (getProp h x (.name "cheerio")) = false := by
  rcases hx with harr | ⟨hnode, hmark, _⟩
  · obtain ⟨_, c2, _⟩ := asArray_facts harr
    cases x with
    | ref r =>
      refine ⟨r, rfl, ?_, c2⟩
      simp only [asArray] at harr
      split at harr
      · exact getElem?_lt_length (by assumption)
      · cases harr
    | _ => simp [asArray] at harr
  · obtain ⟨r, hr, hrl⟩ := truthy_isNode_isObject hnode
    exact ⟨r, hr, hrl, hmark⟩

/-- Line 94 on a context that is an array or a bare node: `find` is called on
the new collection, populated from the context. -/
theorem object_context_wrapped (E : Env) (n : Nat) (t : String) (context : Val)
    (xs : List Val) (root options : Val) (s : State) (hne : t ≠ "")
    (hh : E.isHtml t = false)
    (hctx : asArray s.heap context = some xs
      ∨ (truthy (isNode s.heap context) = true
          ∧ truthy (getProp s.heap context (.name "cheerio")) = false ∧ xs = [context])) :
    ∃ s2 : State, Cheerio E (n + 3) .undefined (.str t) context root options s =
        (match E.find s2.heap s.heap.length (.str t) with
          | .ok (v, h) =>
            .ok (.ref v, { heap := h, log := s2.log ++ [.find (.ref s.heap.length) (.str t)] })
          | .error e => .error e)
      ∧ Contiguous s2.heap s.heap.length
      ∧ getProp s2.heap (.ref s.heap.length) (.name "length") = .num xs.length
      ∧ (∀ i, i < xs.length → getOwn s2.heap s.heap.length (.idx i) = xs[i]?) := by
  obtain ⟨r, rfl, hr, hmark⟩ := wrappable_valid hctx
  obtain ⟨s1, h1, h2, ⟨ps1, h3, h3a, _, _⟩, h4, _⟩ := fresh_prelude E n root options s
  obtain ⟨f1, f2, f3⟩ := str_facts s1.heap t
  have hfr : ∀ q, Val.ref r = .ref q → (s1.record (.isHtml t)).heap[q]? = s.heap[q]? := by
    intro q hq
    injection hq with hq
    subst hq
    exact h2 r hr
  have hctx1 : asArray (s1.record (.isHtml t)).heap (.ref r) = some xs
      ∨ (truthy (isNode (s1.record (.isHtml t)).heap (.ref r)) = true
          ∧ truthy (getProp (s1.record (.isHtml t)).heap (.ref r) (.name "cheerio")) = false
          ∧ xs = [.ref r]) := by
    rw [asArray_frame hfr, isNode_frame hfr, getProp_frame _ hfr]
    exact hctx
  have hmark1 : truthy (getProp (s1.record (.isHtml t)).heap (.ref r) (.name "cheerio"))
      = false := by
    rw [getProp_frame _ hfr]; exact hmark
  obtain ⟨s2, w1, w2, _, _⟩ := Cheerio_wraps E n s.heap.length ps1 (.ref r) xs
    (s1.record (.isHtml t)) h3 hctx1 (by intro h; injection h with h; omega)
  obtain ⟨ps', q1, q2, q3, q4, q5⟩ := wrapped_this _ xs w2 h3a
  refine ⟨populate (.ref s.heap.length) xs s2, ?_, ⟨xs.length, q3, ?_⟩, q3, q4⟩
  · rw [Cheerio_top, Cheerio_instance _ _ _ _ _ _ _ _ (fresh_instance s)]
    simp only [h1, truthy_str hne, Bool.true_eq_false, if_false,
      markupSelector_plain E _ t s1 hh]
    have f1' : truthy (getProp (s1.record (.isHtml t)).heap (.str t) (.name "cheerio"))
        = false := f1
    have f2' : truthy (isNode (s1.record (.isHtml t)).heap (.str t)) = false := f2
    have f3' : asArray (s1.record (.isHtml t)).heap (.str t) = none := f3
    have hrc : resolveContext E
        (fun x => Cheerio E (n + 1) (.ref s.heap.length) x .undefined .undefined .undefined)
        (.ref s.heap.length) (.str t) (.ref r) (s1.record (.isHtml t))
        = .ok (.str t, .ref s.heap.length, populate (.ref s.heap.length) xs s2) := by
      unfold resolveContext
      rw [if_neg (by simp)]
      simp only [truthy_ref, isObject_ref, Bool.and_self, if_true, hmark1,
        Bool.false_eq_true, if_false, w1]
    simp only [member_truthy _ _ (truthy_str hne), f1', wrapNode, f2', f3',
      Bool.false_eq_true, if_false, hrc, truthy_ref, Bool.true_eq_false,
      callFind_instance E _ q1 q2]
    exact new_of_found _ _ _
  · intro i
    rcases Nat.lt_or_ge i xs.length with hlt | hge
    · rw [q4 i hlt, List.getElem?_eq_getElem hlt]
      simp [hlt]
    · rw [q5 i hge]
      simp
      omega

/-- A top-level call on a selector the constructor populates itself: an array,
a bare node, or a markup string whose parsed children are an array. -/
theorem selector_populates (E : Env) (n : Nat) (selector context root options : Val)
    (s s1 : State) (xs : List Val) (hp : prelude E (n + 1) root options s = .ok s1)
    (hsel : Wrappable s.heap selector xs
      ∨ (∃ t, selector = .str t ∧ E.isHtml "" = false ∧ E.isHtml t = true
          ∧ asArray (parsedChildren E t (.ref (s.heap.length + 1)) s1.heap).2
              (parsedChildren E t (.ref (s.heap.length + 1)) s1.heap).1 = some xs)) :
    ∃ s2 : State, Cheerio E (n + 3) .undefined selector context root options s
        = .ok (.ref s.heap.length, populate (.ref s.heap.length) xs s2)
      ∧ (∀ r, r < s1.heap.length → s2.heap[r]? = s1.heap[r]?)
      ∧ s1.log <+: s2.log := by
  rcases hsel with hdom | ⟨t, rfl, hempty, hh, hcs⟩
  · obtain ⟨s1', s2, h1, hcall, hfr, hlog⟩ := populated_call E n selector context root
      options s xs hdom
    have e : s1' = s1 := by
      rw [prelude, h1] at hp
      injection hp
    rw [e] at hfr hlog
    exact ⟨s2, hcall, hfr, by rw [hlog]⟩
  · obtain ⟨_, ⟨ps1, h3, h3a, _, _⟩, h4, _⟩ := prelude_facts E n root options s s1 hp
    have hopts : getProp s1.heap (.ref s.heap.length) (.name "options")
        = .ref (s.heap.length + 1) :=
      getProp_of_lookup h3 (by rw [h3a _ (by decide), freshProps_options])
    have hne : t ≠ "" := by
      intro h
      rw [h, hempty] at hh
      cases hh
    obtain ⟨c1, c2, c3⟩ := asArray_facts hcs
    have hsel : markupSelector E (.ref s.heap.length) (.str t) s1
        = ((parsedChildren E t (.ref (s.heap.length + 1)) s1.heap).1,
          { heap := (parsedChildren E t (.ref (s.heap.length + 1)) s1.heap).2,
            log := s1.log ++ [.isHtml t, .parse t (.ref (s.heap.length + 1))] }) := by
      simp [markupSelector, hh, State.record, State.extend, hopts, parsedChildren]
    refine ⟨{ heap := (parsedChildren E t (.ref (s.heap.length + 1)) s1.heap).2,
              log := s1.log ++ [.isHtml t, .parse t (.ref (s.heap.length + 1))] }, ?_, ?_,
      List.prefix_append _ _⟩
    · rw [Cheerio_top, Cheerio_instance _ _ _ _ _ _ _ _ (fresh_instance s)]
      rw [prelude] at hp
      simp only [hp, truthy_str hne, Bool.true_eq_false, if_false, hsel, member_truthy _ _ c1,
        c2, wrapNode, c3, Bool.false_eq_true, hcs, isObject_ref, if_true]
    · intro r hr
      simp only [parsedChildren]
      rw [List.getElem?_append_left hr]

/-- A call on a falsy selector, on an array without holes, on a bare node or on
a markup string whose parsed children are an array without holes returns the
collection it created, and that collection is contiguous. -/
theorem own_paths_contiguous (E : Env) (n : Nat) (selector context root options : Val)
    (s s1 : State) (xs : List Val) (hp : prelude E (n + 1) root options s = .ok s1)
    (hsel : (truthy selector = false ∧ xs = [])
      ∨ Wrappable s.heap selector xs
      ∨ (∃ t, selector = .str t ∧ E.isHtml "" = false ∧ E.isHtml t = true
          ∧ asArray (parsedChildren E t (.ref (s.heap.length + 1)) s1.heap).2
              (parsedChildren E t (.ref (s.heap.length + 1)) s1.heap).1 = some xs)) :
    ∃ s', Cheerio E (n + 3) .undefined selector context root options s
        = .ok (.ref s.heap.length, s')
      ∧ Contiguous s'.heap s.heap.length
      ∧ getProp s'.heap (.ref s.heap.length) (.name "length") = .num xs.length := by
  rcases hsel with ⟨hf, rfl⟩ | hdom
  · have ht : (s.extend [.cheerio []]).heap[s.heap.length]? = some (.cheerio []) := by
      simp [State.extend]
    have hself := resolveOptions_self E options ht
    have hlen : (s.extend [.cheerio []]).heap.length = s.heap.length + 1 := by
      simp [State.extend]
    rw [hlen] at hself
    refine ⟨resolveOptions E (.ref s.heap.length) options (s.extend [.cheerio []]), ?_,
      contiguous_fresh hself (fun k _ => rfl), getProp_of_lookup hself rfl⟩
    rw [Cheerio_top, Cheerio_instance _ _ _ _ _ _ _ _ (fresh_instance s)]
    simp [hf, isObject]
  · obtain ⟨s2, hcall, hfr, _⟩ := selector_populates E n selector context root options s s1
      xs hp hdom
    obtain ⟨_, ⟨ps1, h3, h3a, _, _⟩, h4, _⟩ := prelude_facts E n root options s s1 hp
    have h3' : s2.heap[s.heap.length]? = some (.cheerio ps1) := by rw [hfr _ h4, h3]
    exact ⟨_, hcall, contiguous_populate xs s2 h3' h3a, (populate_fresh xs s2 h3' h3a).1⟩

/-- An array with holes carries no signature, is not a node and is not an
array without holes. -/
theorem asSparse_facts {h : List Obj} {v : Val} {ys : List (Option Val)}
    (hv : asSparse h v = some ys) :
    truthy v = true ∧ isString v = false
      ∧ truthy (getProp h v (.name "cheerio")) = false
      ∧ truthy (isNode h v) = false ∧ asArray h v = none
      ∧ ∃ r, v = .ref r ∧ h[r]? = some (.sparse ys) := by
  cases v with
  | ref r =>
    have hr : h[r]? = some (.sparse ys) := by
      simp only [asSparse] at hv
      split at hv <;> simp_all
    refine ⟨rfl, rfl, ?_, ?_, ?_, r, rfl, hr⟩
    · simp [getProp, getOwn, protoProp, hr, truthy]
    · simp [isNode, getProp, getOwn, protoProp, hr, truthy]
    · simp [asArray, hr]
  | _ => simp [asSparse] at hv

/-- Lines 65-77 of a top-level call on an array with holes: the call returns the
object it created, populated from the elements; no slot is written at a
hole. -/
theorem sparse_call (E : Env) (n : Nat) (selector context root options : Val) (s s1 : State)
    (ys : List (Option Val)) (hp : prelude E (n + 1) root options s = .ok s1)
    (hsel : asSparse s.heap selector = some ys) :
    Cheerio E (n + 3) .undefined selector context root options s
      = .ok (.ref s.heap.length, populateSlots (.ref s.heap.length) ys s1) := by
  obtain ⟨h2, _, h4, _⟩ := prelude_facts E n root options s s1 hp
  have h1 := hp
  rw [prelude] at h1
  obtain ⟨_, _, _, _, _, r, rfl, hr⟩ := asSparse_facts hsel
  have hrl := getElem?_lt_length hr
  have hfr : ∀ q, Val.ref r = .ref q → s1.heap[q]? = s.heap[q]? := by
    intro q hq
    injection hq with hq
    subst hq
    exact h2 r hrl
  have hsel1 : asSparse s1.heap (.ref r) = some ys := by
    rw [asSparse_frame hfr]; exact hsel
  obtain ⟨c1, c2, c3, c4, c5, _⟩ := asSparse_facts hsel1
  rw [Cheerio_top, Cheerio_instance _ _ _ _ _ _ _ _ (fresh_instance s)]
  simp only [h1, truthy_ref, Bool.true_eq_false, if_false]
  rw [markupSelector_nonstring E _ (.ref r) _ rfl]
  simp only [member_truthy _ _ (truthy_ref r), c3, wrapNode, c4, Bool.false_eq_true,
    if_false, c5, hsel1, isObject_ref, if_true]

/-- A collection populated by lines 72-75 from an array with holes has the
length of the array and a slot exactly at the indices of its elements. -/
theorem holes_populate {L : Nat} {ps1 : Props} (ys : List (Option Val)) (s2 : State)
    (h3 : s2.heap[L]? = some (.cheerio ps1))
    (h3a : ∀ k, k ≠ .name "_root" → ps1.lookup k = (freshProps L).lookup k) :
    getProp (populateSlots (.ref L) ys s2).heap (.ref L) (.name "length") = .num ys.length
      ∧ (∀ i, getOwn (populateSlots (.ref L) ys s2).heap L (.idx i) = (ys[i]?).join) := by
  obtain ⟨ps', p1, p2, p3, p4, _⟩ := populateSlots_self ys h3
  refine ⟨getProp_of_lookup p1 p2, ?_⟩
  intro i
  simp only [getOwn, p1]
  cases hy : ys[i]? with
  | none =>
    rw [p4 i (by rw [hy]; intro x hx; cases hx), h3a _ (by simp), freshProps_idx]
    rfl
  | some y =>
    cases y with
    | none =>
      rw [p4 i (by rw [hy]; intro x hx; cases hx), h3a _ (by simp), freshProps_idx]
      rfl
    | some x =>
      rw [p3 i x hy]
      rfl

/-- Claim C3: for every array and every root and options, the call returns the
same new collection in the same final state whatever the context is, and
`find` is not called.  For an array `xs` without holes, its `length` is the
length of `xs`, its slot `i` is `xs[i]` for every `i` below that length, and
it has no slot beyond.  For an array with holes, its `length` is the length of
the array, every index reads on it as it reads on the array (`undefined` at a
hole), and it has no slot beyond. -/
theorem array_selector_ignores_context (E : Env) (n a : Nat) (root options : Val)
    (s : State) :
    (∀ xs, s.heap[a]? = some (.array xs) →
      ∃ s', (∀ context, Cheerio E (n + 3) .undefined (.ref a) context root options s
          = .ok (.ref s.heap.length, s'))
        ∧ getProp s'.heap (.ref s.heap.length) (.name "length") = .num xs.length
        ∧ (∀ i, i < xs.length → getOwn s'.heap s.heap.length (.idx i) = xs[i]?)
        ∧ (∀ i, xs.length ≤ i → getOwn s'.heap s.heap.length (.idx i) = none)
        ∧ (∃ evs, s'.log = s.log ++ evs ∧ ∀ t x, Event.find t x ∉ evs))
    ∧ (∀ ys, s.heap[a]? = some (.sparse ys) →
      ∃ s', (∀ context, Cheerio E (n + 3) .undefined (.ref a) context root options s
          = .ok (.ref s.heap.length, s'))
        ∧ getProp s'.heap (.ref s.heap.length) (.name "length") = .num ys.length
        ∧ (∀ i, getProp s'.heap (.ref s.heap.length) (.idx i)
            = getProp s.heap (.ref a) (.idx i))
        ∧ (∀ i, ys.length ≤ i → getOwn s'.heap s.heap.length (.idx i) = none)
        ∧ (∃ evs, s'.log = s.log ++ evs ∧ ∀ t x, Event.find t x ∉ evs)) := by
  constructor
  · intro xs ha
    exact array_selector_dense E n a xs root options s ha
  · intro ys ha
    obtain ⟨s1, hp, _⟩ := fresh_prelude E n root options s
    obtain ⟨_, ⟨ps1, h3, h3a, _, _⟩, _, evs, h5, h6⟩ := prelude_facts E n root options s s1 hp
    have hsel : asSparse s.heap (.ref a) = some ys := by simp [asSparse, ha]
    obtain ⟨q1, q2⟩ := holes_populate ys s1 h3 h3a
    obtain ⟨ps', p1, _⟩ := populateSlots_self ys h3
    refine ⟨populateSlots (.ref s.heap.length) ys s1,
      fun context => sparse_call E n (.ref a) context root options s s1 ys hp hsel,
      q1, ?_, ?_, .flatten options :: evs, ?_, no_find_cons (by simp) h6⟩
    · intro i
      have e : getOwn (populateSlots (.ref s.heap.length) ys s1).heap s.heap.length (.idx i)
          = getOwn s.heap a (.idx i) := by
        rw [q2 i]
        simp [getOwn, ha]
      simp only [getProp, e]
      cases getOwn s.heap a (.idx i) with
      | some v => rfl
      | none => simp [protoProp, p1, ha]
    · intro i hi
      rw [q2 i, List.getElem?_eq_none hi]
      rfl
    · rw [populateSlots_log, h5]

/-- Claim C3 on the array of the sample heap, with the document as root, and
on the array `[ , ul]` with a hole. -/
theorem array_selector_ignores_context_witness :
    (∃ s', (∀ context, Cheerio sampleEnv 3 .undefined (.ref 2) context (.ref 0) .undefined
        sampleState = .ok (.ref 6, s'))
      ∧ getProp s'.heap (.ref 6) (.name "length") = .num 2
      ∧ (∀ i, i < 2 → getOwn s'.heap 6 (.idx i) = [Val.ref 1, Val.ref 1][i]?)
      ∧ (∀ i, 2 ≤ i → getOwn s'.heap 6 (.idx i) = none)
      ∧ (∃ evs, s'.log = sampleState.log ++ evs ∧ ∀ t x, Event.find t x ∉ evs))
    ∧ (∃ s', (∀ context, Cheerio sampleEnv 3 .undefined (.ref 6) context .undefined .undefined
        holeState = .ok (.ref 7, s'))
      ∧ getProp s'.heap (.ref 7) (.name "length") = .num 2
      ∧ (∀ i, getProp s'.heap (.ref 7) (.idx i) = getProp holeState.heap (.ref 6) (.idx i))
      ∧ (∀ i, 2 ≤ i → getOwn s'.heap 7 (.idx i) = none)
      ∧ (∃ evs, s'.log = holeState.log ++ evs ∧ ∀ t x, Event.find t x ∉ evs)) :=
  ⟨(array_selector_ignores_context sampleEnv 0 2 (.ref 0) .undefined sampleState).1
      [.ref 1, .ref 1] rfl,
    (array_selector_ignores_context sampleEnv 0 6 .undefined .undefined holeState).2
      [none, some (.ref 1)] rfl⟩

/-- A collection whose slots mirror an array with holes is contiguous exactly
when the array has no hole. -/
theorem contiguous_iff_no_hole {h : List Obj} {L : Nat} {ys : List (Option Val)}
    (hlen : getProp h (.ref L) (.name "length") = .num ys.length)
    (hslots : ∀ i, getOwn h L (.idx i) = (ys[i]?).join) :
    Contiguous h L ↔ none ∉ ys := by
  constructor
  · rintro ⟨len, h1, h2⟩ hmem
    have hl : len = ys.length := by
      rw [hlen] at h1
      injection h1 with h1
      exact (Int.ofNat.inj h1).symm
    obtain ⟨i, hi, hy⟩ := List.getElem_of_mem hmem
    have := (h2 i).mpr (by omega)
    rw [hslots, List.getElem?_eq_getElem hi, hy] at this
    simp at this
  · intro hno
    refine ⟨ys.length, hlen, ?_⟩
    intro i
    rw [hslots]
    rcases Nat.lt_or_ge i ys.length with hlt | hge
    · rw [List.getElem?_eq_getElem hlt]
      cases hy : ys[i] with
      | none => exact absurd (hy ▸ List.getElem_mem hlt) hno
      | some x => simp [hlt]
    · rw [List.getElem?_eq_none hge]
      simp
      omega

/-- Claim C12, amended: the collection the constructor creates is contiguous
(its `length` is a number and its indexed properties are exactly those of the
indices below it) on every path but one, the array with holes.  First,
whenever a call on a selector that is neither a markup string nor an array
with holes returns the collection it created and has not called `find` (the
falsy selector, the bare node, the array, no context resolved), that
collection is contiguous.  Second, on a falsy selector (`xs` empty), on an
array without holes, on a bare node and on a markup string whose parsed
children are an array without holes, the call does return the collection it
created, contiguous, with `length` the number of elements.  Third, when the
context is an array without holes or a bare node and the selector a non-empty
string the classifier rejects, `find` is called on the new collection,
re-entered to hold the elements of the context, and it is contiguous when
`find` is called.  Fourth, on an array with holes the call returns the
collection it created with the `length` of the array and a slot exactly at
the indices of the elements of the array: it is contiguous if and only if
the array has no hole. -/
theorem populated_collections_contiguous (E : Env) (n : Nat) (root options : Val)
    (s : State) :
    (∀ selector context s',
        (∀ r, selector = .ref r → r < s.heap.length) →
        (∀ t, selector = .str t → E.isHtml t = false) →
        asSparse s.heap selector = none →
        Cheerio E (n + 3) .undefined selector context root options s
          = .ok (.ref s.heap.length, s') →
        (∀ evs, s'.log = s.log ++ evs → ∀ a b, Event.find a b ∉ evs) →
        Contiguous s'.heap s.heap.length)
      ∧ (∀ (selector context : Val) (xs : List Val) (s1 : State),
          prelude E (n + 1) root options s = .ok s1 →
          ((truthy selector = false ∧ xs = [])
            ∨ Wrappable s.heap selector xs
            ∨ (∃ t, selector = .str t ∧ E.isHtml "" = false ∧ E.isHtml t = true
                ∧ asArray (parsedChildren E t (.ref (s.heap.length + 1)) s1.heap).2
                    (parsedChildren E t (.ref (s.heap.length + 1)) s1.heap).1 = some xs)) →
          ∃ s', Cheerio E (n + 3) .undefined selector context root options s
              = .ok (.ref s.heap.length, s')
            ∧ Contiguous s'.heap s.heap.length
            ∧ getProp s'.heap (.ref s.heap.length) (.name "length") = .num xs.length)
      ∧ (∀ (t : String) (context : Val) (xs : List Val), t ≠ "" → E.isHtml t = false →
          Wrappable s.heap context xs →
          ∃ s2 : State, Cheerio E (n + 3) .undefined (.str t) context root options s =
              (match E.find s2.heap s.heap.length (.str t) with
                | .ok (v, h) =>
                  .ok (.ref v,
                    { heap := h, log := s2.log ++ [.find (.ref s.heap.length) (.str t)] })
                | .error e => .error e)
            ∧ Contiguous s2.heap s.heap.length
            ∧ getProp s2.heap (.ref s.heap.length) (.name "length") = .num xs.length
            ∧ (∀ i, i < xs.length → getOwn s2.heap s.heap.length (.idx i) = xs[i]?))
      ∧ (∀ (selector context : Val) (ys : List (Option Val)),
          asSparse s.heap selector = some ys →
          ∃ s', Cheerio E (n + 3) .undefined selector context root options s
              = .ok (.ref s.heap.length, s')
            ∧ getProp s'.heap (.ref s.heap.length) (.name "length") = .num ys.length
            ∧ (∀ i, getOwn s'.heap s.heap.length (.idx i) = (ys[i]?).join)
            ∧ (Contiguous s'.heap s.heap.length ↔ none ∉ ys)) := by
  refine ⟨?_, ?_, ?_, ?_⟩
  · intro selector context s' hvalid hnm hholes h hnf
    rw [Cheerio_top] at h
    obtain ⟨v, hv⟩ := new_result h
    exact body_contiguous E n selector context root options s v s' hvalid hnm hholes hv hnf
  · intro selector context xs s1 hp hsel
    exact own_paths_contiguous E n selector context root options s s1 xs hp hsel
  · intro t context xs hne hh hctx
    exact object_context_wrapped E n t context xs root options s hne hh hctx
  · intro selector context ys hsel
    obtain ⟨s1, hp, _⟩ := fresh_prelude E n root options s
    have hcall := sparse_call E n selector context root options s s1 ys hp hsel
    obtain ⟨_, ⟨ps1, h3, h3a, _, _⟩, _, _⟩ := prelude_facts E n root options s s1 hp
    obtain ⟨q1, q2⟩ := holes_populate ys s1 h3 h3a
    exact ⟨_, hcall, q1, q2, contiguous_iff_no_hole q1 q2⟩

/-- Claim C12, amended, on the sample heap: the collection made from the array
at 2 is contiguous with `length` 2, and so is the collection `find` is called
on when `li` is looked for in that array. -/
theorem populated_collections_contiguous_witness :
    (∃ s', Cheerio sampleEnv 3 .undefined (.ref 2) .undefined .undefined .undefined sampleState
        = .ok (.ref 6, s')
      ∧ Contiguous s'.heap 6
      ∧ getProp s'.heap (.ref 6) (.name "length") = .num 2)
    ∧ (∃ s2 : State, Cheerio sampleEnv 3 .undefined (.str "li") (.ref 2) .undefined .undefined
          sampleState =
          (match sampleEnv.find s2.heap 6 (.str "li") with
            | .ok (v, h) =>
              .ok (.ref v, { heap := h, log := s2.log ++ [.find (.ref 6) (.str "li")] })
            | .error e => .error e)
        ∧ Contiguous s2.heap 6
        ∧ getProp s2.heap (.ref 6) (.name "length") = .num 2
        ∧ (∀ i, i < 2 → getOwn s2.heap 6 (.idx i) = [Val.ref 1, Val.ref 1][i]?)) :=
  ⟨(populated_collections_contiguous sampleEnv 0 .undefined .undefined sampleState).2.1
      (.ref 2) .undefined [.ref 1, .ref 1]
      (resolveOptions sampleEnv (.ref 6) .undefined (sampleState.extend [.cheerio []])) rfl
      (Or.inr (Or.inl (Or.inl rfl))),
    (populated_collections_contiguous sampleEnv 0 .undefined .undefined sampleState).2.2.1
      "li" (.ref 2) [.ref 1, .ref 1] (by decide) rfl (Or.inl rfl)⟩

/-- Claim C12 as stated fails on the node-array path: from the array `[ , ul]`
(at 6), whose slot 0 is a hole, the call makes a collection (at 7) of
`length` 2 with a node in slot 1 and nothing in slot 0, which is not
contiguous. -/
theorem hole_leaves_gap :
    ∃ s', Cheerio sampleEnv 3 .undefined (.ref 6) .undefined .undefined .undefined holeState
        = .ok (.ref 7, s')
      ∧ getProp s'.heap (.ref 7) (.name "length") = .num 2
      ∧ getOwn s'.heap 7 (.idx 0) = none
      ∧ getOwn s'.heap 7 (.idx 1) = some (.ref 1)
      ∧ ¬ Contiguous s'.heap 7 := by
  refine ⟨_, rfl, rfl, rfl, rfl, ?_⟩
  rintro ⟨len, h1, h2⟩
  have hl : len = 2 := by
    have h1' : (Val.num 2) = .num len := h1
    injection h1' with h1'
    exact (Int.ofNat.inj h1').symm
  have := (h2 0).mpr (by omega)
  revert this
  decide

/-! ## Markup selectors and the bound root -/

theorem parseRoot_log_exact (E : Env) (this root : Val) (s : State) :
    (parseRoot E this root s).2.log = s.log ++
      (match root with
        | .str r => [.parse r (getProp s.heap this (.name "options"))]
        | _ => []) := by
  cases root <;> simp [parseRoot, State.record, State.extend]

/-- The log after lines 43-57 of a top-level call. -/
theorem prelude_log (E : Env) (n : Nat) (root options : Val) (s s1 : State)
    (hp : prelude E (n + 1) root options s = .ok s1) :
    s1.log = s.log ++ .flatten options :: rootEvents root (.ref (s.heap.length + 1)) := by
  have ht : (s.extend [.cheerio []]).heap[s.heap.length]? = some (.cheerio []) := by
    simp [State.extend]
  have hlen : (s.extend [.cheerio []]).heap.length = s.heap.length + 1 := by simp [State.extend]
  have hself := resolveOptions_self E options ht
  rw [hlen] at hself
  have hopts : getProp (resolveOptions E (.ref s.heap.length) options
      (s.extend [.cheerio []])).heap (.ref s.heap.length) (.name "options")
        = .ref (s.heap.length + 1) := getProp_of_lookup hself rfl
  have hlog0 : (resolveOptions E (.ref s.heap.length) options (s.extend [.cheerio []])).log
      = s.log ++ [.flatten options] := by
    rw [resolveOptions_log]; rfl
  rw [prelude] at hp
  by_cases hr : truthy root = false
  · rw [bindRoot_falsy _ _ _ _ _ hr] at hp
    injection hp with hp
    rw [← hp, hlog0]
    simp [rootEvents, hr]
  · obtain ⟨v, s', h1, _, _, _, _, h6⟩ := construct_root E n
      (parseRoot E (.ref s.heap.length) root
        (resolveOptions E (.ref s.heap.length) options (s.extend [.cheerio []]))).1
      (parseRoot E (.ref s.heap.length) root
        (resolveOptions E (.ref s.heap.length) options (s.extend [.cheerio []]))).2
      (parseRoot_not_string E _ root _)
    have hr' : truthy root = true := by simpa using hr
    simp only [bindRoot, hr', if_true, h1] at hp
    injection hp with hp
    rw [← hp, assign_log, h6, parseRoot_log_exact, hlog0, hopts]
    cases root <;> simp [rootEvents, hr']

/-- Claim C17: for every string `t` the classifier accepts (the classifier
rejecting the empty string), every root and options, when
`parse(t, this.options, false).children` is an array `cs`, the call returns the
same new collection in the same final state whatever the context is: its
slots are the elements of `cs` and its `length` their number; the log after
the options and the root holds the classifier asked about `t` and the parser
called on `t`, and nothing else: the classifier is not asked about the
context and `find` is not called. -/
theorem markup_selector_ignores_context (E : Env) (n : Nat) (t : String)
    (root options : Val) (s s1 : State) (cs : List Val) (hempty : E.isHtml "" = false)
    (hh : E.isHtml t = true) (hp : prelude E (n + 1) root options s = .ok s1)
    (hcs : asArray (parsedChildren E t (.ref (s.heap.length + 1)) s1.heap).2
      (parsedChildren E t (.ref (s.heap.length + 1)) s1.heap).1 = some cs) :
    ∃ s', (∀ context, Cheerio E (n + 3) .undefined (.str t) context root options s
        = .ok (.ref s.heap.length, s'))
      ∧ getProp s'.heap (.ref s.heap.length) (.name "length") = .num cs.length
      ∧ (∀ i, i < cs.length → getOwn s'.heap s.heap.length (.idx i) = cs[i]?)
      ∧ (∀ i, cs.length ≤ i → getOwn s'.heap s.heap.length (.idx i) = none)
      ∧ s'.log = s.log ++ .flatten options :: rootEvents root (.ref (s.heap.length + 1))
          ++ [.isHtml t, .parse t (.ref (s.heap.length + 1))] := by
  obtain ⟨_, ⟨ps1, h3, h3a, _, _⟩, h4, _⟩ := prelude_facts E n root options s s1 hp
  have hlog := prelude_log E n root options s s1 hp
  have hopts : getProp s1.heap (.ref s.heap.length) (.name "options")
      = .ref (s.heap.length + 1) :=
    getProp_of_lookup h3 (by rw [h3a _ (by decide), freshProps_options])
  have hne : t ≠ "" := by
    intro h
    rw [h, hempty] at hh
    cases hh
  obtain ⟨c1, c2, c3⟩ := asArray_facts hcs
  have hsel : markupSelector E (.ref s.heap.length) (.str t) s1
      = ((parsedChildren E t (.ref (s.heap.length + 1)) s1.heap).1,
        { heap := (parsedChildren E t (.ref (s.heap.length + 1)) s1.heap).2,
          log := s1.log ++ [.isHtml t, .parse t (.ref (s.heap.length + 1))] }) := by
    simp [markupSelector, hh, State.record, State.extend, hopts, parsedChildren]
  have h3' : (parsedChildren E t (.ref (s.heap.length + 1)) s1.heap).2[s.heap.length]?
      = some (.cheerio ps1) := by
    rw [parsedChildren, List.getElem?_append_left h4, h3]
  obtain ⟨q1, q2, q3⟩ := populate_fresh cs
    { heap := (parsedChildren E t (.ref (s.heap.length + 1)) s1.heap).2,
      log := s1.log ++ [.isHtml t, .parse t (.ref (s.heap.length + 1))] } h3' h3a
  refine ⟨_, ?_, q1, q2, q3, ?_⟩
  · intro context
    rw [Cheerio_top, Cheerio_instance _ _ _ _ _ _ _ _ (fresh_instance s)]
    rw [prelude] at hp
    simp only [hp, truthy_str hne, Bool.true_eq_false, if_false, hsel, member_truthy _ _ c1,
      c2, wrapNode, c3, Bool.false_eq_true, hcs, isObject_ref, if_true]
  · rw [populate_log, hlog]

/-- Claim C17 on the markup `<p>`: whatever the context, the new collection
holds the child, reference 10, and the classifier is asked once. -/
theorem markup_selector_ignores_context_witness :
    sampleEnv.isHtml "" = false ∧ sampleEnv.isHtml "<p>" = true
      ∧ ∃ s', (∀ context, Cheerio sampleEnv 3 .undefined (.str "<p>") context .undefined
          .undefined sampleState = .ok (.ref 6, s'))
        ∧ getProp s'.heap (.ref 6) (.name "length") = .num 1
        ∧ (∀ i, i < 1 → getOwn s'.heap 6 (.idx i) = [Val.ref 10][i]?)
        ∧ (∀ i, 1 ≤ i → getOwn s'.heap 6 (.idx i) = none)
        ∧ s'.log = [.flatten .undefined, .isHtml "<p>", .parse "<p>" (.ref 7)] :=
  ⟨rfl, rfl, markup_selector_ignores_context sampleEnv 0 "<p>" .undefined .undefined sampleState
    (resolveOptions sampleEnv (.ref 6) .undefined (sampleState.extend [.cheerio []]))
    [.ref 10] rfl rfl rfl rfl⟩

/-- `new Cheerio(x)` on an array or on a bare node: a new collection,
populated from the elements. -/
theorem construct_wraps (E : Env) (n : Nat) (x : Val) (xs : List Val) (s : State)
    (hx : asArray s.heap x = some xs
      ∨ (truthy (isNode s.heap x) = true
          ∧ truthy (getProp s.heap x (.name "cheerio")) = false ∧ xs = [x])) :
    ∃ s2 : State, construct (fun t => Cheerio E (n + 1) t x .undefined .undefined .undefined) s
        = .ok (.ref s.heap.length, populate (.ref s.heap.length) xs s2)
      ∧ s2.heap[s.heap.length]? = some (.cheerio (freshProps s.heap.length))
      ∧ (∀ r, r < s.heap.length → s2.heap[r]? = s.heap[r]?) := by
  obtain ⟨r, rfl, hr, _⟩ := wrappable_valid hx
  have ht : (s.extend [.cheerio []]).heap[s.heap.length]? = some (.cheerio []) := by
    simp [State.extend]
  have hlen : (s.extend [.cheerio []]).heap.length = s.heap.length + 1 := by simp [State.extend]
  have hfr : ∀ q, Val.ref r = .ref q → (s.extend [.cheerio []]).heap[q]? = s.heap[q]? := by
    intro q hq
    injection hq with hq
    subst hq
    simp [State.extend, List.getElem?_append_left hr]
  have hx1 : asArray (s.extend [.cheerio []]).heap (.ref r) = some xs
      ∨ (truthy (isNode (s.extend [.cheerio []]).heap (.ref r)) = true
          ∧ truthy (getProp (s.extend [.cheerio []]).heap (.ref r) (.name "cheerio")) = false
          ∧ xs = [.ref r]) := by
    rw [asArray_frame hfr, isNode_frame hfr, getProp_frame _ hfr]
    exact hx
  obtain ⟨s2, w1, w2, w3, _⟩ := Cheerio_wraps E n s.heap.length [] (.ref r) xs
    (s.extend [.cheerio []]) ht hx1 (by intro h; injection h with h; omega)
  refine ⟨s2, ?_, ?_, ?_⟩
  · simp [construct, w1]
  · rw [w2, hlen]
    rfl
  · intro q hq
    rw [w3 q (by omega) (by omega)]
    simp [State.extend, List.getElem?_append_left hq]

/-- Lines 54-57 of a top-level call on a root that is, once parsed, an array
or a bare node: `this._root` is a new collection populated from it. -/
theorem prelude_wraps (E : Env) (n : Nat) (root options : Val) (s s1 : State)
    (ys : List Val) (hp : prelude E (n + 1) root options s = .ok s1)
    (hroot : truthy root = true)
    (hx : asArray (rootArgument E root options s).2.heap (rootArgument E root options s).1
        = some ys
      ∨ (truthy (isNode (rootArgument E root options s).2.heap
            (rootArgument E root options s).1) = true
          ∧ truthy (getProp (rootArgument E root options s).2.heap
            (rootArgument E root options s).1 (.name "cheerio")) = false
          ∧ ys = [(rootArgument E root options s).1])) :
    s.heap.length < (rootArgument E root options s).2.heap.length
      ∧ (rootArgument E root options s).2.heap.length < s1.heap.length
      ∧ s1.heap[s.heap.length]? = some (.cheerio (setKey (freshProps s.heap.length)
          (.name "_root") (.ref (rootArgument E root options s).2.heap.length)))
      ∧ (∃ pr, s1.heap[(rootArgument E root options s).2.heap.length]? = some (.cheerio pr)
          ∧ pr.lookup (.name "length") = some (.num ys.length)
          ∧ (∀ i, i < ys.length → pr.lookup (.idx i) = ys[i]?)
          ∧ (∀ i, ys.length ≤ i → pr.lookup (.idx i) = none)
          ∧ pr.lookup (.name "find") = none) := by
  have ht : (s.extend [.cheerio []]).heap[s.heap.length]? = some (.cheerio []) := by
    simp [State.extend]
  have hlen : (s.extend [.cheerio []]).heap.length = s.heap.length + 1 := by simp [State.extend]
  have hself := resolveOptions_self E options ht
  have hfresh : setKey (setKey [] (.name "length") (.num 0)) (.name "options")
      (.ref (s.extend [.cheerio []]).heap.length) = freshProps s.heap.length := by
    rw [hlen]; rfl
  rw [hfresh] at hself
  have hl0 := resolveOptions_length E (.ref s.heap.length) options (s.extend [.cheerio []])
  have hpl := parseRoot_length E (.ref s.heap.length) root
    (resolveOptions E (.ref s.heap.length) options (s.extend [.cheerio []]))
  have hLp : s.heap.length < (rootArgument E root options s).2.heap.length := by
    rw [rootArgument]; omega
  obtain ⟨s2, w1, w2, w3⟩ := construct_wraps E n _ ys _ hx
  obtain ⟨pr, p1, p2, p3, p4, p5⟩ := populate_self ys w2
  have hthis : (populate (.ref (rootArgument E root options s).2.heap.length) ys s2).heap[
      s.heap.length]? = some (.cheerio (freshProps s.heap.length)) := by
    rw [populate_other _ _ _ (by omega), w3 _ hLp, rootArgument,
      parseRoot_other _ _ _ _ (by omega), hself]
  rw [prelude] at hp
  rw [rootArgument] at w1
  simp only [bindRoot, hroot, if_true, w1] at hp
  injection hp with hp
  rw [← hp]
  refine ⟨hLp, ?_, assign_self _ _ hthis, pr, ?_, p2, p3, ?_, ?_⟩
  · rw [assign_length]
    exact getElem?_lt_length p1
  · rw [assign_other _ _ _ (by omega)]
    exact p1
  · intro i hi
    rw [p4 i hi, freshProps_idx]
  · rw [p5 _ (by decide), freshProps_name _ (by decide) (by decide)]

/-- Line 55 on the roots that are wrapped: the argument of `new Cheerio(root)`
is truthy and is what `RootWraps` names. -/
theorem rootArgument_wraps {E : Env} {root options : Val} {s : State} {ys : List Val}
    (h : RootWraps E root options s ys) :
    truthy root = true
      ∧ Wrappable (rootArgument E root options s).2.heap (rootArgument E root options s).1 ys := by
  have ht : (s.extend [.cheerio []]).heap[s.heap.length]? = some (.cheerio []) := by
    simp [State.extend]
  have hlen : (s.extend [.cheerio []]).heap.length = s.heap.length + 1 := by simp [State.extend]
  have hself := resolveOptions_self E options ht
  rw [hlen] at hself
  have hopts : getProp (resolveOptions E (.ref s.heap.length) options
      (s.extend [.cheerio []])).heap (.ref s.heap.length) (.name "options")
        = .ref (s.heap.length + 1) := getProp_of_lookup hself (lookup_setKey_same _ _ _)
  have hobj : ∀ x, Wrappable s.heap x ys →
      Wrappable (resolveOptions E (.ref s.heap.length) options (s.extend [.cheerio []])).heap
        x ys := by
    intro x hx
    obtain ⟨r, rfl, hr, _⟩ := wrappable_valid hx
    have hfr : ∀ q, Val.ref r = .ref q →
        (resolveOptions E (.ref s.heap.length) options (s.extend [.cheerio []])).heap[q]?
          = s.heap[q]? := by
      intro q hq
      injection hq with hq
      subst hq
      rw [resolveOptions_other E _ _ _ (by rw [hlen]; omega) (by omega)]
      simp [State.extend, List.getElem?_append_left hr]
    unfold Wrappable
    rw [asArray_frame hfr, isNode_frame hfr, getProp_frame _ hfr]
    exact hx
  have hval : ∀ x, Wrappable s.heap x ys → truthy x = true := by
    intro x hx
    obtain ⟨r, rfl, _, _⟩ := wrappable_valid hx
    rfl
  cases root with
  | str r =>
    obtain ⟨hne, hw⟩ := h
    refine ⟨truthy_str hne, ?_⟩
    simp only [rootArgument, parseRoot]
    rw [hopts]
    exact hw
  | undefined => exact ⟨hval _ h, hobj _ h⟩
  | null => exact ⟨hval _ h, hobj _ h⟩
  | bool b => exact ⟨hval _ h, hobj _ h⟩
  | num k => exact ⟨hval _ h, hobj _ h⟩
  | ref r => exact ⟨hval _ h, hobj _ h⟩

/-- Lines 54-57 of a top-level call on a root that is wrapped: `this._root` is
a collection the call created, which holds the nodes `ys` and nothing else;
its `find` is the method of the prototype. -/
theorem root_wraps (E : Env) (n : Nat) (root options : Val) (s s1 : State) (ys : List Val)
    (hp : prelude E (n + 1) root options s = .ok s1) (hw : RootWraps E root options s ys) :
    ∃ R pr, s.heap.length < R ∧ R < s1.heap.length
      ∧ getProp s1.heap (.ref s.heap.length) (.name "_root") = .ref R
      ∧ s1.heap[R]? = some (.cheerio pr)
      ∧ pr.lookup (.name "length") = some (.num ys.length)
      ∧ (∀ i, i < ys.length → pr.lookup (.idx i) = ys[i]?)
      ∧ (∀ i, ys.length ≤ i → pr.lookup (.idx i) = none)
      ∧ pr.lookup (.name "find") = none := by
  obtain ⟨hroot, hx⟩ := rootArgument_wraps hw
  obtain ⟨g1, g2, g3, pr, g4, g5, g6, g7, g8⟩ :=
    prelude_wraps E n root options s s1 ys hp hroot hx
  exact ⟨_, pr, g1, g2, getProp_of_lookup g3 (lookup_setKey_same _ _ _), g4, g5, g6, g7, g8⟩

/-- Claim C18: for every selector the constructor populates itself (an array
without holes, a bare node, a markup string whose parsed children are an
array) and every root, the call returns the new collection, whose `options`
(at the next reference) hold the effective options, and: when the root
carries the signature, `_root` of the new collection is the root itself,
unchanged; when the root is an array without holes or a bare node, `_root`
is a collection created by the call (not an object of the heap before), whose
slots are the elements of the array, or the one node; when the root is a
non-empty string `r`, `parse(r, this.options, false)` is called (the call is
in the log) and, the node it returns carrying no signature, `_root` is a
collection created by the call with `length` 1 whose slot 0 is that node. -/
theorem root_ref_binding (E : Env) (n : Nat) (selector context root options : Val)
    (s s1 : State) (xs : List Val) (hp : prelude E (n + 1) root options s = .ok s1)
    (hsel : Wrappable s.heap selector xs
      ∨ (∃ t, selector = .str t ∧ E.isHtml "" = false ∧ E.isHtml t = true
          ∧ asArray (parsedChildren E t (.ref (s.heap.length + 1)) s1.heap).2
              (parsedChildren E t (.ref (s.heap.length + 1)) s1.heap).1 = some xs)) :
    ∃ s', Cheerio E (n + 3) .undefined selector context root options s
        = .ok (.ref s.heap.length, s')
      ∧ getProp s'.heap (.ref s.heap.length) (.name "options") = .ref (s.heap.length + 1)
      ∧ s'.heap[s.heap.length + 1]? = some (.plain (effectiveOptions E options s.heap))
      ∧ (truthy (getProp s.heap root (.name "cheerio")) = true →
          getProp s'.heap (.ref s.heap.length) (.name "_root") = root
            ∧ ∀ k, getProp s'.heap root k = getProp s.heap root k)
      ∧ (∀ ys, Wrappable s.heap root ys →
          ∃ R, s.heap.length < R
            ∧ getProp s'.heap (.ref s.heap.length) (.name "_root") = .ref R
            ∧ instanceOfCheerio s'.heap (.ref R) = true
            ∧ getProp s'.heap (.ref R) (.name "length") = .num ys.length
            ∧ (∀ i, i < ys.length → getOwn s'.heap R (.idx i) = ys[i]?)
            ∧ (∀ i, ys.length ≤ i → getOwn s'.heap R (.idx i) = none))
      ∧ (∀ r, root = .str r → r ≠ "" →
          truthy (isNode (parsedRoot E r (.ref (s.heap.length + 1)) (resolvedHeap E options s)).2
            (parsedRoot E r (.ref (s.heap.length + 1)) (resolvedHeap E options s)).1) = true →
          truthy (getProp
            (parsedRoot E r (.ref (s.heap.length + 1)) (resolvedHeap E options s)).2
            (parsedRoot E r (.ref (s.heap.length + 1)) (resolvedHeap E options s)).1
            (.name "cheerio")) = false →
          ∃ R, s.heap.length < R
            ∧ getProp s'.heap (.ref s.heap.length) (.name "_root") = .ref R
            ∧ instanceOfCheerio s'.heap (.ref R) = true
            ∧ getProp s'.heap (.ref R) (.name "length") = .num 1
            ∧ getOwn s'.heap R (.idx 0)
                = some (parsedRoot E r (.ref (s.heap.length + 1)) (resolvedHeap E options s)).1
            ∧ (∀ i, 1 ≤ i → getOwn s'.heap R (.idx i) = none)
            ∧ Event.parse r (.ref (s.heap.length + 1)) ∈ s'.log) := by
  obtain ⟨s2, hcall, hfr, hlog⟩ :=
    selector_populates E n selector context root options s s1 xs hp hsel
  obtain ⟨h2, ⟨ps1, h3, h3a, _, h3c⟩, h4, _⟩ := prelude_facts E n root options s s1 hp
  have h3' : s2.heap[s.heap.length]? = some (.cheerio ps1) := by rw [hfr _ h4, h3]
  obtain ⟨ps', p1, _, _, _, p5⟩ := populate_self xs h3'
  have hrootprop : ps'.lookup (.name "_root") = ps1.lookup (.name "_root") := p5 _ (by decide)
  have hl0 := resolveOptions_length E (.ref s.heap.length) options (s.extend [.cheerio []])
  have hlen : (s.extend [.cheerio []]).heap.length = s.heap.length + 1 := by simp [State.extend]
  rw [hlen] at hl0
  have hL1 : s.heap.length + 1 < s1.heap.length := by
    have := prelude_frame E n root options s s1 hp (s.heap.length + 1) hl0 (by omega)
    rw [resolveOptions_fresh] at this
    exact getElem?_lt_length this
  -- what the call leaves of an object the prelude created
  have hkeep : ∀ R pr, s.heap.length < R → s1.heap[R]? = some (.cheerio pr) →
      (populate (.ref s.heap.length) xs s2).heap[R]? = some (.cheerio pr) := by
    intro R pr hR hpr
    rw [populate_other _ _ _ (by omega), hfr _ (getElem?_lt_length hpr), hpr]
  have hwrapped : ∀ ys, RootWraps E root options s ys →
      ∃ R, s.heap.length < R
        ∧ getProp (populate (.ref s.heap.length) xs s2).heap (.ref s.heap.length)
            (.name "_root") = .ref R
        ∧ instanceOfCheerio (populate (.ref s.heap.length) xs s2).heap (.ref R) = true
        ∧ getProp (populate (.ref s.heap.length) xs s2).heap (.ref R) (.name "length")
            = .num ys.length
        ∧ (∀ i, i < ys.length →
            getOwn (populate (.ref s.heap.length) xs s2).heap R (.idx i) = ys[i]?)
        ∧ (∀ i, ys.length ≤ i →
            getOwn (populate (.ref s.heap.length) xs s2).heap R (.idx i) = none) := by
    intro ys hw
    obtain ⟨R, pr, g1, _, g3, g4, g5, g6, g7, _⟩ := root_wraps E n root options s s1 ys hp hw
    have hrc := hkeep R pr g1 g4
    have e : ps1.lookup (.name "_root") = some (.ref R) := by
      have := g3
      simp only [getProp, getOwn, h3] at this
      cases hl : ps1.lookup (.name "_root") with
      | none => rw [hl] at this; simp [protoProp, h3] at this
      | some v => rw [hl] at this; simp only at this; rw [this]
    refine ⟨R, g1, getProp_of_lookup p1 (by rw [hrootprop, e]), instanceOf_of_cheerio hrc,
      getProp_of_lookup hrc g5, ?_, ?_⟩
    · intro i hi
      simp only [getOwn, hrc]
      exact g6 i hi
    · intro i hi
      simp only [getOwn, hrc]
      exact g7 i hi
  refine ⟨_, hcall, ?_, ?_, ?_, ?_, ?_⟩
  · exact getProp_of_lookup p1
      (by rw [p5 _ (by decide), h3a _ (by decide), freshProps_options])
  · rw [populate_other _ _ _ (by omega), hfr _ hL1,
      prelude_frame E n root options s s1 hp (s.heap.length + 1) hl0 (by omega),
      resolveOptions_fresh]
  · intro hm
    obtain ⟨r, rfl, hr⟩ := truthy_getProp_isObject hm
    refine ⟨getProp_of_lookup p1 (by rw [hrootprop, h3c hm, lookup_setKey_same]), ?_⟩
    intro k
    apply getProp_congr
    rw [populate_other _ _ _ (by omega), hfr r (by omega), h2 r hr]
  · intro ys hw
    apply hwrapped ys
    cases root with
    | str r =>
      obtain ⟨q, hq, _, _⟩ := wrappable_valid hw
      cases hq
    | undefined => exact hw
    | null => exact hw
    | bool b => exact hw
    | num k => exact hw
    | ref r => exact hw
  · intro r hr hne hnode hmark
    subst hr
    obtain ⟨R, g1, g2, g3, g4, g5, g6⟩ := hwrapped
      [(parsedRoot E r (.ref (s.heap.length + 1)) (resolvedHeap E options s)).1]
      ⟨hne, Or.inr ⟨hnode, hmark, rfl⟩⟩
    refine ⟨R, g1, g2, g3, g4, ?_, g6, ?_⟩
    · have := g5 0 (by simp)
      simpa using this
    · rw [populate_log]
      apply hlog.subset
      rw [prelude_log E n (.str r) options s s1 hp]
      simp [rootEvents, truthy_str hne]

/-- Claim C18 on the array at 2 as selector: with the document collection (at
0) as root, `_root` of the new collection is the document itself; with the
node `ul` (at 1) as root, `_root` is a collection the call created (at 8), of
length 1, holding the node; with the string `<a>` as root, the parser is
called with the options of the new collection (at 7), and `_root` is a
collection the call created (at 11), of length 1, holding the node the parser
returned (at 8). -/
theorem root_ref_binding_witness :
    (∃ s', Cheerio sampleEnv 3 .undefined (.ref 2) .undefined (.ref 0) .undefined sampleState
        = .ok (.ref 6, s')
      ∧ getProp s'.heap (.ref 6) (.name "_root") = .ref 0
      ∧ ∀ k, getProp s'.heap (.ref 0) k = getProp sampleState.heap (.ref 0) k)
    ∧ (∃ s', Cheerio sampleEnv 3 .undefined (.ref 2) .undefined (.ref 1) .undefined sampleState
        = .ok (.ref 6, s')
      ∧ ∃ R, 6 < R
        ∧ getProp s'.heap (.ref 6) (.name "_root") = .ref R
        ∧ instanceOfCheerio s'.heap (.ref R) = true
        ∧ getProp s'.heap (.ref R) (.name "length") = .num 1
        ∧ (∀ i, i < 1 → getOwn s'.heap R (.idx i) = [Val.ref 1][i]?)
        ∧ (∀ i, 1 ≤ i → getOwn s'.heap R (.idx i) = none))
    ∧ (∃ s', Cheerio sampleEnv 3 .undefined (.ref 2) .undefined (.str "<a>") .undefined
          sampleState = .ok (.ref 6, s')
      ∧ s'.heap[7]? = some (.plain (effectiveOptions sampleEnv .undefined sampleState.heap))
      ∧ ∃ R, 6 < R
        ∧ getProp s'.heap (.ref 6) (.name "_root") = .ref R
        ∧ instanceOfCheerio s'.heap (.ref R) = true
        ∧ getProp s'.heap (.ref R) (.name "length") = .num 1
        ∧ getOwn s'.heap R (.idx 0) = some (.ref 8)
        ∧ (∀ i, 1 ≤ i → getOwn s'.heap R (.idx i) = none)
        ∧ Event.parse "<a>" (.ref 7) ∈ s'.log) := by
  refine ⟨?_, ?_, ?_⟩
  · obtain ⟨s', h1, _, _, h2, _⟩ := root_ref_binding sampleEnv 0 (.ref 2) .undefined (.ref 0)
      .undefined sampleState
      { heap := sampleState.heap ++
          [.cheerio [(.name "_root", .ref 0), (.name "options", .ref 7),
             (.name "length", .num 0)],
           .plain [(.name "xml", .bool false), (.name "decodeEntities", .bool true)],
           .cheerio [(.name "options", .ref 9), (.name "length", .num 0)],
           .plain [(.name "xml", .bool false), (.name "decodeEntities", .bool true)]],
        log := [.flatten .undefined, .flatten .undefined] }
      [.ref 1, .ref 1] rfl (Or.inl (Or.inl rfl))
    exact ⟨s', h1, h2 rfl⟩
  · obtain ⟨s', h1, _, _, _, h3, _⟩ := root_ref_binding sampleEnv 0 (.ref 2) .undefined (.ref 1)
      .undefined sampleState
      { heap := sampleState.heap ++
          [.cheerio [(.name "_root", .ref 8), (.name "options", .ref 7),
             (.name "length", .num 0)],
           .plain [(.name "xml", .bool false), (.name "decodeEntities", .bool true)],
           .cheerio [(.name "length", .num 1), (.idx 0, .ref 1), (.name "options", .ref 9)],
           .plain [(.name "xml", .bool false), (.name "decodeEntities", .bool true)],
           .array [.ref 1]],
        log := [.flatten .undefined, .flatten .undefined] }
      [.ref 1, .ref 1] rfl (Or.inl (Or.inl rfl))
    exact ⟨s', h1, h3 [.ref 1] (Or.inr ⟨rfl, rfl, rfl⟩)⟩
  · obtain ⟨s', h1, _, ho, _, _, h4⟩ := root_ref_binding sampleEnv 0 (.ref 2) .undefined
      (.str "<a>") .undefined sampleState
      { heap := sampleState.heap ++
          [.cheerio [(.name "_root", .ref 11), (.name "options", .ref 7),
             (.name "length", .num 0)],
           .plain [(.name "xml", .bool false), (.name "decodeEntities", .bool true)],
           .plain [(.name "type", .str "root"), (.name "children", .ref 9)],
           .array [.ref 10],
           .plain [(.name "name", .str "p")],
           .cheerio [(.name "length", .num 1), (.idx 0, .ref 8), (.name "options", .ref 12)],
           .plain [(.name "xml", .bool false), (.name "decodeEntities", .bool true)],
           .array [.ref 8]],
        log := [.flatten .undefined, .parse "<a>" (.ref 7), .flatten .undefined] }
      [.ref 1, .ref 1] rfl (Or.inl (Or.inl rfl))
    exact ⟨s', h1, ho, h4 "<a>" rfl (by decide) rfl rfl⟩

/-! ## The bound root as context -/

/-- Lines 80-81 and 101 of a top-level call on a non-empty string the classifier
rejects, with a falsy context and a bound root `R` of truthy `length`: the
slots of `R` are merged into the new collection and `find` is called on it. -/
theorem merged_root_call (E : Env) (n : Nat) (t : String) (context root options : Val)
    (s s1 : State) (R : Nat) (hne : t ≠ "") (hh : E.isHtml t = false)
    (hctx : truthy context = false)
    (hp : prelude E (n + 1) root options s = .ok s1)
    (hroot : getProp s1.heap (.ref s.heap.length) (.name "_root") = .ref R)
    (hneR : s.heap.length ≠ R)
    (hlen : truthy (getProp s1.heap (.ref R) (.name "length")) = true) :
    ∃ s2 : State, Cheerio E (n + 3) .undefined (.str t) context root options s =
        (match E.find s2.heap s.heap.length (.str t) with
          | .ok (v, h) =>
            .ok (.ref v, { heap := h, log := s2.log ++ [.find (.ref s.heap.length) (.str t)] })
          | .error e => .error e)
      ∧ getProp s2.heap (.ref s.heap.length) (.name "_root") = .ref R
      ∧ getProp s2.heap (.ref s.heap.length) (.name "length")
          = .num (toNat (getProp s1.heap (.ref R) (.name "length")))
      ∧ (∀ i, i < toNat (getProp s1.heap (.ref R) (.name "length")) →
          getProp s2.heap (.ref s.heap.length) (.idx i) = getProp s1.heap (.ref R) (.idx i))
      ∧ (∀ i, toNat (getProp s1.heap (.ref R) (.name "length")) ≤ i →
          getOwn s2.heap s.heap.length (.idx i) = none)
      ∧ (∀ r, r ≠ s.heap.length → s2.heap[r]? = s1.heap[r]?)
      ∧ s2.log = s1.log ++ [.isHtml t, .merge (.ref s.heap.length) (.ref R)] := by
  obtain ⟨_, ⟨ps1, h3, h3a, _, _⟩, _, _⟩ := prelude_facts E n root options s s1 hp
  obtain ⟨f1, f2, f3⟩ := str_facts s1.heap t
  have h3' : (s1.record (.isHtml t)).heap[s.heap.length]? = some (.cheerio ps1) := h3
  obtain ⟨ps', m1, m2, m3, m4, m5⟩ := merge_self h3' hneR
    (by rw [h3a _ (by decide), freshProps_length])
  have hR1 : ∀ k, getProp (s1.record (.isHtml t)).heap (.ref R) k = getProp s1.heap (.ref R) k :=
    fun k => rfl
  simp only [hR1] at m2 m3 m4
  have hrootp : ps1.lookup (.name "_root") = some (.ref R) := by
    have := hroot
    simp only [getProp, getOwn, h3] at this
    cases hl : ps1.lookup (.name "_root") with
    | none => rw [hl] at this; simp [protoProp, h3] at this
    | some v => rw [hl] at this; simp only at this; rw [this]
  refine ⟨(merge (.ref s.heap.length) (.ref R) (s1.record (.isHtml t))).2, ?_,
    getProp_of_lookup m1 (by rw [m5 _ (by decide), hrootp]),
    getProp_of_lookup m1 m2, ?_, ?_, ?_, ?_⟩
  · rw [Cheerio_top, Cheerio_instance _ _ _ _ _ _ _ _ (fresh_instance s)]
    rw [prelude] at hp
    simp only [hp, truthy_str hne, Bool.true_eq_false, if_false, markupSelector_plain E _ t s1 hh]
    have hrc : resolveContext E
        (fun x => Cheerio E (n + 1) (.ref s.heap.length) x .undefined .undefined .undefined)
        (.ref s.heap.length) (.str t) context (s1.record (.isHtml t))
        = .ok (.str t, merge (.ref s.heap.length) (.ref R) (s1.record (.isHtml t))) := by
      have e1 : getProp (s1.record (.isHtml t)).heap (.ref s.heap.length) (.name "_root")
          = .ref R := hroot
      have e2 : truthy (getProp (s1.record (.isHtml t)).heap (.ref R) (.name "length"))
          = true := hlen
      simp [resolveContext, hctx, e1, e2]
    have f1' : truthy (getProp (s1.record (.isHtml t)).heap (.str t) (.name "cheerio"))
        = false := f1
    have f2' : truthy (isNode (s1.record (.isHtml t)).heap (.str t)) = false := f2
    have f3' : asArray (s1.record (.isHtml t)).heap (.str t) = none := f3
    have hfind : ps'.lookup (.name "find") = none := by
      rw [m5 _ (by decide), h3a _ (by decide), freshProps_name _ (by decide) (by decide)]
    simp only [member_truthy _ _ (truthy_str hne), f1', wrapNode, f2', f3', asSparse,
      Bool.false_eq_true, if_false, hrc, merge_fst, truthy_ref, Bool.true_eq_false,
      callFind_instance E _ m1 hfind]
    exact new_of_found _ _ _
  · intro i hi
    exact getProp_of_lookup m1 (m3 i hi)
  · intro i hi
    simp only [getOwn, m1]
    rw [m4 i hi, h3a _ (by simp), freshProps_idx]
  · intro r hr
    exact merge_other _ _ _ h3' hneR hr
  · rw [merge_log _ _ _ h3' hneR]
    simp [State.record]

/-- A root that carries the signature is not one that is wrapped. -/
theorem wraps_unmarked {E : Env} {root options : Val} {s : State} {ys : List Val}
    (hw : RootWraps E root options s ys) :
    truthy (getProp s.heap root (.name "cheerio")) = false := by
  cases root with
  | str r => rfl
  | undefined => rfl
  | null => rfl
  | bool b => rfl
  | num k => rfl
  | ref r =>
    obtain ⟨_, _, _, h⟩ := wrappable_valid hw
    exact h

/-- Claim C8, amended: for every non-empty string `t` the classifier rejects,
every falsy context and every root that binds to a non-empty collection `R`
(a contiguous collection of truthy `length` that carries the signature, which
is `R` itself; or a non-empty array without holes, a bare node, or a string
that is parsed, which are wrapped in a new collection `R`), the call returns
exactly what `find(t)` returns when called on the new collection, whose
`length` and slots are then those of `R`, in the order of `R`, with no slot
beyond; `find` is called once, after the merge. -/
theorem root_is_default_context (E : Env) (n : Nat) (t : String)
    (context root options : Val) (s : State) (hne : t ≠ "") (hh : E.isHtml t = false)
    (hctx : truthy context = false)
    (hroot : (∃ R0, root = .ref R0 ∧ truthy (getProp s.heap root (.name "cheerio")) = true
        ∧ Contiguous s.heap R0 ∧ truthy (getProp s.heap root (.name "length")) = true)
      ∨ (∃ ys, ys ≠ [] ∧ RootWraps E root options s ys)) :
    ∃ (R : Nat) (s2 : State), Cheerio E (n + 3) .undefined (.str t) context root options s =
        (match E.find s2.heap s.heap.length (.str t) with
          | .ok (v, h) =>
            .ok (.ref v, { heap := h, log := s2.log ++ [.find (.ref s.heap.length) (.str t)] })
          | .error e => .error e)
      ∧ getProp s2.heap (.ref s.heap.length) (.name "_root") = .ref R
      ∧ getProp s2.heap (.ref s.heap.length) (.name "length")
          = getProp s2.heap (.ref R) (.name "length")
      ∧ (∀ i, i < toNat (getProp s2.heap (.ref R) (.name "length")) →
          getProp s2.heap (.ref s.heap.length) (.idx i) = getProp s2.heap (.ref R) (.idx i))
      ∧ (∀ i, toNat (getProp s2.heap (.ref R) (.name "length")) ≤ i →
          getOwn s2.heap s.heap.length (.idx i) = none)
      ∧ (truthy (getProp s.heap root (.name "cheerio")) = true →
          .ref R = root ∧ ∀ k, getProp s2.heap root k = getProp s.heap root k)
      ∧ (∀ ys, RootWraps E root options s ys →
          s.heap.length < R
            ∧ getProp s2.heap (.ref R) (.name "length") = .num ys.length
            ∧ (∀ i, i < ys.length → getOwn s2.heap R (.idx i) = ys[i]?)
            ∧ (∀ i, ys.length ≤ i → getOwn s2.heap R (.idx i) = none))
      ∧ (∀ r, r < s.heap.length → s2.heap[r]? = s.heap[r]?)
      ∧ (∃ evs, s2.log = s.log ++ evs ∧ ∀ a b, Event.find a b ∉ evs) := by
  obtain ⟨s1, h1, h2, ⟨ps1, h3, h3a, _, h3c⟩, h4, evs, h5, h6⟩ :=
    fresh_prelude E n root options s
  have hp : prelude E (n + 1) root options s = .ok s1 := h1
  have hlogs : ∀ (s2 : State) (R : Nat),
      s2.log = s1.log ++ [.isHtml t, .merge (.ref s.heap.length) (.ref R)] →
      ∃ evs', s2.log = s.log ++ evs' ∧ ∀ a b, Event.find a b ∉ evs' := by
    intro s2 R hl
    refine ⟨.flatten options :: (evs ++ [.isHtml t, .merge (.ref s.heap.length) (.ref R)]),
      ?_, no_find_cons (by simp) (no_find_append h6 (by simp))⟩
    rw [hl, h5]
    simp
  rcases hroot with ⟨R0, rfl, hmark, ⟨len, hcl, hcs⟩, hlen⟩ | ⟨ys0, hys0, hw0⟩
  · have hRl : R0 < s.heap.length := by
      obtain ⟨r, hr, hrl⟩ := truthy_getProp_isObject hmark
      cases hr
      exact hrl
    have hR1 : ∀ k, getProp s1.heap (.ref R0) k = getProp s.heap (.ref R0) k :=
      fun k => getProp_congr k (h2 R0 hRl)
    obtain ⟨s2, c1, c2, c3, c4, c5, c6, c7⟩ := merged_root_call E n t context (.ref R0) options
      s s1 R0 hne hh hctx hp (prelude_root h3 (h3c hmark)) (by omega) (by rw [hR1]; exact hlen)
    have hR2 : ∀ k, getProp s2.heap (.ref R0) k = getProp s.heap (.ref R0) k := by
      intro k
      rw [getProp_congr k (c6 R0 (by omega)), hR1]
    have hln : toNat (getProp s.heap (.ref R0) (.name "length")) = len := by
      rw [hcl]; rfl
    simp only [hR1] at c3 c4 c5
    refine ⟨R0, s2, c1, c2, ?_, ?_, ?_, fun _ => ⟨rfl, hR2⟩, ?_, ?_, hlogs s2 R0 c7⟩
    · rw [c3, hR2, hln, hcl]
    · intro i hi
      rw [hR2] at hi
      rw [c4 i hi, hR2]
    · intro i hi
      rw [hR2] at hi
      exact c5 i hi
    · intro ys hw
      rw [wraps_unmarked hw] at hmark
      cases hmark
    · intro r hr
      rw [c6 r (by omega), h2 r hr]
  · obtain ⟨R, pr, g1, g2, g3, g4, g5, g6, g7, _⟩ := root_wraps E n root options s s1 ys0 hp hw0
    have hlR : getProp s1.heap (.ref R) (.name "length") = .num ys0.length :=
      getProp_of_lookup g4 g5
    obtain ⟨s2, c1, c2, c3, c4, c5, c6, c7⟩ := merged_root_call E n t context root options
      s s1 R hne hh hctx hp g3 (by omega)
      (by rw [hlR]; simpa [truthy] using hys0)
    have hR2 : s2.heap[R]? = some (.cheerio pr) := by rw [c6 R (by omega), g4]
    have hlR2 : getProp s2.heap (.ref R) (.name "length") = .num ys0.length :=
      getProp_of_lookup hR2 g5
    have hidx : ∀ i, getProp s2.heap (.ref R) (.idx i) = getProp s1.heap (.ref R) (.idx i) :=
      fun i => getProp_congr _ (c6 R (by omega))
    have hln : toNat (Val.num ys0.length) = ys0.length := rfl
    rw [hlR] at c3 c4 c5
    rw [hln] at c3 c4 c5
    refine ⟨R, s2, c1, c2, ?_, ?_, ?_, ?_, ?_, ?_, hlogs s2 R c7⟩
    · rw [c3, hlR2]
    · intro i hi
      rw [hlR2] at hi
      rw [c4 i hi, hidx]
    · intro i hi
      rw [hlR2] at hi
      exact c5 i hi
    · intro hm
      rw [wraps_unmarked hw0] at hm
      cases hm
    · intro ys hw
      obtain ⟨R', pr', _, _, g3', g4', g5', g6', g7', _⟩ :=
        root_wraps E n root options s s1 ys hp hw
      have e : R' = R := by
        rw [g3] at g3'
        injection g3' with g3'
        exact g3'.symm
      subst e
      have hR2' : s2.heap[R']? = some (.cheerio pr') := by rw [c6 R' (by omega), g4']
      refine ⟨g1, getProp_of_lookup hR2' g5', ?_, ?_⟩
      · intro i hi
        simp only [getOwn, hR2']
        exact g6' i hi
      · intro i hi
        simp only [getOwn, hR2']
        exact g7' i hi
    · intro r hr
      rw [c6 r (by omega), h2 r hr]

/-- Claim C8, amended, on `li` with no context: with the node `ul` (at 1) as
root, the root is wrapped in a new collection `R`, of length 1, holding the
node, and `find` is called on the new collection (at 6), which has the length
and the slots of `R`; with the document collection (at 0) as root, `R` is the
document itself. -/
theorem root_is_default_context_witness :
    sampleEnv.isHtml "li" = false
      ∧ (∃ (R : Nat) (s2 : State),
          Cheerio sampleEnv 3 .undefined (.str "li") .undefined (.ref 1) .undefined sampleState =
            (match sampleEnv.find s2.heap 6 (.str "li") with
              | .ok (v, h) =>
                .ok (.ref v, { heap := h, log := s2.log ++ [.find (.ref 6) (.str "li")] })
              | .error e => .error e)
          ∧ getProp s2.heap (.ref 6) (.name "_root") = .ref R
          ∧ getProp s2.heap (.ref 6) (.name "length") = getProp s2.heap (.ref R) (.name "length")
          ∧ (∀ i, i < toNat (getProp s2.heap (.ref R) (.name "length")) →
              getProp s2.heap (.ref 6) (.idx i) = getProp s2.heap (.ref R) (.idx i))
          ∧ 6 < R
          ∧ getProp s2.heap (.ref R) (.name "length") = .num 1
          ∧ (∀ i, i < 1 → getOwn s2.heap R (.idx i) = [Val.ref 1][i]?))
      ∧ (∃ (R : Nat) (s2 : State),
          Cheerio sampleEnv 3 .undefined (.str "li") .undefined (.ref 0) .undefined sampleState =
            (match sampleEnv.find s2.heap 6 (.str "li") with
              | .ok (v, h) =>
                .ok (.ref v, { heap := h, log := s2.log ++ [.find (.ref 6) (.str "li")] })
              | .error e => .error e)
          ∧ getProp s2.heap (.ref 6) (.name "_root") = .ref R
          ∧ getProp s2.heap (.ref 6) (.name "length") = getProp s2.heap (.ref R) (.name "length")
          ∧ (∀ i, i < toNat (getProp s2.heap (.ref R) (.name "length")) →
              getProp s2.heap (.ref 6) (.idx i) = getProp s2.heap (.ref R) (.idx i))
          ∧ Val.ref R = .ref 0
          ∧ ∀ k, getProp s2.heap (.ref 0) k = getProp sampleState.heap (.ref 0) k) := by
  refine ⟨rfl, ?_, ?_⟩
  · obtain ⟨R, s2, h1, h2, h3, h4, _, _, h7, _⟩ := root_is_default_context sampleEnv 0 "li"
      .undefined (.ref 1) .undefined sampleState (by decide) rfl rfl
      (Or.inr ⟨[.ref 1], by decide, Or.inr ⟨rfl, rfl, rfl⟩⟩)
    obtain ⟨g1, g2, g3, _⟩ := h7 [.ref 1] (Or.inr ⟨rfl, rfl, rfl⟩)
    exact ⟨R, s2, h1, h2, h3, h4, g1, g2, g3⟩
  · have hc : Contiguous sampleState.heap 0 := by
      refine ⟨1, rfl, ?_⟩
      intro i
      cases i with
      | zero => exact ⟨fun _ => by decide, fun _ => rfl⟩
      | succ k =>
        constructor
        · intro h
          have e1 : (Key.idx (k + 1) == Key.idx 0) = false := by simp
          have e2 : (Key.idx (k + 1) == Key.name "length") = false := by simp
          have e : getOwn sampleState.heap 0 (.idx (k + 1)) = none := by
            simp [getOwn, sampleState, List.lookup, e1, e2]
          rw [e] at h
          cases h
        · intro h
          omega
    obtain ⟨R, s2, h1, h2, h3, h4, _, h6, _⟩ := root_is_default_context sampleEnv 0 "li"
      .undefined (.ref 0) .undefined sampleState (by decide) rfl rfl
      (Or.inl ⟨0, rfl, rfl, hc, rfl⟩)
    obtain ⟨g1, g2⟩ := h6 rfl
    exact ⟨R, s2, h1, h2, h3, h4, g1, g2⟩

/-- Lines 87-91 and 101 of a top-level call on two non-empty strings the
classifier rejects, with a bound root `R`: `find` is called on `R` with the
context text, a space and the selector text. -/
theorem folded_root_call (E : Env) (n : Nat) (t c : String) (root options : Val)
    (s s1 : State) (R : Nat) (pr : Props) (hne : t ≠ "") (hh : E.isHtml t = false)
    (hc : c ≠ "") (hhc : E.isHtml c = false)
    (hp : prelude E (n + 1) root options s = .ok s1)
    (hroot : getProp s1.heap (.ref s.heap.length) (.name "_root") = .ref R)
    (hR : s1.heap[R]? = some (.cheerio pr)) (hfind : pr.lookup (.name "find") = none) :
    Cheerio E (n + 3) .undefined (.str t) (.str c) root options s =
      (match E.find ((s1.record (.isHtml t)).record (.isHtml c)).heap R
          (.str (c ++ " " ++ t)) with
        | .ok (v, h) =>
          .ok (.ref v, { heap := h, log := ((s1.record (.isHtml t)).record (.isHtml c)).log ++
            [.find (.ref R) (.str (c ++ " " ++ t))] })
        | .error e => .error e) := by
  obtain ⟨f1, f2, f3⟩ := str_facts s1.heap t
  rw [Cheerio_top, Cheerio_instance _ _ _ _ _ _ _ _ (fresh_instance s)]
  rw [prelude] at hp
  simp only [hp, truthy_str hne, Bool.true_eq_false, if_false, markupSelector_plain E _ t s1 hh]
  have hrc : resolveContext E
      (fun x => Cheerio E (n + 1) (.ref s.heap.length) x .undefined .undefined .undefined)
      (.ref s.heap.length) (.str t) (.str c) (s1.record (.isHtml t))
      = .ok (.str (c ++ " " ++ t), .ref R, (s1.record (.isHtml t)).record (.isHtml c)) := by
    have : getProp (s1.record (.isHtml t)).heap (.ref s.heap.length) (.name "_root")
        = .ref R := hroot
    simp [resolveContext, truthy_str hc, hhc, this, toStr]
  have f1' : truthy (getProp (s1.record (.isHtml t)).heap (.str t) (.name "cheerio"))
      = false := f1
  have f2' : truthy (isNode (s1.record (.isHtml t)).heap (.str t)) = false := f2
  have f3' : asArray (s1.record (.isHtml t)).heap (.str t) = none := f3
  have hR2 : ((s1.record (.isHtml t)).record (.isHtml c)).heap[R]? = some (.cheerio pr) := hR
  simp only [member_truthy _ _ (truthy_str hne), f1', wrapNode, f2', f3', asSparse,
    Bool.false_eq_true, if_false, hrc, truthy_ref, Bool.true_eq_false,
    callFind_instance E _ hR2 hfind]
  exact new_of_found _ _ _

/-- Claim C14, amended: for every non-empty string selector `t` and every
non-empty string context `c` the classifier rejects, and every root that binds
to a collection `R` (a `Cheerio` object that carries the signature, which is
`R` itself; or an array without holes, a bare node, or a string that is
parsed, which are wrapped in a new collection `R`), the call returns exactly
what `R.find(c + ' ' + t)` returns: the text handed to `find` is the context,
one space, then the selector, and `find` is called on the bound root, once,
after the classifier was asked about the selector and about the context. -/
theorem string_context_order (E : Env) (n : Nat) (t c : String) (root options : Val)
    (s : State) (hne : t ≠ "") (hh : E.isHtml t = false)
    (hc : c ≠ "") (hhc : E.isHtml c = false)
    (hroot : (∃ R0 pR, root = .ref R0 ∧ s.heap[R0]? = some (.cheerio pR)
        ∧ truthy (getProp s.heap root (.name "cheerio")) = true
        ∧ pR.lookup (.name "find") = none)
      ∨ (∃ ys, RootWraps E root options s ys)) :
    ∃ (R : Nat) (s2 : State),
      Cheerio E (n + 3) .undefined (.str t) (.str c) root options s =
        (match E.find s2.heap R (.str (c ++ " " ++ t)) with
          | .ok (v, h) =>
            .ok (.ref v, { heap := h, log := s2.log ++ [.find (.ref R) (.str (c ++ " " ++ t))] })
          | .error e => .error e)
      ∧ getProp s2.heap (.ref s.heap.length) (.name "_root") = .ref R
      ∧ (truthy (getProp s.heap root (.name "cheerio")) = true → .ref R = root)
      ∧ (∀ ys, RootWraps E root options s ys →
          s.heap.length < R
            ∧ getProp s2.heap (.ref R) (.name "length") = .num ys.length
            ∧ (∀ i, i < ys.length → getOwn s2.heap R (.idx i) = ys[i]?)
            ∧ (∀ i, ys.length ≤ i → getOwn s2.heap R (.idx i) = none))
      ∧ (∀ r, r < s.heap.length → s2.heap[r]? = s.heap[r]?)
      ∧ (∃ evs, s2.log = s.log ++ evs ++ [.isHtml t, .isHtml c]
          ∧ ∀ a b, Event.find a b ∉ evs ++ [.isHtml t, .isHtml c]) := by
  obtain ⟨s1, h1, h2, ⟨ps1, h3, h3a, _, h3c⟩, h4, evs, h5, h6⟩ :=
    fresh_prelude E n root options s
  have hp : prelude E (n + 1) root options s = .ok s1 := h1
  have hlog : ∃ evs', ((s1.record (.isHtml t)).record (.isHtml c)).log
        = s.log ++ evs' ++ [.isHtml t, .isHtml c]
      ∧ ∀ a b, Event.find a b ∉ evs' ++ [.isHtml t, .isHtml c] :=
    ⟨.flatten options :: evs, by simp [State.record, h5],
      no_find_append (no_find_cons (by simp) h6) (by simp)⟩
  rcases hroot with ⟨R0, pR, rfl, hR, hmark, hfind⟩ | ⟨ys0, hw0⟩
  · have hRl := getElem?_lt_length hR
    have hR1 : s1.heap[R0]? = some (.cheerio pR) := by rw [h2 R0 hRl, hR]
    refine ⟨R0, (s1.record (.isHtml t)).record (.isHtml c),
      folded_root_call E n t c (.ref R0) options s s1 R0 pR hne hh hc hhc hp
        (prelude_root h3 (h3c hmark)) hR1 hfind,
      prelude_root h3 (h3c hmark), fun _ => rfl, ?_, h2, hlog⟩
    intro ys hw
    rw [wraps_unmarked hw] at hmark
    cases hmark
  · obtain ⟨R, pr, g1, _, g3, g4, _, _, _, g8⟩ := root_wraps E n root options s s1 ys0 hp hw0
    refine ⟨R, (s1.record (.isHtml t)).record (.isHtml c),
      folded_root_call E n t c root options s s1 R pr hne hh hc hhc hp g3 g4 g8,
      g3, ?_, ?_, h2, hlog⟩
    · intro hm
      rw [wraps_unmarked hw0] at hm
      cases hm
    · intro ys hw
      obtain ⟨R', pr', _, _, g3', g4', g5', g6', g7', _⟩ :=
        root_wraps E n root options s s1 ys hp hw
      have e : R' = R := by
        rw [g3] at g3'
        injection g3' with g3'
        exact g3'.symm
      subst e
      refine ⟨g1, getProp_of_lookup g4' g5', ?_, ?_⟩
      · intro i hi
        show getOwn s1.heap R' (.idx i) = ys[i]?
        simp only [getOwn, g4']
        exact g6' i hi
      · intro i hi
        show getOwn s1.heap R' (.idx i) = none
        simp only [getOwn, g4']
        exact g7' i hi

/-- Claim C14, amended, on `li` in `ul`: with the node `ul` (at 1) as root, the
root is wrapped in a new collection `R` holding the node, and `find` is called
on `R` with `ul li`; with the document collection (at 0) as root, `find` is
called on the document with `ul li`. -/
theorem string_context_order_witness :
    sampleEnv.isHtml "li" = false ∧ sampleEnv.isHtml "ul" = false
      ∧ (∃ (R : Nat) (s2 : State),
          Cheerio sampleEnv 3 .undefined (.str "li") (.str "ul") (.ref 1) .undefined
            sampleState =
            (match sampleEnv.find s2.heap R (.str "ul li") with
              | .ok (v, h) =>
                .ok (.ref v, { heap := h, log := s2.log ++ [.find (.ref R) (.str "ul li")] })
              | .error e => .error e)
          ∧ getProp s2.heap (.ref 6) (.name "_root") = .ref R
          ∧ 6 < R
          ∧ getProp s2.heap (.ref R) (.name "length") = .num 1
          ∧ (∀ i, i < 1 → getOwn s2.heap R (.idx i) = [Val.ref 1][i]?))
      ∧ (∃ (R : Nat) (s2 : State),
          Cheerio sampleEnv 3 .undefined (.str "li") (.str "ul") (.ref 0) .undefined
            sampleState =
            (match sampleEnv.find s2.heap R (.str "ul li") with
              | .ok (v, h) =>
                .ok (.ref v, { heap := h, log := s2.log ++ [.find (.ref R) (.str "ul li")] })
              | .error e => .error e)
          ∧ Val.ref R = .ref 0) := by
  refine ⟨rfl, rfl, ?_, ?_⟩
  · obtain ⟨R, s2, h1, h2, _, h4, _⟩ := string_context_order sampleEnv 0 "li" "ul" (.ref 1)
      .undefined sampleState (by decide) rfl (by decide) rfl
      (Or.inr ⟨[.ref 1], Or.inr ⟨rfl, rfl, rfl⟩⟩)
    obtain ⟨g1, g2, g3, _⟩ := h4 [.ref 1] (Or.inr ⟨rfl, rfl, rfl⟩)
    exact ⟨R, s2, h1, h2, g1, g2, g3⟩
  · obtain ⟨R, s2, h1, _, h3, _⟩ := string_context_order sampleEnv 0 "li" "ul" (.ref 0)
      .undefined sampleState (by decide) rfl (by decide) rfl
      (Or.inl ⟨0, [(.idx 0, .ref 1), (.name "length", .num 1)], rfl, rfl, rfl, rfl⟩)
    exact ⟨R, s2, h1, h3 rfl⟩

end CheerioRc
